import Mathlib

/-!
# Verification of the Thor constrained-Delaunay-triangulation core

Shallow embedding of `src/thor-v1.0-sdk/src/Triangulation.cpp` (namespace
`thor::detail`).  Machine `float` arithmetic is idealised as exact rational
arithmetic (`ℚ`); C++ `assert` failures are modelled as `Option.none`;
pointer identity of `Vertex` objects is modelled by a numeric `id` field.
The 2-D vector helpers (`CrossProduct`, `PerpendicularVector`,
`SquaredLength`, `Intersect`) come from headers that are not part of the
sources, so they are modelled from the specification's collaborator
interface ("addition, scalar multiply, cross product (z-component),
perpendicular, squared length", "standard proper-intersection test").
-/

namespace Thor

/-- A 2-D vector with exact rational coordinates (idealising `sf::Vector2f`). -/
structure Vec2 where
  x : ℚ
  y : ℚ
deriving DecidableEq

/-- Componentwise addition (spec collaborator interface). -/
def Vec2.add (a b : Vec2) : Vec2 := ⟨a.x + b.x, a.y + b.y⟩

/-- Componentwise subtraction (spec collaborator interface). -/
def Vec2.sub (a b : Vec2) : Vec2 := ⟨a.x - b.x, a.y - b.y⟩

/-- Scalar multiplication (spec collaborator interface). -/
def Vec2.smul (c : ℚ) (a : Vec2) : Vec2 := ⟨c * a.x, c * a.y⟩

/-- Modelled from the spec: the z-component of the 3-D cross product of two
2-D vectors (`CrossProduct(a, b).z` from the missing vector-algebra header). -/
def crossZ (a b : Vec2) : ℚ := a.x * b.y - a.y * b.x

/-- Modelled from the spec: squared Euclidean length (`SquaredLength`). -/
def squaredLength (a : Vec2) : ℚ := a.x * a.x + a.y * a.y

/-- Modelled from the spec: the perpendicular vector (`PerpendicularVector`),
a 90° rotation. -/
def perpendicular (a : Vec2) : Vec2 := ⟨-a.y, a.x⟩

/-- `ClockwiseOrientation` (Triangulation.cpp:230-233):
`CrossProduct(v1 - v0, v2 - v0).z <= 0`. -/
def ClockwiseOrientation (v0 v1 v2 : Vec2) : Bool :=
  decide (crossZ (v1.sub v0) (v2.sub v0) ≤ 0)

/-- `Circle` (Triangulation.cpp:74-78): midpoint and squared radius. -/
structure Circle where
  midPoint : Vec2
  squaredRadius : ℚ
deriving DecidableEq

/-- `ComputeCircumcircle` (Triangulation.cpp:235-258), on the three corner
positions.  The entry `assert` (line 237) compares position 0 with positions
1 and 2 only; its failure is modelled as `none`. -/
def computeCircumcircleP (a0 a1 a2 : Vec2) : Option Circle :=
  if a0 = a1 ∨ a0 = a2 then none
  else
    let p : Vec2 := Vec2.smul (1/2) (a0.add a1)
    let q : Vec2 := Vec2.smul (1/2) (a0.add a2)
    let v : Vec2 := perpendicular (p.sub a0)
    let w : Vec2 := perpendicular (q.sub a0)
    let d : ℚ := v.x * w.y - v.y * w.x
    let intersection : Vec2 :=
      ⟨(v.x * (p.y * w.x + q.x * w.y - q.y * w.x) - p.x * v.y * w.x) / d,
       (w.y * (p.y * v.x + q.x * v.y - p.x * v.y) - q.y * v.y * w.x) / d⟩
    some ⟨intersection, squaredLength (intersection.sub a0)⟩

/-- A user `Vertex` (Thor/Math/Triangulation.hpp): an immutable 2-D position.
C++ identity is the object's address; it is modelled by the `id` field
(two `Vertex` objects with equal positions can still be distinct entities). -/
structure Vertex where
  id : ℕ
  pos : Vec2
deriving DecidableEq

/-- `AdvancedVertex` (Triangulation.cpp:83-107): a user vertex together with
the handle of the triangle currently known to contain it. -/
structure AdvVert where
  vert : Vertex
  surrounding : ℕ
deriving DecidableEq

/-- `AdvancedTriangle` (Triangulation.cpp:165-219): three corner vertices
(clockwise when well-formed), the ids of the not-yet-inserted vertices inside
it (`mRemainingVertices`), three adjacency slots (slot `i` opposite corner
`i`), and the removal flag. -/
structure Tri where
  c0 : Vertex
  c1 : Vertex
  c2 : Vertex
  rem : List ℕ
  a0 : Option ℕ
  a1 : Option ℕ
  a2 : Option ℕ
  flagged : Bool
deriving DecidableEq

/-- `At(triangle, index).GetPosition()`-style corner access.  Indices are
`unsigned int` in the C++ (always in `0..2` at the call sites, which apply
`% 3` themselves); out-of-range access would be undefined, modelled
arbitrarily by the last corner. -/
def Tri.corner (t : Tri) (i : ℕ) : Vertex :=
  if i = 0 then t.c0 else if i = 1 then t.c1 else t.c2

/-- The position of the triangle's corner `index` (`At`, Triangulation.cpp:225-228). -/
def At (t : Tri) (index : ℕ) : Vec2 := (t.corner index).pos

/-- `GetAdjacentTriangle` (Triangulation.cpp:206-209). -/
def Tri.adj (t : Tri) (i : ℕ) : Option ℕ :=
  if i = 0 then t.a0 else if i = 1 then t.a1 else t.a2

/-- `SetAdjacentTriangle` (Triangulation.cpp:201-204). -/
def Tri.setAdj (t : Tri) (i : ℕ) (v : Option ℕ) : Tri :=
  if i = 0 then { t with a0 := v } else if i = 1 then { t with a1 := v }
  else { t with a2 := v }

/-- The triangle arena (`TriangleList`, a `std::list` whose iterators are
modelled by numeric handles) together with the store of advanced vertices
(addressed by their user vertex's id) and a fresh-handle counter. -/
structure Mesh where
  tris : List (ℕ × Tri)
  averts : List (ℕ × AdvVert)
  nextId : ℕ
deriving DecidableEq

/-- Dereference a triangle handle. -/
def Mesh.tri (m : Mesh) (i : ℕ) : Option Tri := (m.tris.lookup i)

/-- Dereference an advanced-vertex id. -/
def Mesh.avert (m : Mesh) (i : ℕ) : Option AdvVert := (m.averts.lookup i)

/-- Point update of one association-list entry: apply `f` to the entries
stored under key `i`. -/
def updEntry {α : Type} (i : ℕ) (f : α → α) (p : ℕ × α) : ℕ × α :=
  if p.1 = i then (p.1, f p.2) else p

/-- Mutate the triangle stored under handle `i` in place. -/
def Mesh.updTri (m : Mesh) (i : ℕ) (f : Tri → Tri) : Mesh :=
  { m with tris := m.tris.map (updEntry i f) }

/-- Mutate the advanced vertex stored under id `i` in place. -/
def Mesh.updAvert (m : Mesh) (i : ℕ) (f : AdvVert → AdvVert) : Mesh :=
  { m with averts := m.averts.map (updEntry i f) }

/-- `InsertTriangle` (Triangulation.cpp:273-277): append a fresh triangle
built of the 3 corners and return its handle. -/
def Mesh.insertTriangle (m : Mesh) (c0 c1 c2 : Vertex) : Mesh × ℕ :=
  ({ m with
      tris := m.tris ++ [(m.nextId, ⟨c0, c1, c2, [], none, none, none, false⟩)],
      nextId := m.nextId + 1 },
   m.nextId)

/-- `triangles.erase(itr)`: physically remove the triangle under a handle. -/
def Mesh.eraseTri (m : Mesh) (i : ℕ) : Mesh :=
  { m with tris := m.tris.filter (fun p => p.1 ≠ i) }

/-- `triangles.remove_if(IsFlagged)` (Triangulation.cpp:708, 829). -/
def Mesh.removeFlagged (m : Mesh) : Mesh :=
  { m with tris := m.tris.filter (fun p => !p.2.flagged) }

/-- `SumVectorComponents` (Triangulation.cpp:663-666): `v.x + v.y`. -/
def SumVectorComponents (v : Vec2) : ℚ := v.x + v.y

/-- `AdvancedEdge` (Triangulation.hpp / Triangulation.cpp:112-124): an edge
with two corner vertices. -/
structure AdvancedEdge where
  e0 : Vertex
  e1 : Vertex
deriving DecidableEq

/-- The `AdvancedEdge` constructor including `OrderCorners`
(Triangulation.cpp:112-124): swap the two corners when the first one's
coordinate sum exceeds the second one's. -/
def mkAdvancedEdge (startPoint endPoint : Vertex) : AdvancedEdge :=
  if SumVectorComponents startPoint.pos > SumVectorComponents endPoint.pos
  then ⟨endPoint, startPoint⟩
  else ⟨startPoint, endPoint⟩

/-- `CompareEdges` (Triangulation.cpp:60-69): `std::pair`-style lexicographic
comparison of the two corners' coordinate pairs. -/
def CompareEdges (lhs rhs : AdvancedEdge) : Bool :=
  decide (lhs.e0.pos.x < rhs.e0.pos.x ∨
    (lhs.e0.pos.x = rhs.e0.pos.x ∧ (lhs.e0.pos.y < rhs.e0.pos.y ∨
      (lhs.e0.pos.y = rhs.e0.pos.y ∧ (lhs.e1.pos.x < rhs.e1.pos.x ∨
        (lhs.e1.pos.x = rhs.e1.pos.x ∧ lhs.e1.pos.y < rhs.e1.pos.y))))))

/-- `std::set` membership equivalence under the strict order `CompareEdges`. -/
def edgeEquiv (a b : AdvancedEdge) : Bool :=
  !CompareEdges a b && !CompareEdges b a

/-- The contents of an `EdgeSet` (`std::set<AdvancedEdge, CompareEdges>`). -/
def EdgeSet := List AdvancedEdge

/-- `IsEdgeConstrained` (Triangulation.cpp:768-779): build the
corner-ordered edge from the two points and look it up in the set (the
debug `assert` merely re-checks the found candidate and aborts nothing in
the cases exercised here). -/
def IsEdgeConstrained (constrainedEdges : EdgeSet) (startPoint endPoint : Vertex) : Bool :=
  let adv := mkAdvancedEdge startPoint endPoint
  List.any constrainedEdges (fun c => edgeEquiv adv c)

/-- Modelled from the spec: `segmentsIntersect(e1, e2)` — the "standard
proper-intersection test" (`Intersect`, from the missing geometry header):
each segment's endpoints lie strictly on opposite sides of the other
segment's supporting line. -/
def segmentsIntersect (e1 e2 : AdvancedEdge) : Bool :=
  let d1 := crossZ (e1.e1.pos.sub e1.e0.pos) (e2.e0.pos.sub e1.e0.pos)
  let d2 := crossZ (e1.e1.pos.sub e1.e0.pos) (e2.e1.pos.sub e1.e0.pos)
  let d3 := crossZ (e2.e1.pos.sub e2.e0.pos) (e1.e0.pos.sub e2.e0.pos)
  let d4 := crossZ (e2.e1.pos.sub e2.e0.pos) (e1.e1.pos.sub e2.e0.pos)
  decide (d1 * d2 < 0 ∧ d3 * d4 < 0)

/-- `IntersectsEdge` (Triangulation.cpp:261-270): does `edge` intersect any
constrained edge? -/
def IntersectsEdge (edge : AdvancedEdge) (constrainedEdges : EdgeSet) : Bool :=
  List.any constrainedEdges (fun e => segmentsIntersect edge e)

/-- Three-section `IsVertexInSection` (Triangulation.cpp:283-290), on the
vertex's position.  (Its entry `assert` requires `corner1, corner2, center`
to be clockwise; in the verified call sites this follows from the
hypotheses, so the release semantics is used here.) -/
def IsVertexInSection3 (vpos center corner1 corner2 : Vec2) : Bool :=
  decide (crossZ (corner1.sub center) (vpos.sub center) < 0 ∧
          0 ≤ crossZ (corner2.sub center) (vpos.sub center))

/-- Two-section `IsVertexInSection` (Triangulation.cpp:295-298). -/
def IsVertexInSection2 (vpos corner1 corner2 : Vec2) : Bool :=
  decide (0 ≤ crossZ (corner2.sub corner1) (vpos.sub corner1))

/-- `ContainsVertex` (Triangulation.cpp:538-548): pointer-identity membership,
modelled by id equality. -/
def ContainsVertex (container : List Vertex) (vertex : Vertex) : Bool :=
  List.any container (fun v => v.id == vertex.id)

/-- `SharedBoundary` (Triangulation.cpp:551-556). -/
def SharedBoundary (boundaryVertices : List Vertex) (first : Tri)
    (sharedCornerIndices1 sharedCornerIndices2 : ℕ × ℕ) : Bool :=
  ContainsVertex boundaryVertices (first.corner sharedCornerIndices1.1)
  || ContainsVertex boundaryVertices (first.corner sharedCornerIndices2.1)

/-- `DisjointBoundary` (Triangulation.cpp:559-564). -/
def DisjointBoundary (boundaryVertices : List Vertex) (first second : Tri)
    (disjointCornerIndices : ℕ × ℕ) : Bool :=
  ContainsVertex boundaryVertices (first.corner disjointCornerIndices.1)
  || ContainsVertex boundaryVertices (second.corner disjointCornerIndices.2)

/-- One position comparison of `ArrangeCorners`' match loop
(Triangulation.cpp:393): `At(first, (j+i) % 3) == At(second, 2-i)`. -/
def matchAt (first second : Tri) (j i : ℕ) : Bool :=
  decide (At first ((j + i) % 3) = At second (2 - i))

/-- How many of the three rotated-vs-reversed corner comparisons match
(Triangulation.cpp:397). -/
def matchCount (first second : Tri) (j : ℕ) : ℕ :=
  (if matchAt first second j 0 then 1 else 0)
  + (if matchAt first second j 1 then 1 else 0)
  + (if matchAt first second j 2 then 1 else 0)

/-- The final clockwise normalisation of `ArrangeCorners`
(Triangulation.cpp:437-443): swap the shared-corner pairs when
`sc1 -> sc2 -> dc` is not clockwise in `first`. -/
def arrangeOrient (first : Tri) (s1 s2 d : ℕ × ℕ) :
    (ℕ × ℕ) × (ℕ × ℕ) × (ℕ × ℕ) :=
  if ClockwiseOrientation (At first s1.1) (At first s2.1) (At first d.1)
  then (s1, s2, d)
  else (s2, s1, d)

/-- The body of `ArrangeCorners` for a fixed rotation `j` with two position
matches (Triangulation.cpp:399-445).  The two `assert`s compare object
identity of the corners (lines 410 and 427); their failure is `none`. -/
def arrangeCommit (first second : Tri) (j : ℕ) :
    Option ((ℕ × ℕ) × (ℕ × ℕ) × (ℕ × ℕ)) :=
  let idx : ℕ → ℕ × ℕ := fun i => ((j + i) % 3, 2 - i)
  let sharedOk : ℕ × ℕ → Bool := fun p =>
    (first.corner p.1).id == (second.corner p.2).id
  let disjointOk : ℕ × ℕ → Bool := fun p =>
    (first.corner p.1).id != (second.corner p.2).id
  match matchAt first second j 0, matchAt first second j 1, matchAt first second j 2 with
  | true, true, false =>
    if sharedOk (idx 0) && sharedOk (idx 1) && disjointOk (idx 2)
    then some (arrangeOrient first (idx 0) (idx 1) (idx 2)) else none
  | true, false, true =>
    if sharedOk (idx 0) && disjointOk (idx 1) && sharedOk (idx 2)
    then some (arrangeOrient first (idx 0) (idx 2) (idx 1)) else none
  | false, true, true =>
    if disjointOk (idx 0) && sharedOk (idx 1) && sharedOk (idx 2)
    then some (arrangeOrient first (idx 1) (idx 2) (idx 0)) else none
  | _, _, _ => none

/-- `ArrangeCorners` (Triangulation.cpp:379-451): try the rotations
`j = 0, 1, 2` in order and commit to the first one with exactly two corner
matches; the trailing `assert(false)` (line 450, non-adjacent triangles) is
`none`. -/
def arrangeCorners (first second : Tri) :
    Option ((ℕ × ℕ) × (ℕ × ℕ) × (ℕ × ℕ)) :=
  if matchCount first second 0 = 2 then arrangeCommit first second 0
  else if matchCount first second 1 = 2 then arrangeCommit first second 1
  else if matchCount first second 2 = 2 then arrangeCommit first second 2
  else none

/-- `TransferVertex` (Triangulation.cpp:301-309): repoint the vertex's
surrounding-triangle back-reference, add it to the destination triangle's
remaining set, remove it from the source triangle's remaining set. -/
def transferVertex (m : Mesh) (sourceTriangle vid destTriangle : ℕ) : Mesh :=
  let m1 := m.updAvert vid (fun a => { a with surrounding := destTriangle })
  let m2 := m1.updTri destTriangle (fun t => { t with rem := t.rem ++ [vid] })
  m2.updTri sourceTriangle (fun t => { t with rem := t.rem.filter (fun w => w ≠ vid) })

/-- `UpdateAdjacentBackReferences` (Triangulation.cpp:313-330): in `other`
(when valid), replace the first adjacency slot holding `oldTriangle` by
`newTriangle`; the `assert(false)` when no slot points back is `none`. -/
def updateAdjacentBackReferences (m : Mesh) (oldTriangle : ℕ)
    (newTriangle : Option ℕ) (other : Option ℕ) : Option Mesh :=
  match other with
  | none => some m
  | some o =>
    match m.tri o with
    | none => none
    | some ot =>
      if ot.adj 0 = some oldTriangle then
        some (m.updTri o (fun t => t.setAdj 0 newTriangle))
      else if ot.adj 1 = some oldTriangle then
        some (m.updTri o (fun t => t.setAdj 1 newTriangle))
      else if ot.adj 2 = some oldTriangle then
        some (m.updTri o (fun t => t.setAdj 2 newTriangle))
      else none

/-- `InitializeAdjacents` (Triangulation.cpp:334-346): wire the split child
`nt index` to its two sibling children and to the old triangle's neighbor
opposite corner `index2`, updating that neighbor's back-reference. -/
def initializeAdjacents (m : Mesh) (nt : ℕ → ℕ) (index : ℕ)
    (oldTriangle : ℕ) : Option Mesh :=
  let index1 : ℕ := (index + 1) % 3
  let index2 : ℕ := (index + 2) % 3
  match m.tri oldTriangle with
  | none => none
  | some oldT =>
    let other := oldT.adj index2
    let m1 := m.updTri (nt index) (fun t => t.setAdj 0 (some (nt index1)))
    let m2 := m1.updTri (nt index) (fun t => t.setAdj 1 (some (nt index2)))
    let m3 := m2.updTri (nt index) (fun t => t.setAdj 2 other)
    updateAdjacentBackReferences m3 oldTriangle (some (nt index)) other

/-- The loop body of `TransferVertices3` (Triangulation.cpp:355-370) over the
pending vertex ids.  The final else-branch `assert` (line 367) is `none` when
the third section test also fails. -/
def tv3Go (old : ℕ) (nt : ℕ → ℕ) (ce p0 p1 p2 : Vec2) :
    Mesh → List ℕ → Option Mesh
  | m, [] => some m
  | m, vid :: rest =>
    match m.avert vid with
    | none => none
    | some av =>
      if IsVertexInSection3 av.vert.pos ce p0 p1 then
        tv3Go old nt ce p0 p1 p2 (transferVertex m old vid (nt 0)) rest
      else if IsVertexInSection3 av.vert.pos ce p1 p2 then
        tv3Go old nt ce p0 p1 p2 (transferVertex m old vid (nt 1)) rest
      else if IsVertexInSection3 av.vert.pos ce p2 p0 then
        tv3Go old nt ce p0 p1 p2 (transferVertex m old vid (nt 2)) rest
      else none

/-- `TransferVertices3` (Triangulation.cpp:349-371): distribute every
remaining vertex of the old triangle into the three split children according
to the wedge section containing it. -/
def transferVertices3 (m : Mesh) (oldTriangleItr : ℕ) (nt : ℕ → ℕ)
    (newCornerPosition : Vec2) : Option Mesh :=
  match m.tri oldTriangleItr with
  | none => none
  | some oldT =>
    tv3Go oldTriangleItr nt newCornerPosition
      (At oldT 0) (At oldT 1) (At oldT 2) m oldT.rem

/-- The split part of `InsertPoint` (Triangulation.cpp:671-694): locate the
surrounding triangle, assert it is clockwise (line 674), create the three
children, wire adjacency, remove the inserted vertex from the remaining set
(`RemoveVertex`, whose `assert(erased == 1)` requires membership), transfer
the rest, and erase the old triangle.  (The subsequent local-Delaunay loop
and the flagged sweep, lines 699-708, are separate repair steps.) -/
def insertPointSplit (m : Mesh) (vid : ℕ) : Option Mesh :=
  match m.avert vid with
  | none => none
  | some vertex =>
    match m.tri vertex.surrounding with
    | none => none
    | some oldT =>
      if ClockwiseOrientation (At oldT 0) (At oldT 1) (At oldT 2) = false then none
      else
        let r0 := m.insertTriangle oldT.c0 oldT.c1 vertex.vert
        let r1 := r0.1.insertTriangle oldT.c1 oldT.c2 vertex.vert
        let r2 := r1.1.insertTriangle oldT.c2 oldT.c0 vertex.vert
        let nt : ℕ → ℕ := fun i =>
          if i = 0 then r0.2 else if i = 1 then r1.2 else r2.2
        match initializeAdjacents r2.1 nt 0 vertex.surrounding with
        | none => none
        | some m4 =>
          match initializeAdjacents m4 nt 1 vertex.surrounding with
          | none => none
          | some m5 =>
            match initializeAdjacents m5 nt 2 vertex.surrounding with
            | none => none
            | some m6 =>
              match m6.tri vertex.surrounding with
              | none => none
              | some t6 =>
                if vid ∈ t6.rem then
                  let m7 := m6.updTri vertex.surrounding
                    (fun t => { t with rem := t.rem.filter (fun w => w ≠ vid) })
                  match transferVertices3 m7 vertex.surrounding nt vertex.vert.pos with
                  | none => none
                  | some m8 => some (m8.eraseTri vertex.surrounding)
                else none

/-- The loop body of `TransferVertices2Impl` (Triangulation.cpp:458-469): put
each pending vertex on one side of the new diagonal.  (The else-branch
`assert` at line 466 always holds: the reversed two-section test is the
complement of the strict one, see `IsVertexInSection2`.) -/
def tv2Go (old newFirst newSecond : ℕ) (dcF dcS : Vec2) :
    Mesh → List ℕ → Option Mesh
  | m, [] => some m
  | m, vid :: rest =>
    match m.avert vid with
    | none => none
    | some av =>
      if IsVertexInSection2 av.vert.pos dcF dcS then
        tv2Go old newFirst newSecond dcF dcS (transferVertex m old vid newFirst) rest
      else
        tv2Go old newFirst newSecond dcF dcS (transferVertex m old vid newSecond) rest

/-- `TransferVertices2Impl` (Triangulation.cpp:454-470). -/
def transferVertices2Impl (m : Mesh) (dcF dcS : Vec2)
    (newFirst newSecond oldTriangle : ℕ) : Option Mesh :=
  match m.tri oldTriangle with
  | none => none
  | some t => tv2Go oldTriangle newFirst newSecond dcF dcS m t.rem

/-- `TransferVertices2` (Triangulation.cpp:474-479). -/
def transferVertices2 (m : Mesh) (oldFirst oldSecond newFirst newSecond : ℕ)
    (disjointCornerIndices : ℕ × ℕ) : Option Mesh :=
  match m.tri oldFirst, m.tri oldSecond with
  | some t1, some t2 =>
    let dcF := At t1 disjointCornerIndices.1
    let dcS := At t2 disjointCornerIndices.2
    match transferVertices2Impl m dcF dcS newFirst newSecond oldFirst with
    | none => none
    | some m1 => transferVertices2Impl m1 dcF dcS newFirst newSecond oldSecond
  | _, _ => none

/-- `UpdateAdjacentRelation` (Triangulation.cpp:483-492): copy neighbor
`oldIndex` of `oldTriangle` into slot `newIndex` of `newTriangle` and update
that neighbor's back-reference. -/
def updateAdjacentRelation (m : Mesh) (oldTriangle : ℕ) (oldIndex : ℕ)
    (newTriangle : ℕ) (newIndex : ℕ) : Option Mesh :=
  match m.tri oldTriangle with
  | none => none
  | some ot =>
    let other := ot.adj oldIndex
    let m1 := m.updTri newTriangle (fun t => t.setAdj newIndex other)
    updateAdjacentBackReferences m1 oldTriangle (some newTriangle) other

/-- `FlipEdges` (Triangulation.cpp:502-535): replace the two adjacent
triangles by the two triangles across the other diagonal of their merged
quadrilateral, migrate the pending vertices, rewire the four outer adjacency
links and the new inner one, and flag the two old triangles. -/
def flipEdges (m : Mesh) (oldFirst oldSecond : ℕ)
    (sharedCornerIndices1 sharedCornerIndices2 disjointCornerIndices : ℕ × ℕ) :
    Option (Mesh × ℕ × ℕ) :=
  match m.tri oldFirst, m.tri oldSecond with
  | some t1, some t2 =>
    let rf := m.insertTriangle (t1.corner sharedCornerIndices1.1)
      (t2.corner disjointCornerIndices.2) (t1.corner disjointCornerIndices.1)
    let rs := rf.1.insertTriangle (t2.corner sharedCornerIndices2.2)
      (t1.corner disjointCornerIndices.1) (t2.corner disjointCornerIndices.2)
    let newFirst := rf.2
    let newSecond := rs.2
    match transferVertices2 rs.1 oldFirst oldSecond newFirst newSecond disjointCornerIndices with
    | none => none
    | some m3 =>
      match updateAdjacentRelation m3 oldFirst sharedCornerIndices1.1 newSecond 2 with
      | none => none
      | some m4 =>
        match updateAdjacentRelation m4 oldFirst sharedCornerIndices2.1 newFirst 1 with
        | none => none
        | some m5 =>
          match updateAdjacentRelation m5 oldSecond sharedCornerIndices1.2 newSecond 1 with
          | none => none
          | some m6 =>
            match updateAdjacentRelation m6 oldSecond sharedCornerIndices2.2 newFirst 2 with
            | none => none
            | some m7 =>
              let m8 := (m7.updTri newFirst (fun t => t.setAdj 0 (some newSecond))).updTri
                newSecond (fun t => t.setAdj 0 (some newFirst))
              let m9 := (m8.updTri oldFirst (fun t => { t with flagged := true })).updTri
                oldSecond (fun t => { t with flagged := true })
              some (m9, newFirst, newSecond)
  | _, _ => none

mutual

/-- `EnsureLocalDelaunay` (Triangulation.cpp:600-660).  The `fuel` bound pays
for the unbounded flip recursion (the C++ code recurses without an explicit
bound); returning `none` means either fuel exhaustion, a failed `assert`, or
an invalid handle.  The returned Bool is the C++ return value (true iff this
call performed an edge flip). -/
def ensureLocalDelaunay : ℕ → Mesh → ℕ → ℕ → List Vertex → EdgeSet →
    Option (Bool × Mesh)
  | 0, _, _, _, _, _ => none
  | fuel + 1, m, first, second, boundaryVertices, constrainedEdges =>
    match m.tri first, m.tri second with
    | some t1, some t2 =>
      if t1.flagged || t2.flagged then some (false, m)
      else
        match arrangeCorners t1 t2 with
        | none => none
        | some (sc1, sc2, dc) =>
          let disjointBoundary := DisjointBoundary boundaryVertices t1 t2 dc
          let sharedBoundary := SharedBoundary boundaryVertices t1 sc1 sc2
          let sharedBlocking := IntersectsEdge
            (mkAdvancedEdge (t1.corner sc1.1) (t1.corner sc2.1)) constrainedEdges
          let disjointBlocking := IntersectsEdge
            (mkAdvancedEdge (t1.corner dc.1) (t2.corner dc.2)) constrainedEdges
          let disjointEdgeEnforced := disjointBoundary || disjointBlocking
          let sharedEdgeEnforced := sharedBoundary || sharedBlocking
          if disjointEdgeEnforced && !sharedEdgeEnforced then some (false, m)
          else if sharedEdgeEnforced && !disjointEdgeEnforced then
            if ClockwiseOrientation (At t1 dc.1) (At t2 dc.2) (At t1 sc1.1)
               || ClockwiseOrientation (At t2 dc.2) (At t1 dc.1) (At t1 sc2.1) then
              some (false, m)
            else
              match changeEdgeSituation fuel m first second boundaryVertices
                  constrainedEdges sc1 sc2 dc with
              | none => none
              | some m2 => some (true, m2)
          else
            match computeCircumcircleP (At t1 0) (At t1 1) (At t1 2),
                computeCircumcircleP (At t2 0) (At t2 1) (At t2 2) with
            | some circ, some circ2 =>
              if squaredLength ((At t2 dc.2).sub circ.midPoint) < circ.squaredRadius
                 ∧ squaredLength ((At t1 dc.1).sub circ2.midPoint) < circ2.squaredRadius
              then
                match changeEdgeSituation fuel m first second boundaryVertices
                    constrainedEdges sc1 sc2 dc with
                | none => none
                | some m2 => some (true, m2)
              else some (false, m)
            | _, _ => none
    | _, _ => none
termination_by fuel m first second bv ce => (fuel, 0)
decreasing_by
all_goals
  apply Prod.Lex.left
  omega

/-- `ChangeEdgeSituation` (Triangulation.cpp:580-592): flip, then re-check
the Delaunay condition on the four new outer neighbor pairs (all four calls
execute; a pair whose triangle was condemned meanwhile no-ops). -/
def changeEdgeSituation : ℕ → Mesh → ℕ → ℕ → List Vertex → EdgeSet →
    (ℕ × ℕ) → (ℕ × ℕ) → (ℕ × ℕ) → Option Mesh
  | fuel, m, first, second, boundaryVertices, constrainedEdges, sc1, sc2, dc =>
    match flipEdges m first second sc1 sc2 dc with
    | none => none
    | some (m1, newFirst, newSecond) =>
      match ensureLocalDelaunayAdjacent fuel m1 newFirst 1 boundaryVertices constrainedEdges with
      | none => none
      | some m2 =>
        match ensureLocalDelaunayAdjacent fuel m2 newFirst 2 boundaryVertices constrainedEdges with
        | none => none
        | some m3 =>
          match ensureLocalDelaunayAdjacent fuel m3 newSecond 1 boundaryVertices constrainedEdges with
          | none => none
          | some m4 =>
            ensureLocalDelaunayAdjacent fuel m4 newSecond 2 boundaryVertices constrainedEdges
termination_by fuel m first second bv ce sc1 sc2 dc => (fuel, 2)
decreasing_by
all_goals
  apply Prod.Lex.right
  omega

/-- `EnsureLocalDelaunayAdjacent` (Triangulation.cpp:571-577): recurse into
the neighbor behind `adjacentIndex` when it exists. -/
def ensureLocalDelaunayAdjacent : ℕ → Mesh → ℕ → ℕ → List Vertex → EdgeSet →
    Option Mesh
  | fuel, m, triangleItr, adjacentIndex, boundaryVertices, constrainedEdges =>
    match m.tri triangleItr with
    | none => none
    | some t =>
      match t.adj adjacentIndex with
      | none => some m
      | some target =>
        match ensureLocalDelaunay fuel m triangleItr target boundaryVertices constrainedEdges with
        | none => none
        | some (_, m2) => some m2
termination_by fuel m ti ai bv ce => (fuel, 1)
decreasing_by
all_goals
  apply Prod.Lex.right
  omega

end

/-- `CreateBoundaryPoints` (Triangulation.cpp:713-729): the bootstrap mesh —
three synthetic boundary vertices at the initial positions, one triangle
spanning them, no neighbors, every synthetic vertex's back-reference on that
triangle. -/
def createBoundaryPoints : Mesh :=
  { tris := [(0, ⟨⟨0, ⟨-1, 0⟩⟩, ⟨1, ⟨0, 1⟩⟩, ⟨2, ⟨1, 0⟩⟩, [], none, none, none, false⟩)],
    averts := [(0, ⟨⟨0, ⟨-1, 0⟩⟩, 0⟩), (1, ⟨⟨1, ⟨0, 1⟩⟩, 0⟩), (2, ⟨⟨2, ⟨1, 0⟩⟩, 0⟩)],
    nextId := 1 }

/-- The `maxCoord` fold of `SetBoundaryPositions` (Triangulation.cpp:736-741). -/
def maxAbsCoord (allVertices : List Vec2) : ℚ :=
  allVertices.foldl (fun acc v => max (max acc (abs v.x)) (abs v.y)) 0

/-- The fixed perturbation (Triangulation.cpp:744), `0.000372f` idealised. -/
def boundaryEpsilon : ℚ := 372 / 1000000

/-- `SetBoundaryPositions` (Triangulation.cpp:733-751): the three rewritten
boundary positions, at scale `4 * maxCoord` perturbed by `boundaryEpsilon`. -/
def setBoundaryPositions (allVertices : List Vec2) : Vec2 × Vec2 × Vec2 :=
  let maxCoord := 4 * maxAbsCoord allVertices
  let e := boundaryEpsilon
  (⟨e, maxCoord - e⟩, ⟨maxCoord + e, -e⟩, ⟨-maxCoord - e, -maxCoord + e⟩)

/-- Closed (boundary included) containment of a point in the triangle spanned
by the clockwise triple `b0 b1 b2`: the point lies on the clockwise side of
each directed edge. -/
def inTriangleCW (b0 b1 b2 p : Vec2) : Bool :=
  decide (crossZ (b1.sub b0) (p.sub b0) ≤ 0 ∧
          crossZ (b2.sub b1) (p.sub b1) ≤ 0 ∧
          crossZ (b0.sub b2) (p.sub b2) ≤ 0)

/-- `HasUnusedAdjacent` (Triangulation.cpp:783-789): the neighbor behind slot
`index` unless the crossed edge (opposite corner `index`) is constrained. -/
def hasUnusedAdjacent (triangle : Tri) (index : ℕ) (constrainedEdges : EdgeSet) :
    Option ℕ :=
  if IsEdgeConstrained constrainedEdges (triangle.corner ((index + 1) % 3))
      (triangle.corner ((index + 2) % 3))
  then none
  else triangle.adj index

/-- Number of live (unflagged) triangle entries; the termination measure of
the flood-fill loop. -/
def unflaggedCount (m : Mesh) : ℕ :=
  m.tris.countP (fun p => !p.2.flagged)

/-- One push of the flood-fill (`stack.push`, Triangulation.cpp:804). -/
def pushOpt (s : List ℕ) (o : Option ℕ) : List ℕ :=
  match o with
  | some a => a :: s
  | none => s

/-- The `while (!stack.empty())` loop of `RemoveOuterPolygonTriangles`
(Triangulation.cpp:817-825) together with the body
`RemoveOuterPolygonTrianglesImpl` (Triangulation.cpp:792-806): pop a
triangle; if it is already flagged skip it, otherwise flag it and push the
neighbors reachable across non-constrained edges (slots 0, 1, 2 in order,
so slot 2's neighbor ends on top).  `log` is ghost instrumentation recording
each `Flag()` call; it does not influence the computation.  Termination is
by the lexicographic measure (live triangles, stack size). -/
def removeOuterLoop (constrainedEdges : EdgeSet) :
    Mesh → List ℕ → List ℕ → Option (Mesh × List ℕ)
  | m, [], log => some (m, log)
  | m, current :: rest, log =>
    match hcur : m.tri current with
    | none => none
    | some t =>
      if hfl : t.flagged then removeOuterLoop constrainedEdges m rest log
      else
        removeOuterLoop constrainedEdges
          (m.updTri current (fun u => { u with flagged := true }))
          (pushOpt (pushOpt (pushOpt rest (hasUnusedAdjacent t 0 constrainedEdges))
            (hasUnusedAdjacent t 1 constrainedEdges))
            (hasUnusedAdjacent t 2 constrainedEdges))
          (log ++ [current])
termination_by m stack log => (unflaggedCount m, stack.length)
decreasing_by
· apply Prod.Lex.right
  simp
· apply Prod.Lex.left
  have hmono : ∀ (l2 : List (ℕ × Tri)),
      List.countP (fun p => !p.2.flagged)
        (List.map (updEntry current (fun u => { u with flagged := true })) l2)
      ≤ List.countP (fun p => !p.2.flagged) l2 := by
    intro l2
    rw [List.countP_map]
    apply List.countP_mono_left
    intro x _ hx
    by_cases h : x.1 = current
    · exfalso
      revert hx
      simp [updEntry, Function.comp, h]
    · revert hx
      simp [updEntry, Function.comp, h]
  have hkey : ∀ (l : List (ℕ × Tri)) (u : Tri), List.lookup current l = some u →
      u.flagged = false →
      List.countP (fun p => !p.2.flagged)
        (List.map (updEntry current (fun u => { u with flagged := true })) l)
      < List.countP (fun p => !p.2.flagged) l := by
    intro l
    induction l with
    | nil =>
      intro u h
      simp [List.lookup] at h
    | cons hd tl ih =>
      intro u hlook hufl
      rcases hd with ⟨k, w⟩
      by_cases hk : current = k
      · subst hk
        simp only [List.lookup, beq_self_eq_true, Option.some.injEq] at hlook
        subst hlook
        have h1 := hmono tl
        simp only [List.map_cons, List.countP_cons]
        simp [updEntry, List.countP_map, hufl] at h1 ⊢
        omega
      · have hb : (current == k) = false := beq_eq_false_iff_ne.mpr hk
        simp only [List.lookup, hb] at hlook
        have h1 := ih u hlook hufl
        simp only [List.map_cons, List.countP_cons]
        simp [updEntry, List.countP_map, Ne.symm hk] at h1 ⊢
        omega
  exact hkey m.tris t hcur (Bool.not_eq_true t.flagged ▸ eq_false_of_ne_true hfl)

/-- One flood-fill step: `b` is directly reachable from `a` by following an
adjacency link whose crossed edge is not constrained. -/
def ropStep (m : Mesh) (constrainedEdges : EdgeSet) (a b : ℕ) : Prop :=
  ∃ t, ∃ i < 3, m.tri a = some t ∧ hasUnusedAdjacent t i constrainedEdges = some b

/-- Flood-fill reachability over the initial mesh. -/
def ropReachable (m : Mesh) (constrainedEdges : EdgeSet) (s : ℕ) (b : ℕ) : Prop :=
  Relation.ReflTransGen (ropStep m constrainedEdges) s b

/-- The view of a mesh obtained from `m0` by flagging exactly the handles in
`log`: the flood-fill's intermediate states are all of this shape. -/
def flagView (m0 : Mesh) (log : List ℕ) (i : ℕ) : Option Tri :=
  (m0.tri i).map (fun t => if i ∈ log then { t with flagged := true } else t)

/-- `RemoveOuterPolygonTriangles` (Triangulation.cpp:812-830): flood-fill
from `current`, then erase every flagged triangle.  Returns the final mesh
and the ghost log of `Flag()` calls. -/
def removeOuterPolygonTriangles (m : Mesh) (current : ℕ)
    (constrainedEdges : EdgeSet) : Option (Mesh × List ℕ) :=
  match removeOuterLoop constrainedEdges m [current] [] with
  | none => none
  | some (m1, log) => some (m1.removeFlagged, log)

/-- A stored, unflagged ("live", spec §4.5's state-machine view) triangle. -/
def Mesh.live (m : Mesh) (i : ℕ) : Prop :=
  ∃ t, m.tri i = some t ∧ t.flagged = false

/-- The adjacency-symmetry invariant (spec §3): if a live triangle's slot
holds a handle to a live triangle, some slot of the latter points back. -/
def AdjSym (m : Mesh) : Prop :=
  ∀ ia A i ib B, m.tri ia = some A → A.flagged = false → A.adj i = some ib →
    m.tri ib = some B → B.flagged = false → ∃ j, B.adj j = some ia

/-- Executable check of `AdjSym` over all stored triangle entries. -/
def adjSymB (m : Mesh) : Bool :=
  m.tris.all (fun pa =>
    pa.2.flagged ||
    List.all [(0 : ℕ), 1, 2] (fun i =>
      match pa.2.adj i with
      | none => true
      | some ib =>
        match m.tri ib with
        | none => true
        | some bt =>
          bt.flagged || (bt.adj 0 == some pa.1 || bt.adj 1 == some pa.1
            || bt.adj 2 == some pa.1)))

/-- Exactly one of three Booleans is set. -/
def exactlyOne3 (a b c : Bool) : Bool :=
  (a && !b && !c) || (!a && b && !c) || (!a && !b && c)

/-- A point strictly inside the clockwise triangle `p0 p1 p2`: strictly on
the clockwise side of each directed edge. -/
def strictlyInsideCW (p0 p1 p2 q : Vec2) : Prop :=
  crossZ (p1.sub p0) (q.sub p0) < 0 ∧ crossZ (p2.sub p1) (q.sub p1) < 0 ∧
    crossZ (p0.sub p2) (q.sub p2) < 0

/-- The stored handles of a mesh. -/
def Mesh.keys (m : Mesh) : List ℕ := m.tris.map Prod.fst

/-- Basic arena well-formedness: handles are unique and below the fresh
counter. -/
def MeshWF (m : Mesh) : Prop :=
  m.keys.Nodup ∧ ∀ k ∈ m.keys, k < m.nextId

/-- The convexity test `EnsureLocalDelaunay` applies to the merged
quadrilateral before a forced flip (Triangulation.cpp:637-639): the two
triples around the new diagonal must both be strictly counterclockwise. -/
def mergedQuadConvex (t1 t2 : Tri) (sc1 sc2 dc : ℕ × ℕ) : Bool :=
  !ClockwiseOrientation (At t1 dc.1) (At t2 dc.2) (At t1 sc1.1) &&
  !ClockwiseOrientation (At t2 dc.2) (At t1 dc.1) (At t1 sc2.1)

/-- Example vertex for concrete witness meshes. -/
def exA : Vertex := ⟨0, ⟨0, 0⟩⟩

/-- Example vertex for concrete witness meshes. -/
def exB : Vertex := ⟨1, ⟨4, 0⟩⟩

/-- Example vertex for concrete witness meshes. -/
def exC : Vertex := ⟨2, ⟨2, 1⟩⟩

/-- Example vertex for concrete witness meshes. -/
def exD : Vertex := ⟨3, ⟨2, -1⟩⟩

/-- A clockwise triangle `A C B` above the x-axis, adjacent to `exT2` across
the shared edge `A B` (slot 1, opposite its disjoint corner `C`). -/
def exT1 : Tri := ⟨exA, exC, exB, [], none, some 1, none, false⟩

/-- A clockwise triangle `A B D` below the x-axis, adjacent to `exT1` across
the shared edge `A B` (slot 2, opposite its disjoint corner `D`). -/
def exT2 : Tri := ⟨exA, exB, exD, [], none, none, some 0, false⟩

/-- The two-triangle example mesh used by the concrete witnesses. -/
def exMesh : Mesh := ⟨[(0, exT1), (1, exT2)], [], 2⟩

/-- The mesh produced by the Delaunay edge flip on `exMesh`. -/
def exFlipped : Mesh :=
  ⟨[(0, ⟨exA, exC, exB, [], none, some 1, none, true⟩),
    (1, ⟨exA, exB, exD, [], none, none, some 0, true⟩),
    (2, ⟨exB, exD, exC, [], some 3, none, none, false⟩),
    (3, ⟨exA, exC, exD, [], some 2, none, none, false⟩)], [], 4⟩

/- ------------------------------------------------------------------ -/
def remMember (m : Mesh) (k vid : ℕ) : Prop :=
  ∃ t, m.tri k = some t ∧ vid ∈ t.rem

def exV10 : Vertex := ⟨10, ⟨1, 2⟩⟩

def exSplitOld : Tri := ⟨⟨20, ⟨0, 0⟩⟩, ⟨21, ⟨2, 4⟩⟩, ⟨22, ⟨4, 0⟩⟩, [10], none, none, none, false⟩

def exChild : Tri := ⟨⟨20, ⟨0, 0⟩⟩, ⟨21, ⟨2, 4⟩⟩, ⟨23, ⟨2, 1⟩⟩, [], none, none, none, false⟩

def exSplitMesh : Mesh :=
  ⟨[(4, exSplitOld), (5, exChild), (6, exChild), (7, exChild)], [(10, ⟨exV10, 4⟩)], 8⟩

/-- The flagged triangle-removal example mesh: one unflagged triangle, no
neighbors, no constraints. -/
def exRopT : Tri := ⟨exA, exB, exC, [], none, none, none, false⟩

def exRopMesh : Mesh := ⟨[(0, exRopT)], [], 1⟩

/-- Flood-fill counterexample mesh: triangle 0 unflagged, triangle 1
pre-flagged and unreachable from 0. -/
def exRopPre : Mesh :=
  ⟨[(0, exRopT), (1, ⟨exA, exB, exC, [], none, none, none, true⟩)], [], 2⟩

/-- The adjacency-relevant view of a triangle: its three neighbor slots and
its flag (everything `AdjSym` can observe). -/
def adjOf (t : Tri) : Option ℕ × Option ℕ × Option ℕ × Bool :=
  (t.a0, t.a1, t.a2, t.flagged)

/- Theorems                                                            -/
/- ------------------------------------------------------------------ -/

/-- Auxiliary equidistance step for the circumcircle proof: a point given by
numerators over a common nonzero denominator is equidistant from two points
when the linearised circle equation holds. -/
theorem equidistOfKey (N1 N2 D x0 y0 x1 y1 : ℚ) (hD : D ≠ 0)
    (hkey : 2*N1*(x1-x0) + 2*N2*(y1-y0) = D*(x1*x1+y1*y1-x0*x0-y0*y0)) :
    (N1/D - x1)*(N1/D - x1) + (N2/D - y1)*(N2/D - y1)
      = (N1/D - x0)*(N1/D - x0) + (N2/D - y0)*(N2/D - y0) := by
  field_simp
  linear_combination (-D) * hkey

/-- Claim C4 (corrected): `ClockwiseOrientation` returns true exactly when
the cross product's z-component is non-positive — the strictly clockwise
configurations AND the collinear ties.  The spec's tie handling (collinear
returns non-clockwise/false) is the corrected part: the code's `<= 0`
comparison makes ties return true. -/
theorem claim_C4 (v0 v1 v2 : Vec2) :
    (ClockwiseOrientation v0 v1 v2 = true ↔ crossZ (v1.sub v0) (v2.sub v0) ≤ 0) ∧
    (ClockwiseOrientation v0 v1 v2 = false ↔ 0 < crossZ (v1.sub v0) (v2.sub v0)) := by
  constructor
  · simp [ClockwiseOrientation]
  · rw [ClockwiseOrientation]
    rw [decide_eq_false_iff_not, not_le]

/-- Claim C4's counterexample: on the collinear (tie) triple
`(0,0), (1,0), (2,0)` the cross product is exactly zero and the code returns
true (clockwise), while the claim demands false (non-clockwise). -/
theorem claim_C4_counterexample :
    ClockwiseOrientation ⟨0, 0⟩ ⟨1, 0⟩ ⟨2, 0⟩ = true ∧
    crossZ ((Vec2.mk 1 0).sub ⟨0, 0⟩) ((Vec2.mk 2 0).sub ⟨0, 0⟩) = 0 := by
  constructor
  · norm_num [ClockwiseOrientation, crossZ, Vec2.sub]
  · norm_num [crossZ, Vec2.sub]

/-- Claim C7 (corrected): for non-collinear corners (which implies pairwise
distinct) `ComputeCircumcircle` succeeds and returns the circle through the
three corners; and the entry assert rejects exactly the configurations where
corner 0 coincides with corner 1 or with corner 2 — coincidence of corners 1
and 2 alone is NOT rejected, which corrects the claim's "any two corners". -/
theorem claim_C7 (a0 a1 a2 : Vec2)
    (hnc : crossZ (a1.sub a0) (a2.sub a0) ≠ 0) :
    (∃ c, computeCircumcircleP a0 a1 a2 = some c ∧
      squaredLength (c.midPoint.sub a0) = c.squaredRadius ∧
      squaredLength (c.midPoint.sub a1) = c.squaredRadius ∧
      squaredLength (c.midPoint.sub a2) = c.squaredRadius) ∧
    (∀ b0 b1 b2 : Vec2, computeCircumcircleP b0 b1 b2 = none ↔ (b0 = b1 ∨ b0 = b2)) := by
  constructor
  · rcases a0 with ⟨x0, y0⟩
    rcases a1 with ⟨x1, y1⟩
    rcases a2 with ⟨x2, y2⟩
    simp only [crossZ, Vec2.sub] at hnc
    have hne : ¬((Vec2.mk x0 y0) = ⟨x1, y1⟩ ∨ (Vec2.mk x0 y0) = ⟨x2, y2⟩) := by
      rintro (h | h) <;> rw [Vec2.mk.injEq] at h <;> obtain ⟨hx, hy⟩ := h <;> subst hx <;>
        subst hy <;> apply hnc <;> ring
    have hD : (-(1 / 2 * (y0 + y1) - y0) * (1 / 2 * (x0 + x2) - x0) -
        (1 / 2 * (x0 + x1) - x0) * -(1 / 2 * (y0 + y2) - y0)) ≠ 0 := by
      intro h
      apply hnc
      linear_combination 4 * h
    simp only [computeCircumcircleP, if_neg hne, Vec2.add, Vec2.sub, Vec2.smul, perpendicular,
      squaredLength]
    refine ⟨_, rfl, rfl, ?_, ?_⟩
    · exact equidistOfKey _ _ _ _ _ _ _ hD (by ring)
    · exact equidistOfKey _ _ _ _ _ _ _ hD (by ring)
  · intro b0 b1 b2
    by_cases h : b0 = b1 ∨ b0 = b2
    · simp [computeCircumcircleP, h]
    · simp [computeCircumcircleP, h]

/-- Claim C7's witness instance: the right triangle `(0,0), (2,0), (0,2)` is
non-collinear, so the theorem applies. -/
theorem claim_C7_witness :
    (∃ c, computeCircumcircleP ⟨0, 0⟩ ⟨2, 0⟩ ⟨0, 2⟩ = some c ∧
      squaredLength (c.midPoint.sub ⟨0, 0⟩) = c.squaredRadius ∧
      squaredLength (c.midPoint.sub ⟨2, 0⟩) = c.squaredRadius ∧
      squaredLength (c.midPoint.sub ⟨0, 2⟩) = c.squaredRadius) ∧
    (∀ b0 b1 b2 : Vec2, computeCircumcircleP b0 b1 b2 = none ↔ (b0 = b1 ∨ b0 = b2)) :=
  claim_C7 ⟨0, 0⟩ ⟨2, 0⟩ ⟨0, 2⟩ (by norm_num [crossZ, Vec2.sub])

/-- Claim C7's counterexample: the triangle with coincident corners 1 and 2
(at `(1,1)`) passes the entry assert (which only compares corner 0 against
the other two), so the computation does NOT fail as the claim demands; and on
the collinear pairwise-distinct corners `(0,0), (1,0), (2,0)` the division by
the zero determinant yields a "circle" that does not pass through corner 1,
refuting the claim's success half. -/
theorem claim_C7_counterexample :
    (computeCircumcircleP ⟨0, 0⟩ ⟨1, 1⟩ ⟨1, 1⟩).isSome = true ∧
    computeCircumcircleP ⟨0, 0⟩ ⟨1, 0⟩ ⟨2, 0⟩ = some ⟨⟨0, 0⟩, 0⟩ ∧
    squaredLength ((Vec2.mk 1 0).sub ⟨0, 0⟩) ≠ 0 := by
  refine ⟨?_, ?_, ?_⟩
  · norm_num [computeCircumcircleP, Vec2.mk.injEq]
  · norm_num [computeCircumcircleP, Vec2.mk.injEq, Vec2.add, Vec2.sub, Vec2.smul,
      perpendicular, squaredLength]
  · norm_num [squaredLength, Vec2.sub]

/-- Claim C10 (code bug): the undirectedness of constrained-edge lookup
fails when the two endpoints have equal coordinate sums: `OrderCorners`
canonicalises by comparing `x+y` and leaves the order unchanged on ties, so
the edges built from `(a,b)` and `(b,a)` compare as different set elements
and the membership lookup becomes order-dependent.  This theorem evaluates
the code at the failing input `a = (0,1)`, `b = (1,0)`. -/
theorem claim_C10 :
    IsEdgeConstrained [mkAdvancedEdge ⟨10, ⟨0, 1⟩⟩ ⟨11, ⟨1, 0⟩⟩] ⟨10, ⟨0, 1⟩⟩ ⟨11, ⟨1, 0⟩⟩ = true ∧
    IsEdgeConstrained [mkAdvancedEdge ⟨10, ⟨0, 1⟩⟩ ⟨11, ⟨1, 0⟩⟩] ⟨11, ⟨1, 0⟩⟩ ⟨10, ⟨0, 1⟩⟩ = false ∧
    edgeEquiv (mkAdvancedEdge ⟨10, ⟨0, 1⟩⟩ ⟨11, ⟨1, 0⟩⟩)
      (mkAdvancedEdge ⟨11, ⟨1, 0⟩⟩ ⟨10, ⟨0, 1⟩⟩) = false := by
  norm_num [IsEdgeConstrained, mkAdvancedEdge, SumVectorComponents, edgeEquiv, CompareEdges,
    List.any]

/-- The `maxCoord` fold never drops below its accumulator. -/
theorem foldl_max_init (l : List Vec2) :
    ∀ acc : ℚ, acc ≤ l.foldl (fun a v => max (max a (abs v.x)) (abs v.y)) acc := by
  induction l with
  | nil =>
    intro acc
    simp
  | cons h t ih =>
    intro acc
    calc acc ≤ max (max acc (abs h.x)) (abs h.y) :=
          le_trans (le_max_left _ _) (le_max_left _ _)
      _ ≤ _ := ih _

/-- Every listed vertex's coordinates are bounded by `maxAbsCoord`. -/
theorem mem_le_maxAbsCoord (l : List Vec2) (v : Vec2) (hv : v ∈ l) :
    abs v.x ≤ maxAbsCoord l ∧ abs v.y ≤ maxAbsCoord l := by
  rw [maxAbsCoord]
  generalize (0 : ℚ) = acc
  induction l generalizing acc with
  | nil => simp at hv
  | cons h t ih =>
    rcases List.mem_cons.mp hv with rfl | hm
    · constructor
      · exact le_trans (le_trans (le_max_right _ _) (le_max_left _ _)) (foldl_max_init t _)
      · exact le_trans (le_max_right _ _) (foldl_max_init t _)
    · exact ih hm _

/-- Claim C9 (corrected): the three rewritten boundary points are always
arranged clockwise, and they span a triangle containing every input vertex
PROVIDED the maximal absolute coordinate is at least the fixed perturbation
`0.000372` — for smaller inputs the fixed epsilon dominates the `4*M` scale
and containment fails (see the counterexample). -/
theorem claim_C9 (allVertices : List Vec2) :
    ClockwiseOrientation (setBoundaryPositions allVertices).1
      (setBoundaryPositions allVertices).2.1 (setBoundaryPositions allVertices).2.2 = true ∧
    (boundaryEpsilon ≤ maxAbsCoord allVertices →
      ∀ v ∈ allVertices, inTriangleCW (setBoundaryPositions allVertices).1
        (setBoundaryPositions allVertices).2.1 (setBoundaryPositions allVertices).2.2
        v = true) := by
  constructor
  · simp only [ClockwiseOrientation, setBoundaryPositions, boundaryEpsilon, crossZ, Vec2.sub,
      decide_eq_true_eq]
    nlinarith [mul_self_nonneg (maxAbsCoord allVertices)]
  · intro hM
    rw [boundaryEpsilon] at hM
    intro v hv
    obtain ⟨hx, hy⟩ := mem_le_maxAbsCoord allVertices v hv
    rw [abs_le] at hx hy
    simp only [inTriangleCW, setBoundaryPositions, boundaryEpsilon, crossZ, Vec2.sub,
      decide_eq_true_eq]
    set M := maxAbsCoord allVertices with hMdef
    obtain ⟨hx1, hx2⟩ := hx
    obtain ⟨hy1, hy2⟩ := hy
    have h0 : (0 : ℚ) ≤ M := le_trans (by norm_num) hM
    have he : (0 : ℚ) ≤ 372 / 1000000 := by norm_num
    refine ⟨?_, ?_, ?_⟩
    · nlinarith [mul_nonneg h0 (by linarith : (0:ℚ) ≤ 4*M - v.x - v.y)]
    · nlinarith [mul_nonneg h0 (by linarith : (0:ℚ) ≤ M - v.x),
        mul_nonneg h0 (by linarith : (0:ℚ) ≤ M + v.y),
        mul_nonneg he (by linarith : (0:ℚ) ≤ M + v.x),
        mul_nonneg he (by linarith : (0:ℚ) ≤ M + v.y),
        mul_self_nonneg M]
    · nlinarith [mul_nonneg (by linarith : (0:ℚ) ≤ v.x + M)
          (by linarith : (0:ℚ) ≤ 8*M - 2*(372/1000000)),
        mul_nonneg (by linarith : (0:ℚ) ≤ M - v.y)
          (by linarith : (0:ℚ) ≤ 4*M + 2*(372/1000000)),
        mul_nonneg h0 (by linarith : (0:ℚ) ≤ M - 372/1000000)]

/-- Claim C9's witness instance: for the single vertex `(1,0)` the maximal
coordinate is `1 ≥ 0.000372`, so the boundary triangle is clockwise and
contains it. -/
theorem claim_C9_witness :
    ClockwiseOrientation (setBoundaryPositions [⟨1, 0⟩]).1
      (setBoundaryPositions [⟨1, 0⟩]).2.1 (setBoundaryPositions [⟨1, 0⟩]).2.2 = true ∧
    ∀ v ∈ [(⟨1, 0⟩ : Vec2)], inTriangleCW (setBoundaryPositions [⟨1, 0⟩]).1
      (setBoundaryPositions [⟨1, 0⟩]).2.1 (setBoundaryPositions [⟨1, 0⟩]).2.2 v = true :=
  ⟨(claim_C9 [⟨1, 0⟩]).1,
   (claim_C9 [⟨1, 0⟩]).2 (by norm_num [boundaryEpsilon, maxAbsCoord])⟩

/-- Claim C9's counterexample: for the single input vertex
`(-1/10000, 1/10000)` the maximal coordinate `1/10000` is smaller than the
fixed epsilon `0.000372`, and the vertex itself lies outside the rewritten
boundary triangle — the claim's containment fails. -/
theorem claim_C9_counterexample :
    inTriangleCW (setBoundaryPositions [⟨-1/10000, 1/10000⟩]).1
      (setBoundaryPositions [⟨-1/10000, 1/10000⟩]).2.1
      (setBoundaryPositions [⟨-1/10000, 1/10000⟩]).2.2
      ⟨-1/10000, 1/10000⟩ = false := by
  have h1 : |(-1 : ℚ)/10000| = 1/10000 := by
    rw [abs_div, abs_neg, abs_one]
    norm_num
  norm_num [inTriangleCW, setBoundaryPositions, maxAbsCoord, boundaryEpsilon, crossZ, Vec2.sub,
    h1, abs_of_nonneg]

/-- Claim C8 (confirmed): whenever `EnsureLocalDelaunay` returns false the
mesh is completely unchanged (triangle list with corners, adjacency,
remaining sets and flags, and the advanced-vertex store); in particular a
call on a pair with a condemned (flagged) triangle is an immediate no-op
returning false. -/
theorem claim_C8 (fuel : ℕ) (m : Mesh) (first second : ℕ) (bv : List Vertex) (ce : EdgeSet) :
    (∀ m2, ensureLocalDelaunay fuel m first second bv ce = some (false, m2) → m2 = m) ∧
    (∀ t1 t2, m.tri first = some t1 → m.tri second = some t2 →
      (t1.flagged || t2.flagged) = true →
      ensureLocalDelaunay (fuel + 1) m first second bv ce = some (false, m)) := by
  constructor
  · intro m2 hrun
    match fuel with
    | 0 =>
      simp [ensureLocalDelaunay] at hrun
    | fuel + 1 =>
      rw [ensureLocalDelaunay] at hrun
      dsimp only at hrun
      repeat' split at hrun
      all_goals simp_all
  · intro t1 t2 h1 h2 hfl
    rw [ensureLocalDelaunay, h1, h2]
    dsimp only
    rw [if_pos hfl]

/-- Claim C1 (confirmed): with both triangles live, genuinely adjacent
(`ArrangeCorners` succeeds) and neither the shared edge nor the disjoint
edge enforced (no boundary vertex on them, no constrained-edge
intersection), a completing `EnsureLocalDelaunay` call flips (returns true)
exactly when the second triangle's disjoint corner is strictly inside the
first triangle's circumcircle AND the first triangle's disjoint corner is
strictly inside the second triangle's circumcircle. -/
theorem claim_C1 (fuel : ℕ) (m : Mesh) (first second : ℕ) (bv : List Vertex) (ce : EdgeSet)
    (t1 t2 : Tri) (h1 : m.tri first = some t1) (h2 : m.tri second = some t2)
    (hf1 : t1.flagged = false) (hf2 : t2.flagged = false)
    (sc1 sc2 dc : ℕ × ℕ)
    (harr : arrangeCorners t1 t2 = some (sc1, sc2, dc))
    (hdb : DisjointBoundary bv t1 t2 dc = false)
    (hsb : SharedBoundary bv t1 sc1 sc2 = false)
    (hsx : IntersectsEdge (mkAdvancedEdge (t1.corner sc1.1) (t1.corner sc2.1)) ce = false)
    (hdx : IntersectsEdge (mkAdvancedEdge (t1.corner dc.1) (t2.corner dc.2)) ce = false)
    (c1 c2 : Circle)
    (hc1 : computeCircumcircleP (At t1 0) (At t1 1) (At t1 2) = some c1)
    (hc2 : computeCircumcircleP (At t2 0) (At t2 1) (At t2 2) = some c2)
    (b : Bool) (m2 : Mesh)
    (hrun : ensureLocalDelaunay (fuel + 1) m first second bv ce = some (b, m2)) :
    b = true ↔ (squaredLength ((At t2 dc.2).sub c1.midPoint) < c1.squaredRadius ∧
                squaredLength ((At t1 dc.1).sub c2.midPoint) < c2.squaredRadius) := by
  rw [ensureLocalDelaunay, h1, h2] at hrun
  dsimp only at hrun
  rw [if_neg (by simp [hf1, hf2]), harr] at hrun
  dsimp only at hrun
  rw [hdb, hsx, hdx, hsb, hc1, hc2] at hrun
  norm_num at hrun
  split at hrun
  case isTrue hlt =>
    split at hrun
    · simp at hrun
    · simp only [Option.some.injEq, Prod.mk.injEq] at hrun
      constructor
      · intro _
        exact hlt
      · intro _
        exact hrun.1.symm
  case isFalse hlt =>
    simp only [Option.some.injEq, Prod.mk.injEq] at hrun
    constructor
    · intro hb
      rw [← hrun.1] at hb
      simp at hb
    · intro hc
      exact absurd hc hlt

/-- Claim C2 (confirmed): with both triangles live and genuinely adjacent,
(1) if the disjoint edge is enforced and the shared edge is not,
`EnsureLocalDelaunay` returns false with the mesh unchanged; (2) if the
shared edge is enforced and the disjoint edge is not, it flips exactly when
the merged quadrilateral passes the convexity test, and on a non-convex
quadrilateral it returns false with the mesh unchanged. -/
theorem claim_C2 (fuel : ℕ) (m : Mesh) (first second : ℕ) (bv : List Vertex) (ce : EdgeSet)
    (t1 t2 : Tri) (h1 : m.tri first = some t1) (h2 : m.tri second = some t2)
    (hf1 : t1.flagged = false) (hf2 : t2.flagged = false)
    (sc1 sc2 dc : ℕ × ℕ)
    (harr : arrangeCorners t1 t2 = some (sc1, sc2, dc)) :
    ((DisjointBoundary bv t1 t2 dc
        || IntersectsEdge (mkAdvancedEdge (t1.corner dc.1) (t2.corner dc.2)) ce) = true →
     (SharedBoundary bv t1 sc1 sc2
        || IntersectsEdge (mkAdvancedEdge (t1.corner sc1.1) (t1.corner sc2.1)) ce) = false →
     ensureLocalDelaunay (fuel + 1) m first second bv ce = some (false, m)) ∧
    ((SharedBoundary bv t1 sc1 sc2
        || IntersectsEdge (mkAdvancedEdge (t1.corner sc1.1) (t1.corner sc2.1)) ce) = true →
     (DisjointBoundary bv t1 t2 dc
        || IntersectsEdge (mkAdvancedEdge (t1.corner dc.1) (t2.corner dc.2)) ce) = false →
     (mergedQuadConvex t1 t2 sc1 sc2 dc = false →
        ensureLocalDelaunay (fuel + 1) m first second bv ce = some (false, m)) ∧
     (∀ b m2, ensureLocalDelaunay (fuel + 1) m first second bv ce = some (b, m2) →
        (b = true ↔ mergedQuadConvex t1 t2 sc1 sc2 dc = true))) := by
  constructor
  · intro hdE hsE
    rw [ensureLocalDelaunay, h1, h2]
    dsimp only
    rw [if_neg (by simp [hf1, hf2]), harr]
    dsimp only
    rw [hdE, hsE]
    norm_num
  · intro hsE hdE
    constructor
    · intro hcvx
      rw [ensureLocalDelaunay, h1, h2]
      dsimp only
      rw [if_neg (by simp [hf1, hf2]), harr]
      dsimp only
      rw [hdE, hsE]
      have hcw : (ClockwiseOrientation (At t1 dc.1) (At t2 dc.2) (At t1 sc1.1)
          || ClockwiseOrientation (At t2 dc.2) (At t1 dc.1) (At t1 sc2.1)) = true := by
        rw [mergedQuadConvex] at hcvx
        revert hcvx
        cases ClockwiseOrientation (At t1 dc.1) (At t2 dc.2) (At t1 sc1.1) <;>
          cases ClockwiseOrientation (At t2 dc.2) (At t1 dc.1) (At t1 sc2.1) <;> simp
      rw [hcw]
      norm_num
    · intro b m2 hrun
      rw [ensureLocalDelaunay, h1, h2] at hrun
      dsimp only at hrun
      rw [if_neg (by simp [hf1, hf2]), harr] at hrun
      dsimp only at hrun
      rw [hdE, hsE] at hrun
      norm_num at hrun
      split at hrun
      case isTrue hcw =>
        simp only [Option.some.injEq, Prod.mk.injEq] at hrun
        constructor
        · intro hb
          rw [hb] at hrun
          simp at hrun
        · intro hq
          rw [mergedQuadConvex] at hq
          revert hq hcw
          cases ClockwiseOrientation (At t1 dc.1) (At t2 dc.2) (At t1 sc1.1) <;>
            cases ClockwiseOrientation (At t2 dc.2) (At t1 dc.1) (At t1 sc2.1) <;> simp
      case isFalse hcw =>
        split at hrun
        · simp at hrun
        · simp only [Option.some.injEq, Prod.mk.injEq] at hrun
          constructor
          · intro _
            rw [mergedQuadConvex]
            revert hcw
            cases ClockwiseOrientation (At t1 dc.1) (At t2 dc.2) (At t1 sc1.1) <;>
              cases ClockwiseOrientation (At t2 dc.2) (At t1 dc.1) (At t1 sc2.1) <;> simp
          · intro _
            exact hrun.1.symm

theorem exArrange : arrangeCorners exT1 exT2 = some ((2, 1), (0, 0), (1, 2)) := by
  norm_num [arrangeCorners, arrangeCommit, arrangeOrient, matchCount, matchAt, At, Tri.corner,
    exT1, exT2, exA, exB, exC, exD, ClockwiseOrientation, crossZ, Vec2.sub, Vec2.mk.injEq]

theorem exCirc1 : computeCircumcircleP (At exT1 0) (At exT1 1) (At exT1 2) =
    some ⟨⟨2, -3/2⟩, 25/4⟩ := by
  norm_num [computeCircumcircleP, At, Tri.corner, exT1, exA, exB, exC, Vec2.mk.injEq,
    Vec2.add, Vec2.sub, Vec2.smul, perpendicular, squaredLength]

theorem exCirc2 : computeCircumcircleP (At exT2 0) (At exT2 1) (At exT2 2) =
    some ⟨⟨2, 3/2⟩, 25/4⟩ := by
  norm_num [computeCircumcircleP, At, Tri.corner, exT2, exA, exB, exD, Vec2.mk.injEq,
    Vec2.add, Vec2.sub, Vec2.smul, perpendicular, squaredLength]

set_option maxHeartbeats 1600000 in
theorem exRun : ensureLocalDelaunay 1 exMesh 0 1 [] [] = some (true, exFlipped) := by
  simp [ensureLocalDelaunay, changeEdgeSituation, ensureLocalDelaunayAdjacent,
    arrangeCorners, arrangeCommit, arrangeOrient, matchCount, matchAt, At, Tri.corner,
    Tri.adj, Tri.setAdj, exT1, exT2, exA, exB, exC, exD, exMesh, exFlipped,
    ClockwiseOrientation, crossZ,
    Vec2.sub, Vec2.add, Vec2.smul, Vec2.mk.injEq, Mesh.tri, Mesh.updTri, updEntry,
    Mesh.insertTriangle,
    Mesh.eraseTri, List.lookup, DisjointBoundary, SharedBoundary, ContainsVertex,
    IntersectsEdge, computeCircumcircleP, perpendicular, squaredLength, flipEdges,
    transferVertices2, transferVertices2Impl, tv2Go, updateAdjacentRelation,
    updateAdjacentBackReferences, mkAdvancedEdge, SumVectorComponents, List.any]
  norm_num
  simp [List.lookup, Tri.adj, Mesh.updTri, updEntry, Tri.setAdj, exA, exB, exC, exD]

theorem claim_C1_witness :
    true = true ↔ (squaredLength ((At exT2 2).sub (Vec2.mk 2 (-3/2))) < 25/4 ∧
                   squaredLength ((At exT1 1).sub (Vec2.mk 2 (3/2))) < 25/4) :=
  claim_C1 0 exMesh 0 1 [] [] exT1 exT2 rfl rfl rfl rfl (2, 1) (0, 0) (1, 2)
    exArrange rfl rfl rfl rfl ⟨⟨2, -3/2⟩, 25/4⟩ ⟨⟨2, 3/2⟩, 25/4⟩ exCirc1 exCirc2
    true exFlipped exRun

theorem claim_C2_witness :
    ((DisjointBoundary [exD] exT1 exT2 (1, 2)
        || IntersectsEdge (mkAdvancedEdge (exT1.corner 1) (exT2.corner 2)) []) = true →
     (SharedBoundary [exD] exT1 (2, 1) (0, 0)
        || IntersectsEdge (mkAdvancedEdge (exT1.corner 2) (exT1.corner 0)) []) = false →
     ensureLocalDelaunay (0 + 1) exMesh 0 1 [exD] [] = some (false, exMesh)) ∧
    ((SharedBoundary [exD] exT1 (2, 1) (0, 0)
        || IntersectsEdge (mkAdvancedEdge (exT1.corner 2) (exT1.corner 0)) []) = true →
     (DisjointBoundary [exD] exT1 exT2 (1, 2)
        || IntersectsEdge (mkAdvancedEdge (exT1.corner 1) (exT2.corner 2)) []) = false →
     (mergedQuadConvex exT1 exT2 (2, 1) (0, 0) (1, 2) = false →
        ensureLocalDelaunay (0 + 1) exMesh 0 1 [exD] [] = some (false, exMesh)) ∧
     (∀ b m2, ensureLocalDelaunay (0 + 1) exMesh 0 1 [exD] [] = some (b, m2) →
        (b = true ↔ mergedQuadConvex exT1 exT2 (2, 1) (0, 0) (1, 2) = true))) :=
  claim_C2 0 exMesh 0 1 [exD] [] exT1 exT2 rfl rfl rfl rfl (2, 1) (0, 0) (1, 2) exArrange



theorem lookup_map_updEntry {α : Type} (l : List (ℕ × α)) (i j : ℕ) (f : α → α) :
    (List.map (updEntry i f) l).lookup j
      = if j = i then (l.lookup j).map f else l.lookup j := by
  induction l with
  | nil => simp [List.lookup]
  | cons hd tl ih =>
    rcases hd with ⟨k, v⟩
    have he : updEntry i f (k, v) = if k = i then (k, f v) else (k, v) := by
      simp [updEntry]
    rw [List.map_cons, he]
    by_cases hk : k = i
    · subst hk
      rw [if_pos rfl]
      by_cases hj : j = k
      · subst hj
        simp [List.lookup]
      · simp [List.lookup, beq_eq_false_iff_ne.mpr hj, ih, hj]
    · rw [if_neg hk]
      by_cases hj : j = k
      · subst hj
        simp [List.lookup, hk]
      · simp [List.lookup, beq_eq_false_iff_ne.mpr hj, ih]

theorem tri_updTri (m : Mesh) (i j : ℕ) (f : Tri → Tri) :
    (m.updTri i f).tri j = if j = i then (m.tri j).map f else m.tri j :=
  lookup_map_updEntry m.tris i j f

theorem avert_updTri (m : Mesh) (i j : ℕ) (f : Tri → Tri) :
    (m.updTri i f).avert j = m.avert j := rfl

theorem tri_updAvert (m : Mesh) (i j : ℕ) (f : AdvVert → AdvVert) :
    (m.updAvert i f).tri j = m.tri j := rfl

theorem avert_updAvert (m : Mesh) (i j : ℕ) (f : AdvVert → AdvVert) :
    (m.updAvert i f).avert j = if j = i then (m.avert j).map f else m.avert j :=
  lookup_map_updEntry m.averts i j f

theorem avert_transferVertex (m : Mesh) (src w dst vid : ℕ) (hne : vid ≠ w) :
    (transferVertex m src w dst).avert vid = m.avert vid := by
  unfold transferVertex
  rw [avert_updTri, avert_updTri, avert_updAvert, if_neg hne]

theorem remMember_transferVertex (m : Mesh) (src w dst vid : ℕ) (hne : vid ≠ w) (k : ℕ) :
    remMember (transferVertex m src w dst) k vid ↔ remMember m k vid := by
  unfold transferVertex remMember
  rw [tri_updTri, tri_updTri, tri_updAvert]
  by_cases hks : k = src
  · subst hks
    rw [if_pos rfl]
    by_cases hkd : k = dst
    · subst hkd
      rw [if_pos rfl]
      cases m.tri k <;> simp [List.mem_filter, List.mem_append, hne]
    · rw [if_neg hkd]
      cases m.tri k <;> simp [List.mem_filter, hne]
  · rw [if_neg hks]
    by_cases hkd : k = dst
    · subst hkd
      rw [if_pos rfl]
      cases m.tri k <;> simp [List.mem_append, hne]
    · rw [if_neg hkd]

theorem tv3Go_frame (old : ℕ) (nt : ℕ → ℕ) (ce p0 p1 p2 : Vec2) :
    ∀ (pending : List ℕ) (m m2 : Mesh),
      tv3Go old nt ce p0 p1 p2 m pending = some m2 →
      ∀ vid, vid ∉ pending →
        m2.avert vid = m.avert vid ∧ (∀ k, remMember m2 k vid ↔ remMember m k vid) := by
  intro pending
  induction pending with
  | nil =>
    intro m m2 h vid _
    rw [tv3Go] at h
    rw [Option.some_inj] at h
    subst h
    exact ⟨rfl, fun k => Iff.rfl⟩
  | cons w rest ih =>
    intro m m2 hrun vid hnot
    have hvw : vid ≠ w := fun h => hnot (h ▸ List.mem_cons_self w rest)
    have hvrest : vid ∉ rest := fun h => hnot (List.mem_cons_of_mem _ h)
    rw [tv3Go] at hrun
    cases havw : m.avert w with
    | none =>
      rw [havw] at hrun
      simp at hrun
    | some av =>
      rw [havw] at hrun
      dsimp only at hrun
      split at hrun
      · obtain ⟨ha, hm⟩ := ih _ _ hrun vid hvrest
        refine ⟨?_, ?_⟩
        · rw [ha, avert_transferVertex _ _ _ _ _ hvw]
        · intro k
          rw [hm k, remMember_transferVertex _ _ _ _ _ hvw]
      · split at hrun
        · obtain ⟨ha, hm⟩ := ih _ _ hrun vid hvrest
          refine ⟨?_, ?_⟩
          · rw [ha, avert_transferVertex _ _ _ _ _ hvw]
          · intro k
            rw [hm k, remMember_transferVertex _ _ _ _ _ hvw]
        · split at hrun
          · obtain ⟨ha, hm⟩ := ih _ _ hrun vid hvrest
            refine ⟨?_, ?_⟩
            · rw [ha, avert_transferVertex _ _ _ _ _ hvw]
            · intro k
              rw [hm k, remMember_transferVertex _ _ _ _ _ hvw]
          · simp at hrun
theorem tri_transferVertex_isSome (m : Mesh) (src w dst k : ℕ) :
    ((transferVertex m src w dst).tri k).isSome = (m.tri k).isSome := by
  unfold transferVertex
  rw [tri_updTri, tri_updTri, tri_updAvert]
  split
  · split
    · cases m.tri k <;> simp
    · cases m.tri k <;> simp
  · split
    · cases m.tri k <;> simp
    · rfl

theorem transferVertex_self (m : Mesh) (src w dst : ℕ) (hsd : src ≠ dst) :
    ((∃ ct, m.tri dst = some ct) → remMember (transferVertex m src w dst) dst w) ∧
    (∀ k, remMember (transferVertex m src w dst) k w → k ≠ src ∧ (k = dst ∨ remMember m k w)) ∧
    ((transferVertex m src w dst).avert w
      = (m.avert w).map (fun a => { a with surrounding := dst })) := by
  refine ⟨?_, ?_, ?_⟩
  · rintro ⟨ct, hct⟩
    unfold transferVertex remMember
    rw [tri_updTri, tri_updTri, tri_updAvert, if_neg (fun h => hsd h.symm), if_pos rfl, hct]
    exact ⟨_, rfl, by simp⟩
  · intro k hmem
    unfold transferVertex remMember at hmem
    rw [tri_updTri, tri_updTri, tri_updAvert] at hmem
    by_cases h1 : k = src
    · subst h1
      rw [if_pos rfl] at hmem
      exfalso
      by_cases h2 : k = dst
      · exact hsd h2
      · rw [if_neg h2] at hmem
        obtain ⟨t, ht, hw⟩ := hmem
        cases hmk : m.tri k with
        | none =>
          rw [hmk] at ht
          simp at ht
        | some t0 =>
          rw [hmk] at ht
          have h3 := Option.some.inj ht
          subst h3
          simp [List.mem_filter] at hw
    · rw [if_neg h1] at hmem
      refine ⟨h1, ?_⟩
      by_cases h2 : k = dst
      · exact Or.inl h2
      · rw [if_neg h2] at hmem
        exact Or.inr hmem
  · unfold transferVertex
    rw [avert_updTri, avert_updTri, avert_updAvert, if_pos rfl]

theorem tv3Go_spec (old : ℕ) (nt : ℕ → ℕ) (ce p0 p1 p2 : Vec2)
    (hdist0 : old ≠ nt 0) (hdist1 : old ≠ nt 1) (hdist2 : old ≠ nt 2)
    (hg : ∀ q : Vec2, q ≠ ce →
      exactlyOne3 (IsVertexInSection3 q ce p0 p1) (IsVertexInSection3 q ce p1 p2)
        (IsVertexInSection3 q ce p2 p0) = true) :
    ∀ (pending : List ℕ) (m : Mesh),
      pending.Nodup →
      (∀ vid ∈ pending, ∃ av, m.avert vid = some av ∧ av.vert.pos ≠ ce) →
      (∀ j, j < 3 → ∃ ct, m.tri (nt j) = some ct) →
      (∀ vid ∈ pending, ∀ k, remMember m k vid → k = old) →
      ∃ m2, tv3Go old nt ce p0 p1 p2 m pending = some m2 ∧
        ∀ vid ∈ pending, ∃ j, j < 3 ∧ remMember m2 (nt j) vid ∧
          (∃ av, m2.avert vid = some av ∧ av.surrounding = nt j) ∧
          (∀ k, remMember m2 k vid → k = nt j) := by
  intro pending
  induction pending with
  | nil =>
    intro m _ _ _ _
    refine ⟨m, by rw [tv3Go], by simp⟩
  | cons w rest ih =>
    intro m hnodup havs hchild huniq
    have hwrest : w ∉ rest := (List.nodup_cons.1 hnodup).1
    have hrestnd : rest.Nodup := (List.nodup_cons.1 hnodup).2
    obtain ⟨av, havw, hpos⟩ := havs w (List.mem_cons_self w rest)
    have hone := hg av.vert.pos hpos
    -- the branch taken is the unique passing section test
    have hstep : ∃ j, j < 3 ∧
        tv3Go old nt ce p0 p1 p2 m (w :: rest)
          = tv3Go old nt ce p0 p1 p2 (transferVertex m old w (nt j)) rest := by
      rw [tv3Go, havw]
      dsimp only
      by_cases h0 : IsVertexInSection3 av.vert.pos ce p0 p1 = true
      · rw [if_pos h0]
        exact ⟨0, by omega, rfl⟩
      · rw [if_neg h0]
        by_cases h1 : IsVertexInSection3 av.vert.pos ce p1 p2 = true
        · rw [if_pos h1]
          exact ⟨1, by omega, rfl⟩
        · rw [if_neg h1]
          by_cases h2 : IsVertexInSection3 av.vert.pos ce p2 p0 = true
          · rw [if_pos h2]
            exact ⟨2, by omega, rfl⟩
          · exfalso
            rw [exactlyOne3] at hone
            revert hone
            simp [Bool.not_eq_true] at h0 h1 h2
            simp [h0, h1, h2]
    obtain ⟨j, hj3, hstepeq⟩ := hstep
    have hdistj : old ≠ nt j := by
      interval_cases j
      · exact hdist0
      · exact hdist1
      · exact hdist2
    obtain ⟨mself, mothers, mavert⟩ := transferVertex_self m old w (nt j) hdistj
    -- invariants for the recursive call on the transferred mesh
    have havs2 : ∀ vid ∈ rest, ∃ av2,
        (transferVertex m old w (nt j)).avert vid = some av2 ∧ av2.vert.pos ≠ ce := by
      intro vid hv
      have hne : vid ≠ w := fun h => hwrest (h ▸ hv)
      rw [avert_transferVertex _ _ _ _ _ hne]
      exact havs vid (List.mem_cons_of_mem _ hv)
    have hchild2 : ∀ j2, j2 < 3 → ∃ ct, (transferVertex m old w (nt j)).tri (nt j2) = some ct := by
      intro j2 hj2
      obtain ⟨ct, hct⟩ := hchild j2 hj2
      have := tri_transferVertex_isSome m old w (nt j) (nt j2)
      rw [hct] at this
      simp only [Option.isSome_some] at this
      cases hres : (transferVertex m old w (nt j)).tri (nt j2) with
      | none =>
        rw [hres] at this
        simp at this
      | some ct2 => exact ⟨ct2, rfl⟩
    have huniq2 : ∀ vid ∈ rest, ∀ k, remMember (transferVertex m old w (nt j)) k vid → k = old := by
      intro vid hv k hmem
      have hne : vid ≠ w := fun h => hwrest (h ▸ hv)
      rw [remMember_transferVertex _ _ _ _ _ hne] at hmem
      exact huniq vid (List.mem_cons_of_mem _ hv) k hmem
    obtain ⟨m2, hrun2, hrest2⟩ := ih (transferVertex m old w (nt j)) hrestnd havs2 hchild2 huniq2
    refine ⟨m2, by rw [hstepeq]; exact hrun2, ?_⟩
    intro vid hv
    rcases List.mem_cons.1 hv with rfl | hvr
    · -- the head vertex: its placement is fixed by the transfer and framed by the rest
      obtain ⟨hfa, hfm⟩ := tv3Go_frame old nt ce p0 p1 p2 rest _ _ hrun2 vid hwrest
      refine ⟨j, hj3, ?_, ?_, ?_⟩
      · rw [hfm (nt j)]
        exact mself (hchild j hj3)
      · rw [hfa, mavert, havw]
        exact ⟨_, rfl, rfl⟩
      · intro k hk
        rw [hfm k] at hk
        obtain ⟨hksrc, hkor⟩ := mothers k hk
        rcases hkor with h | h
        · exact h
        · exact absurd (huniq vid (List.mem_cons_self _ _) k h) hksrc
    · exact hrest2 vid hvr

theorem mem_of_lookup_some {α : Type} {l : List (ℕ × α)} {k : ℕ} {v : α}
    (h : l.lookup k = some v) : (k, v) ∈ l := by
  induction l with
  | nil => simp [List.lookup] at h
  | cons hd tl ih =>
    rcases hd with ⟨k2, v2⟩
    by_cases hk : k = k2
    · subst hk
      simp [List.lookup] at h
      subst h
      exact List.mem_cons_self _ _
    · simp only [List.lookup, beq_eq_false_iff_ne.mpr hk] at h
      exact List.mem_cons_of_mem _ (ih h)

theorem wedgeExactlyOne (c0 c1 c2 ce q : Vec2)
    (h0 : crossZ (c1.sub c0) (ce.sub c0) < 0)
    (h1 : crossZ (c2.sub c1) (ce.sub c1) < 0)
    (h2 : crossZ (c0.sub c2) (ce.sub c2) < 0)
    (hq : q ≠ ce) :
    exactlyOne3 (IsVertexInSection3 q ce c0 c1) (IsVertexInSection3 q ce c1 c2)
      (IsVertexInSection3 q ce c2 c0) = true := by
  have ha0 : crossZ (c1.sub ce) (c2.sub ce) < 0 := by
    have e : crossZ (c1.sub ce) (c2.sub ce) = crossZ (c2.sub c1) (ce.sub c1) := by
      simp only [crossZ, Vec2.sub]
      ring
    rw [e]
    exact h1
  have ha1 : crossZ (c2.sub ce) (c0.sub ce) < 0 := by
    have e : crossZ (c2.sub ce) (c0.sub ce) = crossZ (c0.sub c2) (ce.sub c2) := by
      simp only [crossZ, Vec2.sub]
      ring
    rw [e]
    exact h2
  have ha2 : crossZ (c0.sub ce) (c1.sub ce) < 0 := by
    have e : crossZ (c0.sub ce) (c1.sub ce) = crossZ (c1.sub c0) (ce.sub c0) := by
      simp only [crossZ, Vec2.sub]
      ring
    rw [e]
    exact h0
  have hid : crossZ (c1.sub ce) (c2.sub ce) * crossZ (c0.sub ce) (q.sub ce)
      + crossZ (c2.sub ce) (c0.sub ce) * crossZ (c1.sub ce) (q.sub ce)
      + crossZ (c0.sub ce) (c1.sub ce) * crossZ (c2.sub ce) (q.sub ce) = 0 := by
    simp only [crossZ, Vec2.sub]
    ring
  have hw : q.sub ce ≠ ⟨0, 0⟩ := by
    intro h
    apply hq
    have hx : q.x - ce.x = 0 := congrArg Vec2.x h
    have hy : q.y - ce.y = 0 := congrArg Vec2.y h
    rcases q with ⟨qx, qy⟩
    rcases ce with ⟨cx, cy⟩
    simp only at hx hy
    rw [Vec2.mk.injEq]
    constructor <;> linarith
  by_cases hd0 : crossZ (c0.sub ce) (q.sub ce) < 0 <;>
    by_cases hd1 : crossZ (c1.sub ce) (q.sub ce) < 0 <;>
    by_cases hd2 : crossZ (c2.sub ce) (q.sub ce) < 0
  · exfalso
    nlinarith [mul_pos_of_neg_of_neg ha0 hd0, mul_pos_of_neg_of_neg ha1 hd1,
      mul_pos_of_neg_of_neg ha2 hd2]
  · simp [IsVertexInSection3, exactlyOne3, hd0, hd1, hd2, not_lt.1 hd2]
  · simp [IsVertexInSection3, exactlyOne3, hd0, hd1, hd2, not_lt.1 hd1]
  · simp [IsVertexInSection3, exactlyOne3, hd0, hd1, hd2, not_lt.1 hd1, not_lt.1 hd2]
  · simp [IsVertexInSection3, exactlyOne3, hd0, hd1, hd2, not_lt.1 hd0]
  · simp [IsVertexInSection3, exactlyOne3, hd0, hd1, hd2, not_lt.1 hd0, not_lt.1 hd2]
  · simp [IsVertexInSection3, exactlyOne3, hd0, hd1, hd2, not_lt.1 hd0, not_lt.1 hd1]
  · exfalso
    have hn0 : 0 ≤ crossZ (c0.sub ce) (q.sub ce) := not_lt.1 hd0
    have hn1 : 0 ≤ crossZ (c1.sub ce) (q.sub ce) := not_lt.1 hd1
    have hn2 : 0 ≤ crossZ (c2.sub ce) (q.sub ce) := not_lt.1 hd2
    have hz0 : crossZ (c0.sub ce) (q.sub ce) = 0 := by
      nlinarith [mul_nonpos_of_nonpos_of_nonneg (le_of_lt ha1) hn1,
        mul_nonpos_of_nonpos_of_nonneg (le_of_lt ha2) hn2,
        mul_nonpos_of_nonpos_of_nonneg (le_of_lt ha0) hn0]
    have hz1 : crossZ (c1.sub ce) (q.sub ce) = 0 := by
      nlinarith [mul_nonpos_of_nonpos_of_nonneg (le_of_lt ha1) hn1,
        mul_nonpos_of_nonpos_of_nonneg (le_of_lt ha2) hn2,
        mul_nonpos_of_nonpos_of_nonneg (le_of_lt ha0) hn0]
    have hwx : crossZ (c0.sub ce) (c1.sub ce) * (q.x - ce.x) = 0 := by
      have e : crossZ (c0.sub ce) (c1.sub ce) * (q.x - ce.x)
          = crossZ (c0.sub ce) (q.sub ce) * (c1.x - ce.x)
            - crossZ (c1.sub ce) (q.sub ce) * (c0.x - ce.x) := by
        simp only [crossZ, Vec2.sub]
        ring
      rw [e, hz0, hz1]
      ring
    have hwy : crossZ (c0.sub ce) (c1.sub ce) * (q.y - ce.y) = 0 := by
      have e : crossZ (c0.sub ce) (c1.sub ce) * (q.y - ce.y)
          = crossZ (c0.sub ce) (q.sub ce) * (c1.y - ce.y)
            - crossZ (c1.sub ce) (q.sub ce) * (c0.y - ce.y) := by
        simp only [crossZ, Vec2.sub]
        ring
      rw [e, hz0, hz1]
      ring
    have hxz : q.x - ce.x = 0 := by
      rcases mul_eq_zero.1 hwx with h | h
      · exact absurd h (ne_of_lt ha2)
      · exact h
    have hyz : q.y - ce.y = 0 := by
      rcases mul_eq_zero.1 hwy with h | h
      · exact absurd h (ne_of_lt ha2)
      · exact h
    apply hw
    simp only [Vec2.sub, Vec2.mk.injEq]
    constructor <;> linarith

/-- Claim C6: when InsertPoint splits triangle `old` (clockwise corners, new
vertex `ce` strictly inside) into three children `nt 0, nt 1, nt 2`, every
pending vertex of `old`'s remaining set (all at positions distinct from `ce`)
passes exactly one of the three wedge-section tests, `TransferVertices3`
succeeds (its final else-assert never fires), and afterwards each such vertex
lies in exactly one live triangle's remaining set — the child of its wedge —
with its surrounding back-reference updated to that child. -/
theorem claim_C6 (m : Mesh) (old : ℕ) (nt : ℕ → ℕ) (oldT : Tri) (ce : Vec2)
    (hold : m.tri old = some oldT)
    (hg0 : crossZ ((At oldT 1).sub (At oldT 0)) (ce.sub (At oldT 0)) < 0)
    (hg1 : crossZ ((At oldT 2).sub (At oldT 1)) (ce.sub (At oldT 1)) < 0)
    (hg2 : crossZ ((At oldT 0).sub (At oldT 2)) (ce.sub (At oldT 2)) < 0)
    (hnodup : oldT.rem.Nodup)
    (havs : ∀ vid ∈ oldT.rem, ∃ av, m.avert vid = some av ∧ av.vert.pos ≠ ce)
    (hchild : ∀ j, j < 3 → ∃ ct, m.tri (nt j) = some ct)
    (huniq : ∀ vid ∈ oldT.rem, ∀ k, remMember m k vid → k = old)
    (hd0 : old ≠ nt 0) (hd1 : old ≠ nt 1) (hd2 : old ≠ nt 2) :
    (∀ vid ∈ oldT.rem, ∀ av, m.avert vid = some av →
      exactlyOne3 (IsVertexInSection3 av.vert.pos ce (At oldT 0) (At oldT 1))
        (IsVertexInSection3 av.vert.pos ce (At oldT 1) (At oldT 2))
        (IsVertexInSection3 av.vert.pos ce (At oldT 2) (At oldT 0)) = true) ∧
    (∃ m2, transferVertices3 m old nt ce = some m2 ∧
      ∀ vid ∈ oldT.rem, ∃ j, j < 3 ∧ remMember m2 (nt j) vid ∧
        (∃ av, m2.avert vid = some av ∧ av.surrounding = nt j) ∧
        (∀ k, remMember m2 k vid → k = nt j)) := by
  have hgq : ∀ q : Vec2, q ≠ ce →
      exactlyOne3 (IsVertexInSection3 q ce (At oldT 0) (At oldT 1))
        (IsVertexInSection3 q ce (At oldT 1) (At oldT 2))
        (IsVertexInSection3 q ce (At oldT 2) (At oldT 0)) = true :=
    fun q hq => wedgeExactlyOne (At oldT 0) (At oldT 1) (At oldT 2) ce q hg0 hg1 hg2 hq
  constructor
  · intro vid hv av hav
    obtain ⟨av2, hav2, hpos⟩ := havs vid hv
    rw [hav] at hav2
    rw [Option.some_inj] at hav2
    subst hav2
    exact hgq av.vert.pos hpos
  · have := tv3Go_spec old nt ce (At oldT 0) (At oldT 1) (At oldT 2) hd0 hd1 hd2 hgq
      oldT.rem m hnodup havs hchild huniq
    rw [transferVertices3, hold]
    exact this

theorem claim_C6_witness :
    (∀ vid ∈ exSplitOld.rem, ∀ av, exSplitMesh.avert vid = some av →
      exactlyOne3 (IsVertexInSection3 av.vert.pos ⟨2, 1⟩ (At exSplitOld 0) (At exSplitOld 1))
        (IsVertexInSection3 av.vert.pos ⟨2, 1⟩ (At exSplitOld 1) (At exSplitOld 2))
        (IsVertexInSection3 av.vert.pos ⟨2, 1⟩ (At exSplitOld 2) (At exSplitOld 0)) = true) ∧
    (∃ m2, transferVertices3 exSplitMesh 4 (fun j => 5 + j) ⟨2, 1⟩ = some m2 ∧
      ∀ vid ∈ exSplitOld.rem, ∃ j, j < 3 ∧ remMember m2 (5 + j) vid ∧
        (∃ av, m2.avert vid = some av ∧ av.surrounding = 5 + j) ∧
        (∀ k, remMember m2 k vid → k = 5 + j)) :=
  claim_C6 exSplitMesh 4 (fun j => 5 + j) exSplitOld ⟨2, 1⟩ rfl
    (by norm_num [At, Tri.corner, crossZ, Vec2.sub, exSplitOld])
    (by norm_num [At, Tri.corner, crossZ, Vec2.sub, exSplitOld])
    (by norm_num [At, Tri.corner, crossZ, Vec2.sub, exSplitOld])
    (by simp [exSplitOld])
    (by
      intro vid hv
      simp only [exSplitOld, List.mem_singleton] at hv
      subst hv
      refine ⟨⟨exV10, 4⟩, rfl, ?_⟩
      norm_num [exV10, Vec2.mk.injEq])
    (by
      intro j hj
      interval_cases j
      · exact ⟨exChild, rfl⟩
      · exact ⟨exChild, rfl⟩
      · exact ⟨exChild, rfl⟩)
    (by
      intro vid hv k hmem
      simp only [exSplitOld, List.mem_singleton] at hv
      subst hv
      obtain ⟨t, ht, hmr⟩ := hmem
      have hm := mem_of_lookup_some ht
      simp only [exSplitMesh, List.mem_cons, List.mem_singleton, Prod.mk.injEq] at hm
      rcases hm with ⟨hk, htq⟩ | ⟨hk, htq⟩ | ⟨hk, htq⟩ | ⟨hk, htq⟩ | hfalse
      · exact hk
      · subst htq
        simp [exChild] at hmr
      · subst htq
        simp [exChild] at hmr
      · subst htq
        simp [exChild] at hmr
      · simp at hfalse)
    (by norm_num) (by norm_num) (by norm_num)



theorem mem_pushOpt {a : ℕ} {s : List ℕ} {o : Option ℕ} :
    a ∈ pushOpt s o ↔ o = some a ∨ a ∈ s := by
  cases o with
  | none => simp [pushOpt]
  | some b =>
    simp only [pushOpt, List.mem_cons, Option.some.injEq]
    constructor
    · rintro (h | h)
      · exact Or.inl h.symm
      · exact Or.inr h
    · rintro (h | h)
      · exact Or.inl h.symm
      · exact Or.inr h

theorem keys_updTri (m : Mesh) (i : ℕ) (f : Tri → Tri) :
    (m.updTri i f).tris.map Prod.fst = m.tris.map Prod.fst := by
  simp only [Mesh.updTri, List.map_map]
  have he : (Prod.fst ∘ updEntry i f) = (Prod.fst : ℕ × Tri → ℕ) := by
    funext p
    simp only [Function.comp, updEntry]
    split <;> rfl
  rw [he]

theorem lookup_filter_of_some {α : Type} {l : List (ℕ × α)} {p : ℕ × α → Bool} {i : ℕ} {v : α}
    (h : l.lookup i = some v) (hp : p (i, v) = true) :
    (l.filter p).lookup i = some v := by
  induction l with
  | nil => simp [List.lookup] at h
  | cons hd tl ih =>
    rcases hd with ⟨k, w⟩
    by_cases hik : i = k
    · subst hik
      simp only [List.lookup, beq_self_eq_true, Option.some.injEq] at h
      subst h
      rw [List.filter_cons, if_pos hp]
      simp [List.lookup]
    · have hb : (i == k) = false := beq_eq_false_iff_ne.mpr hik
      simp only [List.lookup, hb] at h
      rw [List.filter_cons]
      split
      · simp only [List.lookup, hb]
        exact ih h
      · exact ih h

theorem lookup_filter_of_none {α : Type} {l : List (ℕ × α)} {p : ℕ × α → Bool} {i : ℕ}
    (h : l.lookup i = none) : (l.filter p).lookup i = none := by
  induction l with
  | nil => simp [List.lookup]
  | cons hd tl ih =>
    rcases hd with ⟨k, w⟩
    by_cases hik : i = k
    · subst hik
      simp [List.lookup] at h
    · have hb : (i == k) = false := beq_eq_false_iff_ne.mpr hik
      simp only [List.lookup, hb] at h
      rw [List.filter_cons]
      split
      · simp only [List.lookup, hb]
        exact ih h
      · exact ih h

theorem lookup_eq_none_of_not_mem {α : Type} {l : List (ℕ × α)} {i : ℕ}
    (h : i ∉ l.map Prod.fst) : l.lookup i = none := by
  induction l with
  | nil => simp [List.lookup]
  | cons hd tl ih =>
    rcases hd with ⟨k, w⟩
    simp only [List.map_cons, List.mem_cons] at h
    push_neg at h
    have hb : (i == k) = false := beq_eq_false_iff_ne.mpr h.1
    simp only [List.lookup, hb]
    exact ih h.2

theorem lookup_filter_of_flagged {l : List (ℕ × Tri)} {i : ℕ} {t : Tri}
    (hnd : (l.map Prod.fst).Nodup)
    (h : l.lookup i = some t) (hf : t.flagged = true) :
    (l.filter (fun p => !p.2.flagged)).lookup i = none := by
  induction l with
  | nil => simp [List.lookup] at h
  | cons hd tl ih =>
    rcases hd with ⟨k, w⟩
    simp only [List.map_cons, List.nodup_cons] at hnd
    by_cases hik : i = k
    · subst hik
      simp only [List.lookup, beq_self_eq_true, Option.some.injEq] at h
      subst h
      rw [List.filter_cons, if_neg (by simp [hf])]
      exact lookup_filter_of_none (lookup_eq_none_of_not_mem hnd.1)
    · have hb : (i == k) = false := beq_eq_false_iff_ne.mpr hik
      simp only [List.lookup, hb] at h
      rw [List.filter_cons]
      split
      · simp only [List.lookup, hb]
        exact ih hnd.2 h
      · exact ih hnd.2 h

theorem flagView_some {m0 : Mesh} {log : List ℕ} {i : ℕ} {t : Tri}
    (h : flagView m0 log i = some t) :
    ∃ t0, m0.tri i = some t0 ∧
      t = if i ∈ log then { t0 with flagged := true } else t0 := by
  unfold flagView at h
  cases h0 : m0.tri i with
  | none => rw [h0] at h; simp at h
  | some t0 =>
    rw [h0] at h
    simp at h
    exact ⟨t0, rfl, h.symm⟩

theorem removeOuterLoop_spec (m0 : Mesh) (ce : EdgeSet) (start : ℕ)
    (hclosed : ∀ a b, ropStep m0 ce a b → (m0.tri b).isSome)
    (hunfl : ∀ i t, m0.tri i = some t → t.flagged = false) :
    ∀ m stack log,
    (∀ i, m.tri i = flagView m0 log i) →
    m.tris.map Prod.fst = m0.tris.map Prod.fst →
    log.Nodup →
    (∀ i ∈ log, ropReachable m0 ce start i ∧ (m0.tri i).isSome) →
    (∀ i ∈ stack, ropReachable m0 ce start i ∧ (m0.tri i).isSome) →
    (∀ i ∈ log, ∀ b, ropStep m0 ce i b → b ∈ log ∨ b ∈ stack) →
    ∃ mf logf, removeOuterLoop ce m stack log = some (mf, logf) ∧
      logf.Nodup ∧
      (∀ i ∈ log, i ∈ logf) ∧
      (∀ i ∈ stack, i ∈ logf) ∧
      (∀ i ∈ logf, ropReachable m0 ce start i ∧ (m0.tri i).isSome) ∧
      (∀ i ∈ logf, ∀ b, ropStep m0 ce i b → b ∈ logf) ∧
      (∀ i, mf.tri i = flagView m0 logf i) ∧
      mf.tris.map Prod.fst = m0.tris.map Prod.fst := by
  intro m stack log
  induction m, stack, log using removeOuterLoop.induct ce with
  | case1 m log =>
    intro hview hkeys hnd hlog hstk hclose
    refine ⟨m, log, by simp [removeOuterLoop], hnd, fun i hi => hi, ?_, hlog, ?_,
      hview, hkeys⟩
    · intro i hi
      simp at hi
    · intro i hi b hb
      rcases hclose i hi b hb with h | h
      · exact h
      · simp at h
  | case2 m current rest log hcur =>
    intro hview hkeys hnd hlog hstk hclose
    exfalso
    have h1 := hview current
    rw [hcur, flagView] at h1
    have h2 := (hstk current (List.mem_cons_self _ _)).2
    cases h0 : m0.tri current with
    | none => rw [h0] at h2; simp at h2
    | some t0 => rw [h0] at h1; simp at h1
  | case3 m current rest log t hcur hfl ih =>
    intro hview hkeys hnd hlog hstk hclose
    have h1 := hview current
    rw [hcur] at h1
    obtain ⟨t0, h0, ht⟩ := flagView_some h1.symm
    have hmem : current ∈ log := by
      by_contra hni
      rw [if_neg hni] at ht
      rw [ht, hunfl current t0 h0] at hfl
      exact Bool.false_ne_true hfl
    obtain ⟨mf, logf, heq, hnd2, hsub, hstk2, hall, hcl2, hview2, hkeys2⟩ :=
      ih hview hkeys hnd hlog (fun i hi => hstk i (List.mem_cons_of_mem _ hi))
        (fun i hi b hb => by
          rcases hclose i hi b hb with h | h
          · exact Or.inl h
          · rcases List.mem_cons.mp h with h | h
            · exact Or.inl (h ▸ hmem)
            · exact Or.inr h)
    refine ⟨mf, logf, ?_, hnd2, hsub, ?_, hall, hcl2, hview2, hkeys2⟩
    · simp only [removeOuterLoop]
      split
      · rename_i hnone
        rw [hcur] at hnone
        exact Option.noConfusion hnone
      · rename_i u hsome
        rw [hcur] at hsome
        cases Option.some.inj hsome
        rw [dif_pos hfl]
        exact heq
    · intro i hi
      rcases List.mem_cons.mp hi with h | h
      · exact h ▸ hsub current hmem
      · exact hstk2 i h
  | case4 m current rest log t hcur hfl ih =>
    intro hview hkeys hnd hlog hstk hclose
    have h1 := hview current
    rw [hcur] at h1
    obtain ⟨t0, h0, ht⟩ := flagView_some h1.symm
    have hni : current ∉ log := by
      intro hmem
      rw [if_pos hmem] at ht
      rw [ht] at hfl
      exact hfl rfl
    rw [if_neg hni] at ht
    subst ht
    have hreachc := hstk current (List.mem_cons_self _ _)
    have hview' : ∀ i, (m.updTri current fun u => { u with flagged := true }).tri i
        = flagView m0 (log ++ [current]) i := by
      intro i
      rw [tri_updTri]
      by_cases hic : i = current
      · subst hic
        rw [if_pos rfl, hcur, flagView, h0]
        simp
      · rw [if_neg hic, hview i, flagView, flagView]
        cases m0.tri i <;> simp [List.mem_append, hic]
    have hkeys' : ((m.updTri current fun u => { u with flagged := true }).tris.map
        Prod.fst) = m0.tris.map Prod.fst := by
      rw [keys_updTri]
      exact hkeys
    have hnd' : (log ++ [current]).Nodup := by
      simp [List.nodup_append, hnd, hni]
    have hlog' : ∀ i ∈ log ++ [current],
        ropReachable m0 ce start i ∧ (m0.tri i).isSome := by
      intro i hi
      rcases List.mem_append.mp hi with h | h
      · exact hlog i h
      · rw [List.mem_singleton.mp h]
        exact hreachc
    have hstep3 : ∀ b k, k < 3 → hasUnusedAdjacent t k ce = some b →
        ropReachable m0 ce start b ∧ (m0.tri b).isSome := by
      intro b k hk hadj
      have hstep : ropStep m0 ce current b := ⟨t, k, hk, h0, hadj⟩
      exact ⟨Relation.ReflTransGen.tail hreachc.1 hstep, hclosed current b hstep⟩
    have hstk' : ∀ i ∈ pushOpt (pushOpt (pushOpt rest (hasUnusedAdjacent t 0 ce))
        (hasUnusedAdjacent t 1 ce)) (hasUnusedAdjacent t 2 ce),
        ropReachable m0 ce start i ∧ (m0.tri i).isSome := by
      intro i hi
      rcases mem_pushOpt.mp hi with h | hi
      · exact hstep3 i 2 (by omega) h
      rcases mem_pushOpt.mp hi with h | hi
      · exact hstep3 i 1 (by omega) h
      rcases mem_pushOpt.mp hi with h | hi
      · exact hstep3 i 0 (by omega) h
      exact hstk i (List.mem_cons_of_mem _ hi)
    have hclose' : ∀ i ∈ log ++ [current], ∀ b, ropStep m0 ce i b →
        b ∈ log ++ [current] ∨ b ∈ pushOpt (pushOpt (pushOpt rest
          (hasUnusedAdjacent t 0 ce)) (hasUnusedAdjacent t 1 ce))
          (hasUnusedAdjacent t 2 ce) := by
      intro i hi b hb
      rcases List.mem_append.mp hi with h | h
      · rcases hclose i h b hb with h2 | h2
        · exact Or.inl (List.mem_append.mpr (Or.inl h2))
        · rcases List.mem_cons.mp h2 with h3 | h3
          · exact Or.inl (List.mem_append.mpr (Or.inr (by simp [h3])))
          · exact Or.inr (mem_pushOpt.mpr (Or.inr (mem_pushOpt.mpr (Or.inr
              (mem_pushOpt.mpr (Or.inr h3))))))
      · have hic := List.mem_singleton.mp h
        subst hic
        obtain ⟨t', k, hk, ht', hadj⟩ := hb
        rw [h0] at ht'
        have htt : t = t' := Option.some.inj ht'
        subst htt
        have hk3 : k = 0 ∨ k = 1 ∨ k = 2 := by omega
        rcases hk3 with rfl | rfl | rfl
        · exact Or.inr (mem_pushOpt.mpr (Or.inr (mem_pushOpt.mpr (Or.inr
            (mem_pushOpt.mpr (Or.inl hadj))))))
        · exact Or.inr (mem_pushOpt.mpr (Or.inr (mem_pushOpt.mpr (Or.inl hadj))))
        · exact Or.inr (mem_pushOpt.mpr (Or.inl hadj))
    obtain ⟨mf, logf, heq, hnd2, hsub, hstk2, hall, hcl2, hview2, hkeys2⟩ :=
      ih hview' hkeys' hnd' hlog' hstk' hclose'
    refine ⟨mf, logf, ?_, hnd2, ?_, ?_, hall, hcl2, hview2, hkeys2⟩
    · simp only [removeOuterLoop]
      split
      · rename_i hnone
        rw [hcur] at hnone
        exact Option.noConfusion hnone
      · rename_i u hsome
        rw [hcur] at hsome
        cases Option.some.inj hsome
        rw [dif_neg hfl]
        exact heq
    · intro i hi
      exact hsub i (List.mem_append.mpr (Or.inl hi))
    · intro i hi
      rcases List.mem_cons.mp hi with h | h
      · subst h
        exact hsub i (List.mem_append.mpr (Or.inr (by simp)))
      · exact hstk2 i (mem_pushOpt.mpr (Or.inr (mem_pushOpt.mpr (Or.inr
          (mem_pushOpt.mpr (Or.inr h))))))

/-- Claim C3 (corrected): on a mesh whose stored triangles are all initially
unflagged, with a stored start triangle, unique handles, and adjacency
handles that dereference, `RemoveOuterPolygonTriangles` terminates; the ghost
log records each reachable triangle exactly once (reachability = following
adjacency links whose crossed edge is not constrained), every reachable
triangle is erased, and every unreachable one survives unchanged.  (The
all-unflagged hypothesis is needed: a pre-flagged triangle is erased even
when unreachable — see the counterexample.) -/
theorem claim_C3 (m : Mesh) (start : ℕ) (ce : EdgeSet)
    (hnodup : m.keys.Nodup)
    (hunfl : ∀ i t, m.tri i = some t → t.flagged = false)
    (hstart : (m.tri start).isSome)
    (hclosed : ∀ a b, ropStep m ce a b → (m.tri b).isSome) :
    ∃ m1 log, removeOuterPolygonTriangles m start ce = some (m1, log) ∧
      log.Nodup ∧
      (∀ i, i ∈ log ↔ ropReachable m ce start i) ∧
      (∀ i, ropReachable m ce start i → m1.tri i = none) ∧
      (∀ i, ¬ropReachable m ce start i → m1.tri i = m.tri i) := by
  obtain ⟨mf, logf, heq, hnd2, _, hstk2, hall, hcl2, hview2, hkeys2⟩ :=
    removeOuterLoop_spec m ce start hclosed hunfl m [start] []
      (by intro i; rw [flagView]; cases m.tri i <;> simp)
      rfl
      List.nodup_nil
      (by intro i hi; simp at hi)
      (by
        intro i hi
        rw [List.mem_singleton.mp hi]
        exact ⟨Relation.ReflTransGen.refl, hstart⟩)
      (by intro i hi; simp at hi)
  have hmfnd : (mf.tris.map Prod.fst).Nodup := by
    rw [hkeys2]
    exact hnodup
  have hiff : ∀ i, i ∈ logf ↔ ropReachable m ce start i := by
    intro i
    constructor
    · intro hi
      exact (hall i hi).1
    · intro hr
      induction hr with
      | refl => exact hstk2 start (List.mem_singleton.mpr rfl)
      | tail hab hbc ih2 => exact hcl2 _ ih2 _ hbc
  have hm1 : removeOuterPolygonTriangles m start ce = some (mf.removeFlagged, logf) := by
    unfold removeOuterPolygonTriangles
    rw [heq]
  refine ⟨mf.removeFlagged, logf, hm1, hnd2, hiff, ?_, ?_⟩
  · intro i hr
    have hi : i ∈ logf := (hiff i).mpr hr
    have hsome := (hall i hi).2
    cases h0 : m.tri i with
    | none =>
      rw [h0] at hsome
      simp at hsome
    | some t0 =>
      have hv := hview2 i
      rw [flagView, h0] at hv
      simp [hi] at hv
      exact lookup_filter_of_flagged hmfnd hv rfl
  · intro i hr
    have hi : i ∉ logf := fun h => hr ((hiff i).mp h)
    have hv := hview2 i
    rw [flagView] at hv
    cases h0 : m.tri i with
    | none =>
      rw [h0] at hv
      simp at hv
      exact lookup_filter_of_none hv
    | some t0 =>
      rw [h0] at hv
      simp [hi] at hv
      exact lookup_filter_of_some hv (by simp [hunfl i t0 h0])

theorem claim_C3_witness :
    ∃ m1 log, removeOuterPolygonTriangles exRopMesh 0 [] = some (m1, log) ∧
      log.Nodup ∧
      (∀ i, i ∈ log ↔ ropReachable exRopMesh [] 0 i) ∧
      (∀ i, ropReachable exRopMesh [] 0 i → m1.tri i = none) ∧
      (∀ i, ¬ropReachable exRopMesh [] 0 i → m1.tri i = exRopMesh.tri i) :=
  claim_C3 exRopMesh 0 []
    (by simp [exRopMesh, Mesh.keys])
    (by
      intro i t h
      by_cases hi : i = 0
      · subst hi
        simp only [exRopMesh, Mesh.tri, List.lookup, beq_self_eq_true,
          Option.some.injEq] at h
        rw [← h]
        rfl
      · have hb : (i == 0) = false := beq_eq_false_iff_ne.mpr hi
        simp [exRopMesh, Mesh.tri, List.lookup, hb] at h)
    (by rfl)
    (by
      intro a b hstep
      exfalso
      obtain ⟨t, k, hk, ht, hadj⟩ := hstep
      have hta : t = exRopT := by
        by_cases hi : a = 0
        · subst hi
          simp only [exRopMesh, Mesh.tri, List.lookup, beq_self_eq_true,
            Option.some.injEq] at ht
          exact ht.symm
        · have hb : (a == 0) = false := beq_eq_false_iff_ne.mpr hi
          simp [exRopMesh, Mesh.tri, List.lookup, hb] at ht
      subst hta
      have hk3 : k = 0 ∨ k = 1 ∨ k = 2 := by omega
      rcases hk3 with rfl | rfl | rfl <;>
        simp [hasUnusedAdjacent, exRopT, Tri.adj, IsEdgeConstrained] at hadj)

/-- Claim C3's counterexample: in `exRopPre` triangle 1 is stored pre-flagged
and is unreachable from the start triangle 0 (no adjacency links at all), yet
`RemoveOuterPolygonTriangles` erases it — the surviving triangles are not
exactly the unreachable ones, refuting the claim without the all-unflagged
precondition. -/
theorem claim_C3_counterexample :
    ∃ m1 log, removeOuterPolygonTriangles exRopPre 0 [] = some (m1, log) ∧
      ¬ropReachable exRopPre [] 0 1 ∧ m1.tri 1 = none := by
  refine ⟨⟨[], [], 2⟩, [0], ?_, ?_, rfl⟩
  · simp [removeOuterPolygonTriangles, removeOuterLoop, exRopPre, exRopT,
      Mesh.tri, List.lookup, Mesh.updTri, updEntry, pushOpt, hasUnusedAdjacent,
      IsEdgeConstrained, Tri.adj, Mesh.removeFlagged]
  · intro h
    rcases Relation.ReflTransGen.cases_head h with heq | ⟨c, hstep, _⟩
    · exact absurd heq (by decide)
    · obtain ⟨t, k, hk, ht, hadj⟩ := hstep
      have hta : t = exRopT := by
        simp only [exRopPre, Mesh.tri, List.lookup, beq_self_eq_true,
          Option.some.injEq] at ht
        exact ht.symm
      subst hta
      have hk3 : k = 0 ∨ k = 1 ∨ k = 2 := by omega
      rcases hk3 with rfl | rfl | rfl <;>
        simp [hasUnusedAdjacent, exRopT, Tri.adj, IsEdgeConstrained] at hadj


theorem lookup_append_of_some {α : Type} {l : List (ℕ × α)} (l2 : List (ℕ × α))
    {k : ℕ} {v : α} (h : l.lookup k = some v) : (l ++ l2).lookup k = some v := by
  induction l with
  | nil => simp [List.lookup] at h
  | cons hd tl ih =>
    rcases hd with ⟨j, w⟩
    by_cases hk : k = j
    · subst hk
      simp only [List.lookup, beq_self_eq_true, Option.some.injEq] at h
      simp [List.lookup, h]
    · have hb : (k == j) = false := beq_eq_false_iff_ne.mpr hk
      simp only [List.lookup, hb] at h
      simp only [List.cons_append, List.lookup, hb]
      exact ih h

theorem lookup_append_of_none {α : Type} {l : List (ℕ × α)} (l2 : List (ℕ × α))
    {k : ℕ} (h : l.lookup k = none) : (l ++ l2).lookup k = l2.lookup k := by
  induction l with
  | nil => simp
  | cons hd tl ih =>
    rcases hd with ⟨j, w⟩
    by_cases hk : k = j
    · subst hk
      simp [List.lookup] at h
    · have hb : (k == j) = false := beq_eq_false_iff_ne.mpr hk
      simp only [List.lookup, hb] at h
      simp only [List.cons_append, List.lookup, hb]
      exact ih h

theorem tri_insertTriangle (m : Mesh) (c0 c1 c2 : Vertex)
    (hwf : ∀ k ∈ m.keys, k < m.nextId) (k : ℕ) :
    (m.insertTriangle c0 c1 c2).1.tri k
      = if k = m.nextId then some ⟨c0, c1, c2, [], none, none, none, false⟩
        else m.tri k := by
  have hdef : (m.insertTriangle c0 c1 c2).1.tri k
      = (m.tris ++ [(m.nextId,
          (⟨c0, c1, c2, [], none, none, none, false⟩ : Tri))]).lookup k := rfl
  have hdef2 : m.tri k = m.tris.lookup k := rfl
  rw [hdef, hdef2]
  by_cases hk : k = m.nextId
  · rw [if_pos hk]
    have hnone : m.tris.lookup k = none := by
      apply lookup_eq_none_of_not_mem
      intro hmem
      have := hwf k hmem
      omega
    rw [lookup_append_of_none _ hnone, hk]
    simp [List.lookup]
  · rw [if_neg hk]
    cases h : m.tris.lookup k with
    | none =>
      rw [lookup_append_of_none _ h]
      have hb : (k == m.nextId) = false := beq_eq_false_iff_ne.mpr hk
      simp [List.lookup, hb]
    | some v => exact lookup_append_of_some _ h

theorem adj_setAdj0 (t : Tri) (v : Option ℕ) (i : ℕ) :
    (t.setAdj 0 v).adj i = if i = 0 then v else t.adj i := by
  simp only [Tri.setAdj, Tri.adj]
  split <;> simp

theorem adj_setAdj1 (t : Tri) (v : Option ℕ) (i : ℕ) :
    (t.setAdj 1 v).adj i = if i = 1 then v else t.adj i := by
  simp only [Tri.setAdj, Tri.adj]
  by_cases h0 : i = 0
  · simp [h0]
  · by_cases h1 : i = 1 <;> simp [h0, h1]

theorem adj_setAdj2 (t : Tri) (v : Option ℕ) (i : ℕ) :
    (t.setAdj 2 v).adj i
      = if i = 0 then t.adj 0 else if i = 1 then t.adj 1 else v := by
  simp only [Tri.setAdj, Tri.adj]
  by_cases h0 : i = 0
  · simp [h0]
  · by_cases h1 : i = 1 <;> simp [h0, h1]

theorem flagged_setAdj (t : Tri) (j : ℕ) (v : Option ℕ) :
    (t.setAdj j v).flagged = t.flagged := by
  simp only [Tri.setAdj]
  split
  · rfl
  · split <;> rfl

theorem adj_cases (t : Tri) (i : ℕ) :
    t.adj i = t.adj 0 ∨ t.adj i = t.adj 1 ∨ t.adj i = t.adj 2 := by
  by_cases h0 : i = 0
  · exact Or.inl (by rw [h0])
  · by_cases h1 : i = 1
    · exact Or.inr (Or.inl (by rw [h1]))
    · refine Or.inr (Or.inr ?_)
      simp [Tri.adj, h0, h1]

theorem tri_eraseTri (m : Mesh) (i k : ℕ) :
    (m.eraseTri i).tri k = if k = i then none else m.tri k := by
  have hdef : (m.eraseTri i).tri k
      = (m.tris.filter (fun p => p.1 ≠ i)).lookup k := rfl
  have hdef2 : m.tri k = m.tris.lookup k := rfl
  rw [hdef, hdef2]
  by_cases hk : k = i
  · subst hk
    rw [if_pos rfl]
    apply lookup_eq_none_of_not_mem
    intro hmem
    simp only [List.mem_map] at hmem
    obtain ⟨p, hp, hfst⟩ := hmem
    rw [List.mem_filter] at hp
    have h2 := hp.2
    simp only [decide_eq_true_eq] at h2
    exact h2 (by rw [hfst])
  · rw [if_neg hk]
    induction m.tris with
    | nil => simp
    | cons hd tl ih =>
      rcases hd with ⟨j, w⟩
      by_cases hj : j = i
      · rw [List.filter_cons, if_neg (by simp [hj])]
        have hb : (k == j) = false := beq_eq_false_iff_ne.mpr (by rw [hj]; exact hk)
        rw [show List.lookup k ((j, w) :: tl) = List.lookup k tl by simp [List.lookup, hb]]
        exact ih
      · rw [List.filter_cons, if_pos (by simp [hj])]
        by_cases hkj : k = j
        · subst hkj
          simp [List.lookup]
        · have hb : (k == j) = false := beq_eq_false_iff_ne.mpr hkj
          simp only [List.lookup, hb]
          exact ih

theorem adjView_transferVertex (m : Mesh) (s v d k : ℕ) :
    ((transferVertex m s v d).tri k).map adjOf = (m.tri k).map adjOf := by
  unfold transferVertex
  rw [tri_updTri, tri_updTri, tri_updAvert]
  by_cases hks : k = s
  · rw [if_pos hks]
    by_cases hkd : k = d
    · rw [if_pos hkd]
      cases m.tri k <;> simp [adjOf]
    · rw [if_neg hkd]
      cases m.tri k <;> simp [adjOf]
  · rw [if_neg hks]
    by_cases hkd : k = d
    · rw [if_pos hkd]
      cases m.tri k <;> simp [adjOf]
    · rw [if_neg hkd]

theorem adjView_tv3Go (old : ℕ) (nt : ℕ → ℕ) (ce p0 p1 p2 : Vec2) :
    ∀ (rest : List ℕ) (m m' : Mesh), tv3Go old nt ce p0 p1 p2 m rest = some m' →
    ∀ k, (m'.tri k).map adjOf = (m.tri k).map adjOf := by
  intro rest
  induction rest with
  | nil =>
    intro m m' h k
    simp only [tv3Go] at h
    rw [Option.some.inj h]
  | cons vid tl ih =>
    intro m m' h k
    simp only [tv3Go] at h
    split at h
    · cases h
    · split at h
      · rw [ih _ _ h k, adjView_transferVertex]
      · split at h
        · rw [ih _ _ h k, adjView_transferVertex]
        · split at h
          · rw [ih _ _ h k, adjView_transferVertex]
          · cases h

theorem adjView_transferVertices3 (m : Mesh) (old : ℕ) (nt : ℕ → ℕ) (ce : Vec2)
    (m' : Mesh) (h : transferVertices3 m old nt ce = some m') :
    ∀ k, (m'.tri k).map adjOf = (m.tri k).map adjOf := by
  unfold transferVertices3 at h
  cases hold : m.tri old with
  | none => rw [hold] at h; cases h
  | some oldT =>
    rw [hold] at h
    exact adjView_tv3Go _ _ _ _ _ _ _ _ _ h

theorem adjView_tv2Go (old nf ns : ℕ) (dcF dcS : Vec2) :
    ∀ (rest : List ℕ) (m m' : Mesh), tv2Go old nf ns dcF dcS m rest = some m' →
    ∀ k, (m'.tri k).map adjOf = (m.tri k).map adjOf := by
  intro rest
  induction rest with
  | nil =>
    intro m m' h k
    simp only [tv2Go] at h
    rw [Option.some.inj h]
  | cons vid tl ih =>
    intro m m' h k
    simp only [tv2Go] at h
    split at h
    · cases h
    · split at h
      · rw [ih _ _ h k, adjView_transferVertex]
      · rw [ih _ _ h k, adjView_transferVertex]

theorem adjView_transferVertices2Impl (m : Mesh) (dcF dcS : Vec2)
    (nf ns old : ℕ) (m' : Mesh)
    (h : transferVertices2Impl m dcF dcS nf ns old = some m') :
    ∀ k, (m'.tri k).map adjOf = (m.tri k).map adjOf := by
  unfold transferVertices2Impl at h
  split at h
  · cases h
  · exact adjView_tv2Go _ _ _ _ _ _ _ _ h

theorem adjView_transferVertices2 (m : Mesh) (a b nf ns : ℕ) (dc : ℕ × ℕ)
    (m' : Mesh) (h : transferVertices2 m a b nf ns dc = some m') :
    ∀ k, (m'.tri k).map adjOf = (m.tri k).map adjOf := by
  unfold transferVertices2 at h
  split at h
  · rename_i t1 t2 h1 h2
    simp only [] at h
    split at h
    · cases h
    · rename_i m1 hmid
      intro k
      rw [adjView_transferVertices2Impl _ _ _ _ _ _ _ h k,
        adjView_transferVertices2Impl _ _ _ _ _ _ _ hmid k]
  · cases h

theorem uabr_spec {m : Mesh} {old : ℕ} {nw : Option ℕ} {other : Option ℕ} {mr : Mesh}
    (h : updateAdjacentBackReferences m old nw other = some mr) :
    (other = none ∧ mr = m) ∨
    ∃ q qt s, other = some q ∧ m.tri q = some qt ∧ s < 3 ∧ qt.adj s = some old ∧
      mr = m.updTri q (fun t => t.setAdj s nw) := by
  unfold updateAdjacentBackReferences at h
  split at h
  · exact Or.inl ⟨rfl, (Option.some.inj h).symm⟩
  · rename_i q
    right
    split at h
    · cases h
    · rename_i qt hq
      by_cases h0 : qt.adj 0 = some old
      · rw [if_pos h0] at h
        exact ⟨q, qt, 0, rfl, hq, by omega, h0, (Option.some.inj h).symm⟩
      · rw [if_neg h0] at h
        by_cases h1 : qt.adj 1 = some old
        · rw [if_pos h1] at h
          exact ⟨q, qt, 1, rfl, hq, by omega, h1, (Option.some.inj h).symm⟩
        · rw [if_neg h1] at h
          by_cases h2 : qt.adj 2 = some old
          · rw [if_pos h2] at h
            exact ⟨q, qt, 2, rfl, hq, by omega, h2, (Option.some.inj h).symm⟩
          · rw [if_neg h2] at h
            cases h

/-- The first conjunct of Claim C5: the bootstrap mesh is adjacency-symmetric
(vacuously — its single triangle has no neighbors). -/
theorem adjSym_createBoundaryPoints : AdjSym createBoundaryPoints := by
  intro ia A i ib B hA hAf hadj hB hBf
  exfalso
  have hA0 : A.adj i = none := by
    have : ia = 0 ∧ A = ⟨⟨0, ⟨-1, 0⟩⟩, ⟨1, ⟨0, 1⟩⟩, ⟨2, ⟨1, 0⟩⟩,
        [], none, none, none, false⟩ := by
      by_cases hia : ia = 0
      · subst hia
        simp only [createBoundaryPoints, Mesh.tri, List.lookup, beq_self_eq_true,
          Option.some.injEq] at hA
        exact ⟨rfl, hA.symm⟩
      · have hb : (ia == 0) = false := beq_eq_false_iff_ne.mpr hia
        simp [createBoundaryPoints, Mesh.tri, List.lookup, hb] at hA
    rw [this.2]
    rcases adj_cases _ i with h | h | h <;> rw [h] <;> rfl
  rw [hA0] at hadj
  cases hadj

theorem adj_eq_of_adjOf_eq {t t2 : Tri} (h : adjOf t = adjOf t2) :
    (∀ i, t.adj i = t2.adj i) ∧ t.flagged = t2.flagged := by
  unfold adjOf at h
  simp only [Prod.mk.injEq] at h
  obtain ⟨h0, h1, h2, h3⟩ := h
  refine ⟨?_, h3⟩
  intro i
  simp only [Tri.adj]
  by_cases hi0 : i = 0
  · simp [hi0, h0]
  · by_cases hi1 : i = 1 <;> simp [hi0, hi1, h1, h2]

theorem initializeAdjacents3_spec (mstart : Mesh) (old : ℕ) (oldT : Tri)
    (fn : ℕ → ℕ) (ch0 ch1 ch2 : Tri) (m4 m5 m6 : Mesh)
    (h4 : initializeAdjacents mstart fn 0 old = some m4)
    (h5 : initializeAdjacents m4 fn 1 old = some m5)
    (h6 : initializeAdjacents m5 fn 2 old = some m6)
    (hold : mstart.tri old = some oldT)
    (hch0 : mstart.tri (fn 0) = some ch0) (hch0f : ch0.flagged = false)
    (hch1 : mstart.tri (fn 1) = some ch1) (hch1f : ch1.flagged = false)
    (hch2 : mstart.tri (fn 2) = some ch2) (hch2f : ch2.flagged = false)
    (hfd01 : fn 0 ≠ fn 1) (hfd02 : fn 0 ≠ fn 2) (hfd12 : fn 1 ≠ fn 2)
    (hofd0 : old ≠ fn 0) (hofd1 : old ≠ fn 1) (hofd2 : old ≠ fn 2)
    (hnb : ∀ j q, j < 3 → oldT.adj j = some q →
      q ≠ old ∧ q ≠ fn 0 ∧ q ≠ fn 1 ∧ q ≠ fn 2)
    (hdist : ∀ j k q, j < 3 → k < 3 → j ≠ k → oldT.adj j = some q →
      oldT.adj k ≠ some q) :
    (∃ u0, m6.tri (fn 0) = some u0 ∧ u0.flagged = false ∧ u0.a0 = some (fn 1) ∧
      u0.a1 = some (fn 2) ∧ u0.a2 = oldT.adj 2) ∧
    (∃ u1, m6.tri (fn 1) = some u1 ∧ u1.flagged = false ∧ u1.a0 = some (fn 2) ∧
      u1.a1 = some (fn 0) ∧ u1.a2 = oldT.adj 0) ∧
    (∃ u2, m6.tri (fn 2) = some u2 ∧ u2.flagged = false ∧ u2.a0 = some (fn 0) ∧
      u2.a1 = some (fn 1) ∧ u2.a2 = oldT.adj 1) ∧
    (∀ j q, j < 3 → oldT.adj j = some q →
      ∃ qt s, mstart.tri q = some qt ∧ s < 3 ∧ qt.adj s = some old ∧
        m6.tri q = some (qt.setAdj s (some (fn ((j + 1) % 3))))) ∧
    (∀ x, x ≠ fn 0 → x ≠ fn 1 → x ≠ fn 2 → (∀ j, j < 3 → oldT.adj j ≠ some x) →
      m6.tri x = mstart.tri x) := by
  -- call 0
  unfold initializeAdjacents at h4
  simp only [Nat.reduceAdd, Nat.reduceMod] at h4
  split at h4
  · rename_i hnone
    rw [hold] at hnone
    cases hnone
  rename_i oldTb hsome
  rw [hold] at hsome
  cases Option.some.inj hsome
  have key4 :
      (m4.tri (fn 0) = some (((ch0.setAdj 0 (some (fn 1))).setAdj 1
        (some (fn 2))).setAdj 2 (oldT.adj 2))) ∧
      (∀ q, oldT.adj 2 = some q → ∃ qt s, mstart.tri q = some qt ∧ s < 3 ∧
        qt.adj s = some old ∧ m4.tri q = some (qt.setAdj s (some (fn 0)))) ∧
      (∀ x, x ≠ fn 0 → oldT.adj 2 ≠ some x → m4.tri x = mstart.tri x) := by
    rcases uabr_spec h4 with ⟨hO, hm4⟩ | ⟨q, qt, s, hO, hq, hs, hback, hm4⟩
    · subst hm4
      refine ⟨?_, ?_, ?_⟩
      · rw [tri_updTri, if_pos rfl, tri_updTri, if_pos rfl, tri_updTri,
          if_pos rfl, hch0]
        rfl
      · intro q hq
        rw [hO] at hq
        cases hq
      · intro x hx0 hxq
        rw [tri_updTri, if_neg hx0, tri_updTri, if_neg hx0, tri_updTri, if_neg hx0]
    · have hqf := hnb 2 q (by omega) hO
      have hqfn0 : q ≠ fn 0 := hqf.2.1
      have hq0 : mstart.tri q = some qt := by
        rw [tri_updTri, if_neg hqfn0, tri_updTri, if_neg hqfn0, tri_updTri,
          if_neg hqfn0] at hq
        exact hq
      subst hm4
      refine ⟨?_, ?_, ?_⟩
      · rw [tri_updTri, if_neg (Ne.symm hqfn0), tri_updTri, if_pos rfl, tri_updTri,
          if_pos rfl, tri_updTri, if_pos rfl, hch0]
        rfl
      · intro q2 hq2
        rw [hO] at hq2
        cases Option.some.inj hq2
        exact ⟨qt, s, hq0, hs, hback, by rw [tri_updTri, if_pos rfl, hq]; rfl⟩
      · intro x hx0 hxq
        have hxq2 : x ≠ q := by
          intro hxx
          exact hxq (hxx ▸ hO)
        rw [tri_updTri, if_neg hxq2, tri_updTri, if_neg hx0, tri_updTri,
          if_neg hx0, tri_updTri, if_neg hx0]
  obtain ⟨k4c, k4q, k4o⟩ := key4
  have h4old : m4.tri old = some oldT := by
    rw [k4o old hofd0 (fun hc => (hnb 2 old (by omega) hc).1 rfl)]
    exact hold
  have h4ch1 : m4.tri (fn 1) = some ch1 := by
    rw [k4o (fn 1) (Ne.symm hfd01) (fun hc => (hnb 2 (fn 1) (by omega) hc).2.2.1 rfl)]
    exact hch1
  have h4ch2 : m4.tri (fn 2) = some ch2 := by
    rw [k4o (fn 2) (Ne.symm hfd02) (fun hc => (hnb 2 (fn 2) (by omega) hc).2.2.2 rfl)]
    exact hch2
  -- call 1
  unfold initializeAdjacents at h5
  simp only [Nat.reduceAdd, Nat.reduceMod] at h5
  split at h5
  · rename_i hnone
    rw [h4old] at hnone
    cases hnone
  rename_i oldTb hsome5
  rw [h4old] at hsome5
  cases Option.some.inj hsome5
  have key5 :
      (m5.tri (fn 1) = some (((ch1.setAdj 0 (some (fn 2))).setAdj 1
        (some (fn 0))).setAdj 2 (oldT.adj 0))) ∧
      (∀ q, oldT.adj 0 = some q → ∃ qt s, m4.tri q = some qt ∧ s < 3 ∧
        qt.adj s = some old ∧ m5.tri q = some (qt.setAdj s (some (fn 1)))) ∧
      (∀ x, x ≠ fn 1 → oldT.adj 0 ≠ some x → m5.tri x = m4.tri x) := by
    rcases uabr_spec h5 with ⟨hO, hm5⟩ | ⟨q, qt, s, hO, hq, hs, hback, hm5⟩
    · subst hm5
      refine ⟨?_, ?_, ?_⟩
      · rw [tri_updTri, if_pos rfl, tri_updTri, if_pos rfl, tri_updTri,
          if_pos rfl, h4ch1]
        rfl
      · intro q hq
        rw [hO] at hq
        cases hq
      · intro x hx0 hxq
        rw [tri_updTri, if_neg hx0, tri_updTri, if_neg hx0, tri_updTri, if_neg hx0]
    · have hqf := hnb 0 q (by omega) hO
      have hqfn1 : q ≠ fn 1 := hqf.2.2.1
      have hq0 : m4.tri q = some qt := by
        rw [tri_updTri, if_neg hqfn1, tri_updTri, if_neg hqfn1, tri_updTri,
          if_neg hqfn1] at hq
        exact hq
      subst hm5
      refine ⟨?_, ?_, ?_⟩
      · rw [tri_updTri, if_neg (Ne.symm hqfn1), tri_updTri, if_pos rfl, tri_updTri,
          if_pos rfl, tri_updTri, if_pos rfl, h4ch1]
        rfl
      · intro q2 hq2
        rw [hO] at hq2
        cases Option.some.inj hq2
        exact ⟨qt, s, hq0, hs, hback, by rw [tri_updTri, if_pos rfl, hq]; rfl⟩
      · intro x hx0 hxq
        have hxq2 : x ≠ q := by
          intro hxx
          exact hxq (hxx ▸ hO)
        rw [tri_updTri, if_neg hxq2, tri_updTri, if_neg hx0, tri_updTri,
          if_neg hx0, tri_updTri, if_neg hx0]
  obtain ⟨k5c, k5q, k5o⟩ := key5
  have h5old : m5.tri old = some oldT := by
    rw [k5o old hofd1 (fun hc => (hnb 0 old (by omega) hc).1 rfl)]
    exact h4old
  have h5ch2 : m5.tri (fn 2) = some ch2 := by
    rw [k5o (fn 2) (Ne.symm hfd12) (fun hc => (hnb 0 (fn 2) (by omega) hc).2.2.2 rfl)]
    exact h4ch2
  have h5c0 : m5.tri (fn 0) = some (((ch0.setAdj 0 (some (fn 1))).setAdj 1
      (some (fn 2))).setAdj 2 (oldT.adj 2)) := by
    rw [k5o (fn 0) hfd01 (fun hc => (hnb 0 (fn 0) (by omega) hc).2.1 rfl)]
    exact k4c
  -- call 2
  unfold initializeAdjacents at h6
  simp only [Nat.reduceAdd, Nat.reduceMod] at h6
  split at h6
  · rename_i hnone
    rw [h5old] at hnone
    cases hnone
  rename_i oldTb hsome6
  rw [h5old] at hsome6
  cases Option.some.inj hsome6
  have key6 :
      (m6.tri (fn 2) = some (((ch2.setAdj 0 (some (fn 0))).setAdj 1
        (some (fn 1))).setAdj 2 (oldT.adj 1))) ∧
      (∀ q, oldT.adj 1 = some q → ∃ qt s, m5.tri q = some qt ∧ s < 3 ∧
        qt.adj s = some old ∧ m6.tri q = some (qt.setAdj s (some (fn 2)))) ∧
      (∀ x, x ≠ fn 2 → oldT.adj 1 ≠ some x → m6.tri x = m5.tri x) := by
    rcases uabr_spec h6 with ⟨hO, hm6⟩ | ⟨q, qt, s, hO, hq, hs, hback, hm6⟩
    · subst hm6
      refine ⟨?_, ?_, ?_⟩
      · rw [tri_updTri, if_pos rfl, tri_updTri, if_pos rfl, tri_updTri,
          if_pos rfl, h5ch2]
        rfl
      · intro q hq
        rw [hO] at hq
        cases hq
      · intro x hx0 hxq
        rw [tri_updTri, if_neg hx0, tri_updTri, if_neg hx0, tri_updTri, if_neg hx0]
    · have hqf := hnb 1 q (by omega) hO
      have hqfn2 : q ≠ fn 2 := hqf.2.2.2
      have hq0 : m5.tri q = some qt := by
        rw [tri_updTri, if_neg hqfn2, tri_updTri, if_neg hqfn2, tri_updTri,
          if_neg hqfn2] at hq
        exact hq
      subst hm6
      refine ⟨?_, ?_, ?_⟩
      · rw [tri_updTri, if_neg (Ne.symm hqfn2), tri_updTri, if_pos rfl, tri_updTri,
          if_pos rfl, tri_updTri, if_pos rfl, h5ch2]
        rfl
      · intro q2 hq2
        rw [hO] at hq2
        cases Option.some.inj hq2
        exact ⟨qt, s, hq0, hs, hback, by rw [tri_updTri, if_pos rfl, hq]; rfl⟩
      · intro x hx0 hxq
        have hxq2 : x ≠ q := by
          intro hxx
          exact hxq (hxx ▸ hO)
        rw [tri_updTri, if_neg hxq2, tri_updTri, if_neg hx0, tri_updTri,
          if_neg hx0, tri_updTri, if_neg hx0]
  obtain ⟨k6c, k6q, k6o⟩ := key6
  -- assemble
  have h6c0 : m6.tri (fn 0) = some (((ch0.setAdj 0 (some (fn 1))).setAdj 1
      (some (fn 2))).setAdj 2 (oldT.adj 2)) := by
    rw [k6o (fn 0) hfd02 (fun hc => (hnb 1 (fn 0) (by omega) hc).2.1 rfl)]
    exact h5c0
  have h6c1 : m6.tri (fn 1) = some (((ch1.setAdj 0 (some (fn 2))).setAdj 1
      (some (fn 0))).setAdj 2 (oldT.adj 0)) := by
    rw [k6o (fn 1) hfd12 (fun hc => (hnb 1 (fn 1) (by omega) hc).2.2.1 rfl)]
    exact k5c
  refine ⟨⟨_, h6c0, ?_, ?_, ?_, ?_⟩, ⟨_, h6c1, ?_, ?_, ?_, ?_⟩,
    ⟨_, k6c, ?_, ?_, ?_, ?_⟩, ?_, ?_⟩
  · simp [Tri.setAdj, hch0f]
  · simp [Tri.setAdj]
  · simp [Tri.setAdj]
  · simp [Tri.setAdj]
  · simp [Tri.setAdj, hch1f]
  · simp [Tri.setAdj]
  · simp [Tri.setAdj]
  · simp [Tri.setAdj]
  · simp [Tri.setAdj, hch2f]
  · simp [Tri.setAdj]
  · simp [Tri.setAdj]
  · simp [Tri.setAdj]
  · -- the neighbor back-reference conclusion
    intro j q hj hq
    have hj3 : j = 0 ∨ j = 1 ∨ j = 2 := by omega
    rcases hj3 with rfl | rfl | rfl
    · -- neighbor across edge 0, wired to child 1
      obtain ⟨qt, s, hq4, hs, hback, hm5q⟩ := k5q q hq
      have hqnb := hnb 0 q (by omega) hq
      have hq4s : mstart.tri q = some qt := by
        rw [k4o q hqnb.2.1 (fun hc => hdist 2 0 q (by omega) (by omega)
          (by omega) hc hq)] at hq4
        exact hq4
      refine ⟨qt, s, hq4s, hs, hback, ?_⟩
      rw [k6o q hqnb.2.2.2 (fun hc => hdist 1 0 q (by omega) (by omega)
        (by omega) hc hq)]
      exact hm5q
    · -- neighbor across edge 1, wired to child 2
      obtain ⟨qt, s, hq5, hs, hback, hm6q⟩ := k6q q hq
      have hqnb := hnb 1 q (by omega) hq
      have hq5s : mstart.tri q = some qt := by
        rw [k5o q hqnb.2.2.1 (fun hc => hdist 0 1 q (by omega) (by omega)
          (by omega) hc hq), k4o q hqnb.2.1 (fun hc => hdist 2 1 q (by omega)
          (by omega) (by omega) hc hq)] at hq5
        exact hq5
      exact ⟨qt, s, hq5s, hs, hback, hm6q⟩
    · -- neighbor across edge 2, wired to child 0
      obtain ⟨qt, s, hq4, hs, hback, hm4q⟩ := k4q q hq
      have hqnb := hnb 2 q (by omega) hq
      refine ⟨qt, s, hq4, hs, hback, ?_⟩
      rw [k6o q hqnb.2.2.2 (fun hc => hdist 1 2 q (by omega) (by omega)
        (by omega) hc hq), k5o q hqnb.2.2.1 (fun hc => hdist 0 2 q (by omega)
        (by omega) (by omega) hc hq)]
      exact hm4q
  · intro x hx0 hx1 hx2 hxq
    rw [k6o x hx2 (hxq 1 (by omega)), k5o x hx1 (hxq 0 (by omega)),
      k4o x hx0 (hxq 2 (by omega))]

theorem adj_setAdj_self (t : Tri) (s : ℕ) (v : Option ℕ) (hs : s < 3) :
    (t.setAdj s v).adj s = v := by
  have h3 : s = 0 ∨ s = 1 ∨ s = 2 := by omega
  rcases h3 with rfl | rfl | rfl
  · rw [adj_setAdj0, if_pos rfl]
  · rw [adj_setAdj1, if_pos rfl]
  · rw [adj_setAdj2, if_neg (by omega), if_neg (by omega)]

theorem adj_setAdj_other (t : Tri) (s u : ℕ) (v : Option ℕ) (hs : s < 3)
    (hu : u < 3) (hne : u ≠ s) : (t.setAdj s v).adj u = t.adj u := by
  have h3 : s = 0 ∨ s = 1 ∨ s = 2 := by omega
  rcases h3 with rfl | rfl | rfl
  · rw [adj_setAdj0, if_neg hne]
  · rw [adj_setAdj1, if_neg hne]
  · have hu2 : u = 0 ∨ u = 1 := by omega
    rcases hu2 with rfl | rfl
    · rw [adj_setAdj2, if_pos rfl]
    · rw [adj_setAdj2, if_neg (by omega), if_pos rfl]

theorem adj_setAdj_or (t : Tri) (s i : ℕ) (v : Option ℕ) (hs : s < 3) :
    (t.setAdj s v).adj i = v ∨ (t.setAdj s v).adj i = t.adj i := by
  have h3 : s = 0 ∨ s = 1 ∨ s = 2 := by omega
  rcases h3 with rfl | rfl | rfl
  · rw [adj_setAdj0]
    split
    · exact Or.inl rfl
    · exact Or.inr rfl
  · rw [adj_setAdj1]
    split
    · exact Or.inl rfl
    · exact Or.inr rfl
  · rw [adj_setAdj2]
    by_cases h0 : i = 0
    · rw [if_pos h0, h0]
      exact Or.inr rfl
    · rw [if_neg h0]
      by_cases h1 : i = 1
      · rw [if_pos h1, h1]
        exact Or.inr rfl
      · rw [if_neg h1]
        refine Or.inl rfl

theorem adj_canon (t : Tri) (i : ℕ) : ∃ j, j < 3 ∧ t.adj j = t.adj i := by
  rcases adj_cases t i with h | h | h
  · exact ⟨0, by omega, h.symm⟩
  · exact ⟨1, by omega, h.symm⟩
  · exact ⟨2, by omega, h.symm⟩

theorem wf_insertTriangle (m : Mesh) (c0 c1 c2 : Vertex)
    (hwf : ∀ k ∈ m.keys, k < m.nextId) :
    ∀ k ∈ (m.insertTriangle c0 c1 c2).1.keys,
      k < (m.insertTriangle c0 c1 c2).1.nextId := by
  intro k hk
  have hkeys : (m.insertTriangle c0 c1 c2).1.keys = m.keys ++ [m.nextId] := by
    simp [Mesh.keys, Mesh.insertTriangle]
  have hn : (m.insertTriangle c0 c1 c2).1.nextId = m.nextId + 1 := rfl
  rw [hkeys] at hk
  rw [hn]
  rcases List.mem_append.mp hk with h | h
  · have := hwf k h
    omega
  · simp at h
    omega

theorem adjSym_insertPointSplit (m : Mesh) (vid : ℕ) (vertex : AdvVert)
    (oldT : Tri) (mf : Mesh)
    (hAS : AdjSym m)
    (hwf : ∀ k ∈ m.keys, k < m.nextId)
    (hlt : ∀ a A i b, m.tri a = some A → A.adj i = some b → b < m.nextId)
    (hav : m.avert vid = some vertex)
    (hold : m.tri vertex.surrounding = some oldT)
    (hnself : ∀ j, oldT.adj j ≠ some vertex.surrounding)
    (hdist : ∀ j k q, j < 3 → k < 3 → j ≠ k → oldT.adj j = some q →
      oldT.adj k ≠ some q)
    (hrun : insertPointSplit m vid = some mf) :
    AdjSym mf := by
  unfold insertPointSplit at hrun
  split at hrun
  · cases hrun
  rename_i vertex2 hav2
  rw [hav] at hav2
  cases Option.some.inj hav2
  split at hrun
  · cases hrun
  rename_i oldT2 hold2x
  rw [hold] at hold2x
  cases Option.some.inj hold2x
  split at hrun
  · cases hrun
  rename_i hcw
  simp only [] at hrun
  split at hrun
  · cases hrun
  rename_i m4 h4
  split at hrun
  · cases hrun
  rename_i m5 h5
  split at hrun
  · cases hrun
  rename_i m6 h6
  split at hrun
  · cases hrun
  rename_i t6 ht6
  split at hrun
  case _ hvmem =>
    split at hrun
    · cases hrun
    rename_i m8 h8
    have hmf : m8.eraseTri vertex.surrounding = mf := Option.some.inj hrun
    -- bookkeeping about the triple-insert start mesh
    have hwf1 := wf_insertTriangle m oldT.c0 oldT.c1 vertex.vert hwf
    have hwf2 := wf_insertTriangle (m.insertTriangle oldT.c0 oldT.c1 vertex.vert).1
      oldT.c1 oldT.c2 vertex.vert hwf1
    have hn1 : (m.insertTriangle oldT.c0 oldT.c1 vertex.vert).1.nextId
        = m.nextId + 1 := rfl
    have hn2 : ((m.insertTriangle oldT.c0 oldT.c1 vertex.vert).1.insertTriangle
        oldT.c1 oldT.c2 vertex.vert).1.nextId = m.nextId + 2 := rfl
    have hBT : ∀ k, (((m.insertTriangle oldT.c0 oldT.c1
        vertex.vert).1.insertTriangle oldT.c1 oldT.c2
        vertex.vert).1.insertTriangle oldT.c2 oldT.c0 vertex.vert).1.tri k
        = if k = m.nextId + 2 then
            some ⟨oldT.c2, oldT.c0, vertex.vert, [], none, none, none, false⟩
          else if k = m.nextId + 1 then
            some ⟨oldT.c1, oldT.c2, vertex.vert, [], none, none, none, false⟩
          else if k = m.nextId then
            some ⟨oldT.c0, oldT.c1, vertex.vert, [], none, none, none, false⟩
          else m.tri k := by
      intro k
      rw [tri_insertTriangle _ _ _ _ hwf2 k, tri_insertTriangle _ _ _ _ hwf1 k,
        tri_insertTriangle _ _ _ _ hwf k, hn2, hn1]
    have holdmem : vertex.surrounding ∈ m.keys := by
      have hmem := mem_of_lookup_some hold
      exact List.mem_map_of_mem Prod.fst hmem
    have holdlt : vertex.surrounding < m.nextId := hwf _ holdmem
    have hBold : (((m.insertTriangle oldT.c0 oldT.c1
        vertex.vert).1.insertTriangle oldT.c1 oldT.c2
        vertex.vert).1.insertTriangle oldT.c2 oldT.c0 vertex.vert).1.tri
        vertex.surrounding = some oldT := by
      rw [hBT, if_neg (by omega), if_neg (by omega), if_neg (by omega)]
      exact hold
    have hBch0 : (((m.insertTriangle oldT.c0 oldT.c1
        vertex.vert).1.insertTriangle oldT.c1 oldT.c2
        vertex.vert).1.insertTriangle oldT.c2 oldT.c0 vertex.vert).1.tri m.nextId
        = some ⟨oldT.c0, oldT.c1, vertex.vert, [], none, none, none, false⟩ := by
      rw [hBT, if_neg (by omega), if_neg (by omega), if_pos rfl]
    have hBch1 : (((m.insertTriangle oldT.c0 oldT.c1
        vertex.vert).1.insertTriangle oldT.c1 oldT.c2
        vertex.vert).1.insertTriangle oldT.c2 oldT.c0 vertex.vert).1.tri
        (m.nextId + 1)
        = some ⟨oldT.c1, oldT.c2, vertex.vert, [], none, none, none, false⟩ := by
      rw [hBT, if_neg (by omega), if_pos rfl]
    have hBch2 : (((m.insertTriangle oldT.c0 oldT.c1
        vertex.vert).1.insertTriangle oldT.c1 oldT.c2
        vertex.vert).1.insertTriangle oldT.c2 oldT.c0 vertex.vert).1.tri
        (m.nextId + 2)
        = some ⟨oldT.c2, oldT.c0, vertex.vert, [], none, none, none, false⟩ := by
      rw [hBT, if_pos rfl]
    have hnb : ∀ j q, j < 3 → oldT.adj j = some q →
        q ≠ vertex.surrounding ∧ q ≠ m.nextId ∧ q ≠ m.nextId + 1
          ∧ q ≠ m.nextId + 2 := by
      intro j q hj hq
      have hqlt : q < m.nextId := hlt vertex.surrounding oldT j q hold hq
      refine ⟨?_, by omega, by omega, by omega⟩
      intro hc
      exact hnself j (hc ▸ hq)
    have hW := initializeAdjacents3_spec _ _ oldT
      (fun i => if i = 0 then (m.insertTriangle oldT.c0 oldT.c1 vertex.vert).2 else if i = 1 then ((m.insertTriangle oldT.c0 oldT.c1 vertex.vert).1.insertTriangle oldT.c1 oldT.c2 vertex.vert).2 else (((m.insertTriangle oldT.c0 oldT.c1 vertex.vert).1.insertTriangle oldT.c1 oldT.c2 vertex.vert).1.insertTriangle oldT.c2 oldT.c0 vertex.vert).2)
      ⟨oldT.c0, oldT.c1, vertex.vert, [], none, none, none, false⟩
      ⟨oldT.c1, oldT.c2, vertex.vert, [], none, none, none, false⟩
      ⟨oldT.c2, oldT.c0, vertex.vert, [], none, none, none, false⟩
      m4 m5 m6 h4 h5 h6 hBold
      hBch0 rfl hBch1 rfl hBch2 rfl
      (show m.nextId ≠ m.nextId + 1 by omega)
      (show m.nextId ≠ m.nextId + 2 by omega)
      (show m.nextId + 1 ≠ m.nextId + 2 by omega)
      (show vertex.surrounding ≠ m.nextId by omega)
      (show vertex.surrounding ≠ m.nextId + 1 by omega)
      (show vertex.surrounding ≠ m.nextId + 2 by omega)
      hnb hdist
    obtain ⟨⟨u0, hu0m0, hu0f, hu0a0, hu0a1, hu0a2⟩,
      ⟨u1, hu1m0, hu1f, hu1a0, hu1a1, hu1a2⟩,
      ⟨u2, hu2m0, hu2f, hu2a0, hu2a1, hu2a2⟩, hWQ, hWO⟩ := hW
    -- restate with plain handles (definitionally equal to the nt applications)
    have hu0m : m6.tri m.nextId = some u0 := hu0m0
    have hu1m : m6.tri (m.nextId + 1) = some u1 := hu1m0
    have hu2m : m6.tri (m.nextId + 2) = some u2 := hu2m0
    have hu0b0 : u0.a0 = some (m.nextId + 1) := hu0a0
    have hu0b1 : u0.a1 = some (m.nextId + 2) := hu0a1
    have hu1b0 : u1.a0 = some (m.nextId + 2) := hu1a0
    have hu1b1 : u1.a1 = some m.nextId := hu1a1
    have hu2b0 : u2.a0 = some m.nextId := hu2a0
    have hu2b1 : u2.a1 = some (m.nextId + 1) := hu2a1
    have hWo2 : ∀ x, x ≠ m.nextId → x ≠ m.nextId + 1 → x ≠ m.nextId + 2 →
        (∀ j, j < 3 → oldT.adj j ≠ some x) → m6.tri x = m.tri x := by
      intro x h0 h1 h2 hj
      rw [hWO x h0 h1 h2 hj, hBT, if_neg h2, if_neg h1, if_neg h0]
    -- the final mesh seen through the adjacency view
    have hfold : mf.tri vertex.surrounding = none := by
      rw [← hmf, tri_eraseTri, if_pos rfl]
    have hfin : ∀ k, k ≠ vertex.surrounding →
        (mf.tri k).map adjOf = (m6.tri k).map adjOf := by
      intro k hk
      rw [← hmf, tri_eraseTri, if_neg hk,
        adjView_transferVertices3 _ _ _ _ _ h8 k, tri_updTri, if_neg hk]
    have hEXT : ∀ x X, x ≠ vertex.surrounding → mf.tri x = some X →
        ∃ X6, m6.tri x = some X6 ∧ (∀ i, X6.adj i = X.adj i) ∧
          X6.flagged = X.flagged := by
      intro x X hx hmx
      have hv := hfin x hx
      cases h6x : m6.tri x with
      | none =>
        rw [hmx, h6x] at hv
        simp at hv
      | some X6 =>
        rw [hmx, h6x] at hv
        simp at hv
        exact ⟨X6, rfl, (adj_eq_of_adjOf_eq hv.symm).1,
          (adj_eq_of_adjOf_eq hv.symm).2⟩
    -- generic target analysis: a triangle that pointed to y in m still has a
    -- slot pointing back from y's final triangle
    have hTGT : ∀ x y Y6, x ≠ vertex.surrounding → y ≠ vertex.surrounding →
        (∃ xm i2, m.tri x = some xm ∧ xm.flagged = false ∧
          xm.adj i2 = some y) →
        m6.tri y = some Y6 → Y6.flagged = false → ∃ j, Y6.adj j = some x := by
      intro x y Y6 hxo hyo hxm hY6 hY6f
      obtain ⟨xm, i2, hxm, hxmf, hx2⟩ := hxm
      have hylt : y < m.nextId := hlt x xm i2 y hxm hx2
      by_cases hyq : ∃ j, j < 3 ∧ oldT.adj j = some y
      · obtain ⟨jy, hjy3, hjy⟩ := hyq
        obtain ⟨qt, s, hqB, hs3, hback, hq6⟩ := hWQ jy y hjy3 hjy
        have hqm : m.tri y = some qt := by
          rw [← hqB, hBT, if_neg (by omega), if_neg (by omega), if_neg (by omega)]
        rw [hq6] at hY6
        have hY6e := (Option.some.inj hY6).symm
        have hqtf : qt.flagged = false := by
          have := hY6e ▸ hY6f
          rw [flagged_setAdj] at this
          exact this
        obtain ⟨j, hj⟩ := hAS x xm i2 y qt hxm hxmf hx2 hqm hqtf
        obtain ⟨j2, hj23, hj2e⟩ := adj_canon qt j
        have hj2x : qt.adj j2 = some x := by rw [hj2e, hj]
        have hj2s : j2 ≠ s := by
          intro hc
          rw [hc, hback] at hj2x
          exact hxo (Option.some.inj hj2x).symm
        refine ⟨j2, ?_⟩
        rw [hY6e, adj_setAdj_other _ _ _ _ hs3 hj23 hj2s, hj2x]
      · push_neg at hyq
        have hy6 : m6.tri y = m.tri y := by
          apply hWo2 y (by omega) (by omega) (by omega)
          intro j hj hc
          exact hyq j hj (by rw [hc])
        rw [hy6] at hY6
        exact hAS x xm i2 y Y6 hxm hxmf hx2 hY6 hY6f
    -- the adjacency-symmetry proof itself
    intro ia A i ib B hA hAf hadj hB hBf
    have hiao : ia ≠ vertex.surrounding := by
      intro h
      rw [h, hfold] at hA
      cases hA
    have hibo : ib ≠ vertex.surrounding := by
      intro h
      rw [h, hfold] at hB
      cases hB
    obtain ⟨A6, hA6m, hA6adj, hA6flag⟩ := hEXT ia A hiao hA
    obtain ⟨B6, hB6m, hB6adj, hB6flag⟩ := hEXT ib B hibo hB
    have hadj6 : A6.adj i = some ib := (hA6adj i).trans hadj
    have hA6f : A6.flagged = false := by rw [hA6flag, hAf]
    have hB6f : B6.flagged = false := by rw [hB6flag, hBf]
    have hgoal : (∃ j, B6.adj j = some ia) → ∃ j, B.adj j = some ia := by
      rintro ⟨j, hj⟩
      exact ⟨j, by rw [← hB6adj j, hj]⟩
    apply hgoal
    by_cases hia0 : ia = m.nextId
    · -- source is split child 0
      subst hia0
      rw [hu0m] at hA6m
      cases Option.some.inj hA6m
      rcases adj_cases u0 i with hc | hc | hc
      all_goals rw [hc] at hadj6
      · rw [show u0.adj 0 = u0.a0 from rfl, hu0b0] at hadj6
        cases Option.some.inj hadj6
        rw [hu1m] at hB6m
        cases Option.some.inj hB6m
        exact ⟨1, by rw [show u1.adj 1 = u1.a1 from rfl, hu1b1]⟩
      · rw [show u0.adj 1 = u0.a1 from rfl, hu0b1] at hadj6
        cases Option.some.inj hadj6
        rw [hu2m] at hB6m
        cases Option.some.inj hB6m
        exact ⟨0, by rw [show u2.adj 0 = u2.a0 from rfl, hu2b0]⟩
      · rw [show u0.adj 2 = u0.a2 from rfl, hu0a2] at hadj6
        obtain ⟨qt, s, hqB, hs3, hback, hq6⟩ := hWQ 2 ib (by omega) hadj6
        have hq6b : m6.tri ib = some (qt.setAdj s (some m.nextId)) := hq6
        rw [hq6b] at hB6m
        cases Option.some.inj hB6m
        exact ⟨s, adj_setAdj_self _ _ _ hs3⟩
    · by_cases hia1 : ia = m.nextId + 1
      · -- source is split child 1
        subst hia1
        rw [hu1m] at hA6m
        cases Option.some.inj hA6m
        rcases adj_cases u1 i with hc | hc | hc
        all_goals rw [hc] at hadj6
        · rw [show u1.adj 0 = u1.a0 from rfl, hu1b0] at hadj6
          cases Option.some.inj hadj6
          rw [hu2m] at hB6m
          cases Option.some.inj hB6m
          exact ⟨1, by rw [show u2.adj 1 = u2.a1 from rfl, hu2b1]⟩
        · rw [show u1.adj 1 = u1.a1 from rfl, hu1b1] at hadj6
          cases Option.some.inj hadj6
          rw [hu0m] at hB6m
          cases Option.some.inj hB6m
          exact ⟨0, by rw [show u0.adj 0 = u0.a0 from rfl, hu0b0]⟩
        · rw [show u1.adj 2 = u1.a2 from rfl, hu1a2] at hadj6
          obtain ⟨qt, s, hqB, hs3, hback, hq6⟩ := hWQ 0 ib (by omega) hadj6
          have hq6b : m6.tri ib = some (qt.setAdj s (some (m.nextId + 1))) := hq6
          rw [hq6b] at hB6m
          cases Option.some.inj hB6m
          exact ⟨s, adj_setAdj_self _ _ _ hs3⟩
      · by_cases hia2 : ia = m.nextId + 2
        · -- source is split child 2
          subst hia2
          rw [hu2m] at hA6m
          cases Option.some.inj hA6m
          rcases adj_cases u2 i with hc | hc | hc
          all_goals rw [hc] at hadj6
          · rw [show u2.adj 0 = u2.a0 from rfl, hu2b0] at hadj6
            cases Option.some.inj hadj6
            rw [hu0m] at hB6m
            cases Option.some.inj hB6m
            exact ⟨1, by rw [show u0.adj 1 = u0.a1 from rfl, hu0b1]⟩
          · rw [show u2.adj 1 = u2.a1 from rfl, hu2b1] at hadj6
            cases Option.some.inj hadj6
            rw [hu1m] at hB6m
            cases Option.some.inj hB6m
            exact ⟨0, by rw [show u1.adj 0 = u1.a0 from rfl, hu1b0]⟩
          · rw [show u2.adj 2 = u2.a2 from rfl, hu2a2] at hadj6
            obtain ⟨qt, s, hqB, hs3, hback, hq6⟩ := hWQ 1 ib (by omega) hadj6
            have hq6b : m6.tri ib = some (qt.setAdj s (some (m.nextId + 2))) := hq6
            rw [hq6b] at hB6m
            cases Option.some.inj hB6m
            exact ⟨s, adj_setAdj_self _ _ _ hs3⟩
        · by_cases hiaq : ∃ j, j < 3 ∧ oldT.adj j = some ia
          · -- source is a rewired neighbor of the old triangle
            obtain ⟨j0, hj03, hj0⟩ := hiaq
            obtain ⟨qt, s, hqB, hs3, hback, hq6⟩ := hWQ j0 ia hj03 hj0
            have hialt : ia < m.nextId :=
              hlt vertex.surrounding oldT j0 ia hold hj0
            have hqm : m.tri ia = some qt := by
              rw [← hqB, hBT, if_neg (by omega), if_neg (by omega),
                if_neg (by omega)]
            rw [hq6] at hA6m
            have hA6e := (Option.some.inj hA6m).symm
            have hqtf : qt.flagged = false := by
              have h2 := hA6e ▸ hA6f
              rw [flagged_setAdj] at h2
              exact h2
            rcases adj_setAdj_or qt s i _ hs3 with hc | hc
            · -- the redirected slot: it points at a split child
              rw [hA6e, hc] at hadj6
              have hj3 : j0 = 0 ∨ j0 = 1 ∨ j0 = 2 := by omega
              rcases hj3 with rfl | rfl | rfl
              · have hadj6b : some (m.nextId + 1) = some ib := hadj6
                cases Option.some.inj hadj6b
                rw [hu1m] at hB6m
                cases Option.some.inj hB6m
                refine ⟨2, ?_⟩
                rw [show u1.adj 2 = u1.a2 from rfl, hu1a2, hj0]
              · have hadj6b : some (m.nextId + 2) = some ib := hadj6
                cases Option.some.inj hadj6b
                rw [hu2m] at hB6m
                cases Option.some.inj hB6m
                refine ⟨2, ?_⟩
                rw [show u2.adj 2 = u2.a2 from rfl, hu2a2, hj0]
              · have hadj6b : some m.nextId = some ib := hadj6
                cases Option.some.inj hadj6b
                rw [hu0m] at hB6m
                cases Option.some.inj hB6m
                refine ⟨2, ?_⟩
                rw [show u0.adj 2 = u0.a2 from rfl, hu0a2, hj0]
            · -- an untouched slot of the neighbor
              rw [hA6e, hc] at hadj6
              exact hTGT ia ib B6 hiao hibo ⟨qt, i, hqm, hqtf, hadj6⟩ hB6m hB6f
          · -- source untouched by the whole operation
            have hiaq2 : ∀ j, j < 3 → oldT.adj j ≠ some ia := by
              intro j hj hc
              exact hiaq ⟨j, hj, hc⟩
            have hia6 : m6.tri ia = m.tri ia := hWo2 ia hia0 hia1 hia2 hiaq2
            rw [hia6] at hA6m
            exact hTGT ia ib B6 hiao hibo ⟨A6, i, hA6m, hA6f, hadj6⟩ hB6m hB6f
  case _ hvnm =>
    cases hrun

theorem uar_spec {m : Mesh} {old oi nw ni : ℕ} {mr : Mesh}
    (h : updateAdjacentRelation m old oi nw ni = some mr) :
    ∃ ot, m.tri old = some ot ∧
      ((ot.adj oi = none ∧ mr = m.updTri nw (fun t => t.setAdj ni none)) ∨
       (∃ q qt s, ot.adj oi = some q ∧
         (m.updTri nw (fun t => t.setAdj ni (some q))).tri q = some qt ∧ s < 3 ∧
         qt.adj s = some old ∧
         mr = (m.updTri nw (fun t => t.setAdj ni (some q))).updTri q
           (fun t => t.setAdj s (some nw)))) := by
  unfold updateAdjacentRelation at h
  split at h
  · cases h
  rename_i ot hot
  simp only [] at h
  rcases uabr_spec h with ⟨hO, hm⟩ | ⟨q, qt, s, hO, hq, hs, hback, hm⟩
  · refine ⟨ot, hot, Or.inl ⟨hO, ?_⟩⟩
    rw [hO] at hm
    exact hm
  · refine ⟨ot, hot, Or.inr ⟨q, qt, s, hO, ?_, hs, hback, ?_⟩⟩
    · rw [hO] at hq
      exact hq
    · rw [hO] at hm
      exact hm

theorem adjSym_flipEdges (m : Mesh) (f s : ℕ) (t1 t2 : Tri)
    (sc1 sc2 dc : ℕ × ℕ) (mf : Mesh) (nf ns : ℕ)
    (hAS : AdjSym m)
    (hwf : ∀ k ∈ m.keys, k < m.nextId)
    (hlt : ∀ a A i b, m.tri a = some A → A.adj i = some b → b < m.nextId)
    (ht1 : m.tri f = some t1) (ht2 : m.tri s = some t2) (hfs : f ≠ s)
    (hano : ∀ q, t1.adj sc1.1 = some q → q ≠ f ∧ q ≠ s)
    (hbno : ∀ q, t1.adj sc2.1 = some q → q ≠ f ∧ q ≠ s)
    (hcno : ∀ q, t2.adj sc1.2 = some q → q ≠ f ∧ q ≠ s)
    (hdno : ∀ q, t2.adj sc2.2 = some q → q ≠ f ∧ q ≠ s)
    (hab : ∀ q, t1.adj sc1.1 = some q → t1.adj sc2.1 ≠ some q)
    (hac : ∀ q, t1.adj sc1.1 = some q → t2.adj sc1.2 ≠ some q)
    (had : ∀ q, t1.adj sc1.1 = some q → t2.adj sc2.2 ≠ some q)
    (hbc : ∀ q, t1.adj sc2.1 = some q → t2.adj sc1.2 ≠ some q)
    (hbd : ∀ q, t1.adj sc2.1 = some q → t2.adj sc2.2 ≠ some q)
    (hcd : ∀ q, t2.adj sc1.2 = some q → t2.adj sc2.2 ≠ some q)
    (hrun : flipEdges m f s sc1 sc2 dc = some (mf, nf, ns)) :
    AdjSym mf := by
  unfold flipEdges at hrun
  split at hrun
  case h_2 => cases hrun
  rename_i t1b t2b h1b h2b
  rw [ht1] at h1b
  rw [ht2] at h2b
  cases Option.some.inj h1b
  cases Option.some.inj h2b
  simp only [] at hrun
  split at hrun
  · cases hrun
  rename_i m3 htv
  split at hrun
  · cases hrun
  rename_i m4 hc1
  split at hrun
  · cases hrun
  rename_i m5 hc2
  split at hrun
  · cases hrun
  rename_i m6 hc3
  split at hrun
  · cases hrun
  rename_i m7 hc4
  have hinj := Option.some.inj hrun
  rw [Prod.mk.injEq] at hinj
  obtain ⟨hmf, _⟩ := hinj
  rw [← hmf]
  clear hrun
  have hc1n : updateAdjacentRelation m3 f sc1.1 (m.nextId + 1) 2 = some m4 := hc1
  have hc2n : updateAdjacentRelation m4 f sc2.1 m.nextId 1 = some m5 := hc2
  have hc3n : updateAdjacentRelation m5 s sc1.2 (m.nextId + 1) 1 = some m6 := hc3
  have hc4n : updateAdjacentRelation m6 s sc2.2 m.nextId 2 = some m7 := hc4
  clear hc1 hc2 hc3 hc4
  -- handles and bookkeeping
  have hflt : f < m.nextId := by
    apply hwf
    exact List.mem_map_of_mem Prod.fst (mem_of_lookup_some ht1)
  have hslt : s < m.nextId := by
    apply hwf
    exact List.mem_map_of_mem Prod.fst (mem_of_lookup_some ht2)
  have hwf1 := wf_insertTriangle m (t1.corner sc1.1) (t2.corner dc.2)
    (t1.corner dc.1) hwf
  have hn1 : (m.insertTriangle (t1.corner sc1.1) (t2.corner dc.2)
      (t1.corner dc.1)).1.nextId = m.nextId + 1 := rfl
  have hB2T : ∀ k, ((m.insertTriangle (t1.corner sc1.1) (t2.corner dc.2)
      (t1.corner dc.1)).1.insertTriangle (t2.corner sc2.2) (t1.corner dc.1)
      (t2.corner dc.2)).1.tri k
      = if k = m.nextId + 1 then
          some ⟨t2.corner sc2.2, t1.corner dc.1, t2.corner dc.2,
            [], none, none, none, false⟩
        else if k = m.nextId then
          some ⟨t1.corner sc1.1, t2.corner dc.2, t1.corner dc.1,
            [], none, none, none, false⟩
        else m.tri k := by
    intro k
    rw [tri_insertTriangle _ _ _ _ hwf1 k, tri_insertTriangle _ _ _ _ hwf k, hn1]
  have hv3 : ∀ k, (m3.tri k).map adjOf
      = (((m.insertTriangle (t1.corner sc1.1) (t2.corner dc.2)
        (t1.corner dc.1)).1.insertTriangle (t2.corner sc2.2) (t1.corner dc.1)
        (t2.corner dc.2)).1.tri k).map adjOf :=
    adjView_transferVertices2 _ _ _ _ _ _ _ htv
  have hEXT3 : ∀ x X, ((m.insertTriangle (t1.corner sc1.1) (t2.corner dc.2)
      (t1.corner dc.1)).1.insertTriangle (t2.corner sc2.2) (t1.corner dc.1)
      (t2.corner dc.2)).1.tri x = some X →
      ∃ X3, m3.tri x = some X3 ∧ (∀ i, X3.adj i = X.adj i) ∧
        X3.flagged = X.flagged := by
    intro x X hx
    have hv := hv3 x
    cases h3x : m3.tri x with
    | none =>
      rw [h3x, hx] at hv
      simp at hv
    | some X3 =>
      rw [h3x, hx] at hv
      simp at hv
      exact ⟨X3, rfl, (adj_eq_of_adjOf_eq hv).1, (adj_eq_of_adjOf_eq hv).2⟩
  obtain ⟨tf3, htf3, htf3a, htf3f⟩ := hEXT3 m.nextId _
    (by rw [hB2T, if_neg (by omega), if_pos rfl])
  obtain ⟨ts3, hts3, hts3a, hts3f⟩ := hEXT3 (m.nextId + 1) _
    (by rw [hB2T, if_pos rfl])
  obtain ⟨t1x, ht1x, ht1xa, ht1xf⟩ := hEXT3 f _
    (by rw [hB2T, if_neg (by omega), if_neg (by omega)]; exact ht1)
  obtain ⟨t2x, ht2x, ht2xa, ht2xf⟩ := hEXT3 s _
    (by rw [hB2T, if_neg (by omega), if_neg (by omega)]; exact ht2)
  -- call 1 : neighbor across t1's corner sc1.1 is rewired to the new second
  obtain ⟨ot1, hot1, hcs1⟩ := uar_spec hc1n
  rw [ht1x] at hot1
  cases Option.some.inj hot1
  have key1 :
      (m4.tri (m.nextId + 1) = some (ts3.setAdj 2 (t1.adj sc1.1))) ∧
      (∀ q, t1.adj sc1.1 = some q → ∃ qt sa, m3.tri q = some qt ∧ sa < 3 ∧
        qt.adj sa = some f ∧ m4.tri q = some (qt.setAdj sa (some (m.nextId + 1)))) ∧
      (∀ x, x ≠ m.nextId + 1 → t1.adj sc1.1 ≠ some x → m4.tri x = m3.tri x) := by
    rcases hcs1 with ⟨hO, hm4⟩ | ⟨q, qt, sa, hO, hq, hsa, hback, hm4⟩
    · rw [ht1xa] at hO
      subst hm4
      refine ⟨?_, ?_, ?_⟩
      · rw [tri_updTri, if_pos rfl, hts3, hO]
        rfl
      · intro q hq
        rw [hO] at hq
        cases hq
      · intro x hx0 hxq
        rw [tri_updTri, if_neg hx0]
    · rw [ht1xa] at hO
      have hqno := hano q hO
      have hqlt : q < m.nextId := hlt f t1 sc1.1 q ht1 hO
      have hqns : q ≠ m.nextId + 1 := by omega
      have hq3 : m3.tri q = some qt := by
        rw [tri_updTri, if_neg hqns] at hq
        exact hq
      subst hm4
      refine ⟨?_, ?_, ?_⟩
      · rw [tri_updTri, if_neg (Ne.symm hqns), tri_updTri, if_pos rfl, hts3, hO]
        rfl
      · intro q2 hq2
        rw [hO] at hq2
        cases Option.some.inj hq2
        refine ⟨qt, sa, hq3, hsa, hback, ?_⟩
        rw [tri_updTri, if_pos rfl, tri_updTri, if_neg hqns, hq3]
        rfl
      · intro x hx0 hxq
        have hxq2 : x ≠ q := fun hxx => hxq (hxx ▸ hO)
        rw [tri_updTri, if_neg hxq2, tri_updTri, if_neg hx0]
  obtain ⟨k1n, k1q, k1o⟩ := key1
  have h4f : m4.tri f = some t1x := by
    rw [k1o f (by omega) (fun hc => (hano f hc).1 rfl)]
    exact ht1x
  have h4s : m4.tri s = some t2x := by
    rw [k1o s (by omega) (fun hc => (hano s hc).2 rfl)]
    exact ht2x
  have h4tf : m4.tri m.nextId = some tf3 := by
    rw [k1o m.nextId (by omega) ?_]
    · exact htf3
    intro hc
    have := hlt f t1 sc1.1 m.nextId ht1 hc
    omega
  -- call 2 : neighbor across t1's corner sc2.1 is rewired to the new first
  obtain ⟨ot2, hot2, hcs2⟩ := uar_spec hc2n
  rw [h4f] at hot2
  cases Option.some.inj hot2
  have key2 :
      (m5.tri m.nextId = some (tf3.setAdj 1 (t1.adj sc2.1))) ∧
      (∀ q, t1.adj sc2.1 = some q → ∃ qt sa, m3.tri q = some qt ∧ sa < 3 ∧
        qt.adj sa = some f ∧ m5.tri q = some (qt.setAdj sa (some m.nextId))) ∧
      (∀ x, x ≠ m.nextId → t1.adj sc2.1 ≠ some x → m5.tri x = m4.tri x) := by
    rcases hcs2 with ⟨hO, hm5⟩ | ⟨q, qt, sa, hO, hq, hsa, hback, hm5⟩
    · rw [ht1xa] at hO
      subst hm5
      refine ⟨?_, ?_, ?_⟩
      · rw [tri_updTri, if_pos rfl, h4tf, hO]
        rfl
      · intro q hq
        rw [hO] at hq
        cases hq
      · intro x hx0 hxq
        rw [tri_updTri, if_neg hx0]
    · rw [ht1xa] at hO
      have hqno := hbno q hO
      have hqlt : q < m.nextId := hlt f t1 sc2.1 q ht1 hO
      have hqnf : q ≠ m.nextId := by omega
      have hq4 : m4.tri q = some qt := by
        rw [tri_updTri, if_neg hqnf] at hq
        exact hq
      have hq3 : m3.tri q = some qt := by
        rw [← k1o q (by omega) (fun hc => hab q hc hO)]
        exact hq4
      subst hm5
      refine ⟨?_, ?_, ?_⟩
      · rw [tri_updTri, if_neg (Ne.symm hqnf), tri_updTri, if_pos rfl, h4tf, hO]
        rfl
      · intro q2 hq2
        rw [hO] at hq2
        cases Option.some.inj hq2
        refine ⟨qt, sa, hq3, hsa, hback, ?_⟩
        rw [tri_updTri, if_pos rfl, tri_updTri, if_neg hqnf, hq4]
        rfl
      · intro x hx0 hxq
        have hxq2 : x ≠ q := fun hxx => hxq (hxx ▸ hO)
        rw [tri_updTri, if_neg hxq2, tri_updTri, if_neg hx0]
  obtain ⟨k2n, k2q, k2o⟩ := key2
  have h5s : m5.tri s = some t2x := by
    rw [k2o s (by omega) (fun hc => (hbno s hc).2 rfl)]
    exact h4s
  have h5ts : m5.tri (m.nextId + 1) = some (ts3.setAdj 2 (t1.adj sc1.1)) := by
    rw [k2o (m.nextId + 1) (by omega) ?_]
    · exact k1n
    intro hc
    have := hlt f t1 sc2.1 (m.nextId + 1) ht1 hc
    omega
  -- call 3 : neighbor across t2's corner sc1.2 is rewired to the new second
  obtain ⟨ot3, hot3, hcs3⟩ := uar_spec hc3n
  rw [h5s] at hot3
  cases Option.some.inj hot3
  have key3 :
      (m6.tri (m.nextId + 1)
        = some ((ts3.setAdj 2 (t1.adj sc1.1)).setAdj 1 (t2.adj sc1.2))) ∧
      (∀ q, t2.adj sc1.2 = some q → ∃ qt sa, m3.tri q = some qt ∧ sa < 3 ∧
        qt.adj sa = some s ∧ m6.tri q = some (qt.setAdj sa (some (m.nextId + 1)))) ∧
      (∀ x, x ≠ m.nextId + 1 → t2.adj sc1.2 ≠ some x → m6.tri x = m5.tri x) := by
    rcases hcs3 with ⟨hO, hm6⟩ | ⟨q, qt, sa, hO, hq, hsa, hback, hm6⟩
    · rw [ht2xa] at hO
      subst hm6
      refine ⟨?_, ?_, ?_⟩
      · rw [tri_updTri, if_pos rfl, h5ts, hO]
        rfl
      · intro q hq
        rw [hO] at hq
        cases hq
      · intro x hx0 hxq
        rw [tri_updTri, if_neg hx0]
    · rw [ht2xa] at hO
      have hqno := hcno q hO
      have hqlt : q < m.nextId := hlt s t2 sc1.2 q ht2 hO
      have hqns : q ≠ m.nextId + 1 := by omega
      have hq5 : m5.tri q = some qt := by
        rw [tri_updTri, if_neg hqns] at hq
        exact hq
      have hq3 : m3.tri q = some qt := by
        rw [← k1o q (by omega) (fun hc => hac q hc hO),
          ← k2o q (by omega) (fun hc => hbc q hc hO)]
        exact hq5
      subst hm6
      refine ⟨?_, ?_, ?_⟩
      · rw [tri_updTri, if_neg (Ne.symm hqns), tri_updTri, if_pos rfl, h5ts, hO]
        rfl
      · intro q2 hq2
        rw [hO] at hq2
        cases Option.some.inj hq2
        refine ⟨qt, sa, hq3, hsa, hback, ?_⟩
        rw [tri_updTri, if_pos rfl, tri_updTri, if_neg hqns, hq5]
        rfl
      · intro x hx0 hxq
        have hxq2 : x ≠ q := fun hxx => hxq (hxx ▸ hO)
        rw [tri_updTri, if_neg hxq2, tri_updTri, if_neg hx0]
  obtain ⟨k3n, k3q, k3o⟩ := key3
  have h6s : m6.tri s = some t2x := by
    rw [k3o s (by omega) (fun hc => (hcno s hc).2 rfl)]
    exact h5s
  have h6tf : m6.tri m.nextId = some (tf3.setAdj 1 (t1.adj sc2.1)) := by
    rw [k3o m.nextId (by omega) ?_]
    · exact k2n
    intro hc
    have := hlt s t2 sc1.2 m.nextId ht2 hc
    omega
  -- call 4 : neighbor across t2's corner sc2.2 is rewired to the new first
  obtain ⟨ot4, hot4, hcs4⟩ := uar_spec hc4n
  rw [h6s] at hot4
  cases Option.some.inj hot4
  have key4 :
      (m7.tri m.nextId
        = some ((tf3.setAdj 1 (t1.adj sc2.1)).setAdj 2 (t2.adj sc2.2))) ∧
      (∀ q, t2.adj sc2.2 = some q → ∃ qt sa, m3.tri q = some qt ∧ sa < 3 ∧
        qt.adj sa = some s ∧ m7.tri q = some (qt.setAdj sa (some m.nextId))) ∧
      (∀ x, x ≠ m.nextId → t2.adj sc2.2 ≠ some x → m7.tri x = m6.tri x) := by
    rcases hcs4 with ⟨hO, hm7⟩ | ⟨q, qt, sa, hO, hq, hsa, hback, hm7⟩
    · rw [ht2xa] at hO
      subst hm7
      refine ⟨?_, ?_, ?_⟩
      · rw [tri_updTri, if_pos rfl, h6tf, hO]
        rfl
      · intro q hq
        rw [hO] at hq
        cases hq
      · intro x hx0 hxq
        rw [tri_updTri, if_neg hx0]
    · rw [ht2xa] at hO
      have hqno := hdno q hO
      have hqlt : q < m.nextId := hlt s t2 sc2.2 q ht2 hO
      have hqnf : q ≠ m.nextId := by omega
      have hq6 : m6.tri q = some qt := by
        rw [tri_updTri, if_neg hqnf] at hq
        exact hq
      have hq3 : m3.tri q = some qt := by
        rw [← k1o q (by omega) (fun hc => had q hc hO),
          ← k2o q (by omega) (fun hc => hbd q hc hO),
          ← k3o q (by omega) (fun hc => hcd q hc hO)]
        exact hq6
      subst hm7
      refine ⟨?_, ?_, ?_⟩
      · rw [tri_updTri, if_neg (Ne.symm hqnf), tri_updTri, if_pos rfl, h6tf, hO]
        rfl
      · intro q2 hq2
        rw [hO] at hq2
        cases Option.some.inj hq2
        refine ⟨qt, sa, hq3, hsa, hback, ?_⟩
        rw [tri_updTri, if_pos rfl, tri_updTri, if_neg hqnf, hq6]
        rfl
      · intro x hx0 hxq
        have hxq2 : x ≠ q := fun hxx => hxq (hxx ▸ hO)
        rw [tri_updTri, if_neg hxq2, tri_updTri, if_neg hx0]
  obtain ⟨k4n, k4q, k4o⟩ := key4
  have h7ts : m7.tri (m.nextId + 1)
      = some ((ts3.setAdj 2 (t1.adj sc1.1)).setAdj 1 (t2.adj sc1.2)) := by
    rw [k4o (m.nextId + 1) (by omega) ?_]
    · exact k3n
    intro hc
    have := hlt s t2 sc2.2 (m.nextId + 1) ht2 hc
    omega
  have h7f : m7.tri f = some t1x := by
    rw [k4o f (by omega) (fun hc => (hdno f hc).1 rfl),
      k3o f (by omega) (fun hc => (hcno f hc).1 rfl),
      k2o f (by omega) (fun hc => (hbno f hc).1 rfl)]
    exact h4f
  have h7s : m7.tri s = some t2x := by
    rw [k4o s (by omega) (fun hc => (hdno s hc).2 rfl)]
    exact h6s
  have h7tf : m7.tri m.nextId
      = some ((tf3.setAdj 1 (t1.adj sc2.1)).setAdj 2 (t2.adj sc2.2)) := k4n
  -- the final mesh, pointwise
  show AdjSym ((((m7.updTri m.nextId (fun t => t.setAdj 0 (some (m.nextId + 1)))).updTri (m.nextId + 1) (fun t => t.setAdj 0 (some m.nextId))).updTri f (fun t => { t with flagged := true })).updTri s (fun t => { t with flagged := true }))
  have hM9F : ((((m7.updTri m.nextId (fun t => t.setAdj 0 (some (m.nextId + 1)))).updTri (m.nextId + 1) (fun t => t.setAdj 0 (some m.nextId))).updTri f (fun t => { t with flagged := true })).updTri s (fun t => { t with flagged := true })).tri m.nextId
      = some (((tf3.setAdj 1 (t1.adj sc2.1)).setAdj 2 (t2.adj sc2.2)).setAdj 0
        (some (m.nextId + 1))) := by
    rw [tri_updTri, if_neg (by omega), tri_updTri, if_neg (by omega),
      tri_updTri, if_neg (by omega), tri_updTri, if_pos rfl, h7tf]
    rfl
  have hM9S : ((((m7.updTri m.nextId (fun t => t.setAdj 0 (some (m.nextId + 1)))).updTri (m.nextId + 1) (fun t => t.setAdj 0 (some m.nextId))).updTri f (fun t => { t with flagged := true })).updTri s (fun t => { t with flagged := true })).tri (m.nextId + 1)
      = some (((ts3.setAdj 2 (t1.adj sc1.1)).setAdj 1 (t2.adj sc1.2)).setAdj 0
        (some m.nextId)) := by
    rw [tri_updTri, if_neg (by omega), tri_updTri, if_neg (by omega),
      tri_updTri, if_pos rfl, tri_updTri, if_neg (by omega), h7ts]
    rfl
  have hM9f : ∀ ft, ((((m7.updTri m.nextId (fun t => t.setAdj 0 (some (m.nextId + 1)))).updTri (m.nextId + 1) (fun t => t.setAdj 0 (some m.nextId))).updTri f (fun t => { t with flagged := true })).updTri s (fun t => { t with flagged := true })).tri f = some ft → ft.flagged = true := by
    intro ft hft
    rw [tri_updTri, if_neg hfs, tri_updTri, if_pos rfl, tri_updTri,
      if_neg (by omega), tri_updTri, if_neg (by omega), h7f] at hft
    cases Option.some.inj hft
    rfl
  have hM9s : ∀ st, ((((m7.updTri m.nextId (fun t => t.setAdj 0 (some (m.nextId + 1)))).updTri (m.nextId + 1) (fun t => t.setAdj 0 (some m.nextId))).updTri f (fun t => { t with flagged := true })).updTri s (fun t => { t with flagged := true })).tri s = some st → st.flagged = true := by
    intro st hst
    rw [tri_updTri, if_pos rfl, tri_updTri, if_neg (Ne.symm hfs), tri_updTri,
      if_neg (by omega), tri_updTri, if_neg (by omega), h7s] at hst
    cases Option.some.inj hst
    rfl
  have hM9o : ∀ x, x ≠ m.nextId → x ≠ m.nextId + 1 → x ≠ f → x ≠ s →
      ((((m7.updTri m.nextId (fun t => t.setAdj 0 (some (m.nextId + 1)))).updTri (m.nextId + 1) (fun t => t.setAdj 0 (some m.nextId))).updTri f (fun t => { t with flagged := true })).updTri s (fun t => { t with flagged := true })).tri x = m7.tri x := by
    intro x h0 h1 h2 h3
    rw [tri_updTri, if_neg h3, tri_updTri, if_neg h2, tri_updTri, if_neg h1,
      tri_updTri, if_neg h0]
  -- the four rewired neighbors, in the final mesh
  have hQa : ∀ q, t1.adj sc1.1 = some q → ∃ qt sa, m3.tri q = some qt ∧
      sa < 3 ∧ qt.adj sa = some f ∧
      ((((m7.updTri m.nextId (fun t => t.setAdj 0 (some (m.nextId + 1)))).updTri (m.nextId + 1) (fun t => t.setAdj 0 (some m.nextId))).updTri f (fun t => { t with flagged := true })).updTri s (fun t => { t with flagged := true })).tri q = some (qt.setAdj sa (some (m.nextId + 1))) := by
    intro q hq
    obtain ⟨qt, sa, hq3, hsa3, hback, hq4⟩ := k1q q hq
    have hqlt : q < m.nextId := hlt f t1 sc1.1 q ht1 hq
    have hqno := hano q hq
    refine ⟨qt, sa, hq3, hsa3, hback, ?_⟩
    rw [hM9o q (by omega) (by omega) hqno.1 hqno.2,
      k4o q (by omega) (fun hc => had q hq hc),
      k3o q (by omega) (fun hc => hac q hq hc),
      k2o q (by omega) (fun hc => hab q hq hc)]
    exact hq4
  have hQb : ∀ q, t1.adj sc2.1 = some q → ∃ qt sa, m3.tri q = some qt ∧
      sa < 3 ∧ qt.adj sa = some f ∧
      ((((m7.updTri m.nextId (fun t => t.setAdj 0 (some (m.nextId + 1)))).updTri (m.nextId + 1) (fun t => t.setAdj 0 (some m.nextId))).updTri f (fun t => { t with flagged := true })).updTri s (fun t => { t with flagged := true })).tri q = some (qt.setAdj sa (some m.nextId)) := by
    intro q hq
    obtain ⟨qt, sa, hq3, hsa3, hback, hq5⟩ := k2q q hq
    have hqlt : q < m.nextId := hlt f t1 sc2.1 q ht1 hq
    have hqno := hbno q hq
    refine ⟨qt, sa, hq3, hsa3, hback, ?_⟩
    rw [hM9o q (by omega) (by omega) hqno.1 hqno.2,
      k4o q (by omega) (fun hc => hbd q hq hc),
      k3o q (by omega) (fun hc => hbc q hq hc)]
    exact hq5
  have hQc : ∀ q, t2.adj sc1.2 = some q → ∃ qt sa, m3.tri q = some qt ∧
      sa < 3 ∧ qt.adj sa = some s ∧
      ((((m7.updTri m.nextId (fun t => t.setAdj 0 (some (m.nextId + 1)))).updTri (m.nextId + 1) (fun t => t.setAdj 0 (some m.nextId))).updTri f (fun t => { t with flagged := true })).updTri s (fun t => { t with flagged := true })).tri q = some (qt.setAdj sa (some (m.nextId + 1))) := by
    intro q hq
    obtain ⟨qt, sa, hq3, hsa3, hback, hq6⟩ := k3q q hq
    have hqlt : q < m.nextId := hlt s t2 sc1.2 q ht2 hq
    have hqno := hcno q hq
    refine ⟨qt, sa, hq3, hsa3, hback, ?_⟩
    rw [hM9o q (by omega) (by omega) hqno.1 hqno.2,
      k4o q (by omega) (fun hc => hcd q hq hc)]
    exact hq6
  have hQd : ∀ q, t2.adj sc2.2 = some q → ∃ qt sa, m3.tri q = some qt ∧
      sa < 3 ∧ qt.adj sa = some s ∧
      ((((m7.updTri m.nextId (fun t => t.setAdj 0 (some (m.nextId + 1)))).updTri (m.nextId + 1) (fun t => t.setAdj 0 (some m.nextId))).updTri f (fun t => { t with flagged := true })).updTri s (fun t => { t with flagged := true })).tri q = some (qt.setAdj sa (some m.nextId)) := by
    intro q hq
    obtain ⟨qt, sa, hq3, hsa3, hback, hq7⟩ := k4q q hq
    have hqlt : q < m.nextId := hlt s t2 sc2.2 q ht2 hq
    have hqno := hdno q hq
    refine ⟨qt, sa, hq3, hsa3, hback, ?_⟩
    rw [hM9o q (by omega) (by omega) hqno.1 hqno.2]
    exact hq7
  have hUo : ∀ x, x ≠ m.nextId → x ≠ m.nextId + 1 → x ≠ f → x ≠ s →
      t1.adj sc1.1 ≠ some x → t1.adj sc2.1 ≠ some x →
      t2.adj sc1.2 ≠ some x → t2.adj sc2.2 ≠ some x →
      ((((m7.updTri m.nextId (fun t => t.setAdj 0 (some (m.nextId + 1)))).updTri (m.nextId + 1) (fun t => t.setAdj 0 (some m.nextId))).updTri f (fun t => { t with flagged := true })).updTri s (fun t => { t with flagged := true })).tri x = m3.tri x := by
    intro x h0 h1 h2 h3 ha hb hc hd
    rw [hM9o x h0 h1 h2 h3, k4o x h0 hd, k3o x h1 hc, k2o x h0 hb, k1o x h1 ha]
  have hv3m : ∀ x, x ≠ m.nextId → x ≠ m.nextId + 1 →
      (m3.tri x).map adjOf = (m.tri x).map adjOf := by
    intro x h0 h1
    rw [hv3 x, hB2T x, if_neg h1, if_neg h0]
  have hEXTm : ∀ x X3, x ≠ m.nextId → x ≠ m.nextId + 1 → m3.tri x = some X3 →
      ∃ Xm, m.tri x = some Xm ∧ (∀ i, X3.adj i = Xm.adj i) ∧
        X3.flagged = Xm.flagged := by
    intro x X3 h0 h1 hx
    have hv := hv3m x h0 h1
    cases hmx : m.tri x with
    | none =>
      rw [hx, hmx] at hv
      simp at hv
    | some Xm =>
      rw [hx, hmx] at hv
      simp at hv
      exact ⟨Xm, rfl, (adj_eq_of_adjOf_eq hv).1, (adj_eq_of_adjOf_eq hv).2⟩
  -- generic back-reference argument for ordinary targets
  have hTGT : ∀ x y Y9, x ≠ f → x ≠ s →
      (∃ xm i2, m.tri x = some xm ∧ xm.flagged = false ∧ xm.adj i2 = some y) →
      y ≠ f → y ≠ s → ((((m7.updTri m.nextId (fun t => t.setAdj 0 (some (m.nextId + 1)))).updTri (m.nextId + 1) (fun t => t.setAdj 0 (some m.nextId))).updTri f (fun t => { t with flagged := true })).updTri s (fun t => { t with flagged := true })).tri y = some Y9 → Y9.flagged = false →
      ∃ j, Y9.adj j = some x := by
    intro x y Y9 hxf hxs hxm hyf hys hY9 hY9f
    obtain ⟨xm, i2, hxm, hxmf, hx2⟩ := hxm
    have hylt : y < m.nextId := hlt x xm i2 y hxm hx2
    by_cases hqa : t1.adj sc1.1 = some y
    · obtain ⟨qt, sa, hq3, hsa3, hback, hqC⟩ := hQa y hqa
      rw [hqC] at hY9
      have hY9e := (Option.some.inj hY9).symm
      obtain ⟨qm, hqm, hqme, hqmf⟩ := hEXTm y qt (by omega) (by omega) hq3
      have hqmf0 : qm.flagged = false := by
        rw [← hqmf]
        have h2 := hY9e ▸ hY9f
        rw [flagged_setAdj] at h2
        exact h2
      obtain ⟨j, hj⟩ := hAS x xm i2 y qm hxm hxmf hx2 hqm hqmf0
      obtain ⟨j2, hj23, hj2e⟩ := adj_canon qm j
      have hj2x : qt.adj j2 = some x := by rw [hqme j2, hj2e, hj]
      have hj2s : j2 ≠ sa := by
        intro hceq
        rw [hceq, hback] at hj2x
        exact hxf (Option.some.inj hj2x).symm
      exact ⟨j2, by rw [hY9e, adj_setAdj_other _ _ _ _ hsa3 hj23 hj2s, hj2x]⟩
    · by_cases hqb : t1.adj sc2.1 = some y
      · obtain ⟨qt, sa, hq3, hsa3, hback, hqC⟩ := hQb y hqb
        rw [hqC] at hY9
        have hY9e := (Option.some.inj hY9).symm
        obtain ⟨qm, hqm, hqme, hqmf⟩ := hEXTm y qt (by omega) (by omega) hq3
        have hqmf0 : qm.flagged = false := by
          rw [← hqmf]
          have h2 := hY9e ▸ hY9f
          rw [flagged_setAdj] at h2
          exact h2
        obtain ⟨j, hj⟩ := hAS x xm i2 y qm hxm hxmf hx2 hqm hqmf0
        obtain ⟨j2, hj23, hj2e⟩ := adj_canon qm j
        have hj2x : qt.adj j2 = some x := by rw [hqme j2, hj2e, hj]
        have hj2s : j2 ≠ sa := by
          intro hceq
          rw [hceq, hback] at hj2x
          exact hxf (Option.some.inj hj2x).symm
        exact ⟨j2, by rw [hY9e, adj_setAdj_other _ _ _ _ hsa3 hj23 hj2s, hj2x]⟩
      · by_cases hqc : t2.adj sc1.2 = some y
        · obtain ⟨qt, sa, hq3, hsa3, hback, hqC⟩ := hQc y hqc
          rw [hqC] at hY9
          have hY9e := (Option.some.inj hY9).symm
          obtain ⟨qm, hqm, hqme, hqmf⟩ := hEXTm y qt (by omega) (by omega) hq3
          have hqmf0 : qm.flagged = false := by
            rw [← hqmf]
            have h2 := hY9e ▸ hY9f
            rw [flagged_setAdj] at h2
            exact h2
          obtain ⟨j, hj⟩ := hAS x xm i2 y qm hxm hxmf hx2 hqm hqmf0
          obtain ⟨j2, hj23, hj2e⟩ := adj_canon qm j
          have hj2x : qt.adj j2 = some x := by rw [hqme j2, hj2e, hj]
          have hj2s : j2 ≠ sa := by
            intro hceq
            rw [hceq, hback] at hj2x
            exact hxs (Option.some.inj hj2x).symm
          exact ⟨j2, by rw [hY9e, adj_setAdj_other _ _ _ _ hsa3 hj23 hj2s, hj2x]⟩
        · by_cases hqd : t2.adj sc2.2 = some y
          · obtain ⟨qt, sa, hq3, hsa3, hback, hqC⟩ := hQd y hqd
            rw [hqC] at hY9
            have hY9e := (Option.some.inj hY9).symm
            obtain ⟨qm, hqm, hqme, hqmf⟩ := hEXTm y qt (by omega) (by omega) hq3
            have hqmf0 : qm.flagged = false := by
              rw [← hqmf]
              have h2 := hY9e ▸ hY9f
              rw [flagged_setAdj] at h2
              exact h2
            obtain ⟨j, hj⟩ := hAS x xm i2 y qm hxm hxmf hx2 hqm hqmf0
            obtain ⟨j2, hj23, hj2e⟩ := adj_canon qm j
            have hj2x : qt.adj j2 = some x := by rw [hqme j2, hj2e, hj]
            have hj2s : j2 ≠ sa := by
              intro hceq
              rw [hceq, hback] at hj2x
              exact hxs (Option.some.inj hj2x).symm
            exact ⟨j2, by rw [hY9e, adj_setAdj_other _ _ _ _ hsa3 hj23 hj2s, hj2x]⟩
          · have hy9 : ((((m7.updTri m.nextId (fun t => t.setAdj 0 (some (m.nextId + 1)))).updTri (m.nextId + 1) (fun t => t.setAdj 0 (some m.nextId))).updTri f (fun t => { t with flagged := true })).updTri s (fun t => { t with flagged := true })).tri y = m3.tri y :=
              hUo y (by omega) (by omega) hyf hys hqa hqb hqc hqd
            rw [hy9] at hY9
            obtain ⟨ym, hym, hyme, hymf⟩ := hEXTm y Y9 (by omega) (by omega) hY9
            obtain ⟨j, hj⟩ := hAS x xm i2 y ym hxm hxmf hx2 hym
              (by rw [← hymf]; exact hY9f)
            obtain ⟨j2, hj23, hj2e⟩ := adj_canon ym j
            exact ⟨j2, by rw [hyme j2, hj2e, hj]⟩
  -- slot values of the two new triangles
  have hUF0 : (((tf3.setAdj 1 (t1.adj sc2.1)).setAdj 2 (t2.adj sc2.2)).setAdj 0
      (some (m.nextId + 1))).adj 0 = some (m.nextId + 1) := by
    rw [adj_setAdj0, if_pos rfl]
  have hUF1 : (((tf3.setAdj 1 (t1.adj sc2.1)).setAdj 2 (t2.adj sc2.2)).setAdj 0
      (some (m.nextId + 1))).adj 1 = t1.adj sc2.1 := by
    rw [adj_setAdj0, if_neg (by omega), adj_setAdj2, if_neg (by omega),
      if_pos rfl, adj_setAdj1, if_pos rfl]
  have hUF2 : (((tf3.setAdj 1 (t1.adj sc2.1)).setAdj 2 (t2.adj sc2.2)).setAdj 0
      (some (m.nextId + 1))).adj 2 = t2.adj sc2.2 := by
    rw [adj_setAdj0, if_neg (by omega), adj_setAdj2, if_neg (by omega),
      if_neg (by omega)]
  have hUFf : (((tf3.setAdj 1 (t1.adj sc2.1)).setAdj 2 (t2.adj sc2.2)).setAdj 0
      (some (m.nextId + 1))).flagged = false := by
    rw [flagged_setAdj, flagged_setAdj, flagged_setAdj, htf3f]
  have hUS0 : (((ts3.setAdj 2 (t1.adj sc1.1)).setAdj 1 (t2.adj sc1.2)).setAdj 0
      (some m.nextId)).adj 0 = some m.nextId := by
    rw [adj_setAdj0, if_pos rfl]
  have hUS1 : (((ts3.setAdj 2 (t1.adj sc1.1)).setAdj 1 (t2.adj sc1.2)).setAdj 0
      (some m.nextId)).adj 1 = t2.adj sc1.2 := by
    rw [adj_setAdj0, if_neg (by omega), adj_setAdj1, if_pos rfl]
  have hUS2 : (((ts3.setAdj 2 (t1.adj sc1.1)).setAdj 1 (t2.adj sc1.2)).setAdj 0
      (some m.nextId)).adj 2 = t1.adj sc1.1 := by
    rw [adj_setAdj0, if_neg (by omega), adj_setAdj1, if_neg (by omega),
      adj_setAdj2, if_neg (by omega), if_neg (by omega)]
  -- the symmetry proof
  intro ia A i ib B hA hAf hadj hB hBf
  have hianf : ia ≠ f := by
    intro h
    subst h
    have h2 := hM9f A hA
    rw [hAf] at h2
    cases h2
  have hians : ia ≠ s := by
    intro h
    subst h
    have h2 := hM9s A hA
    rw [hAf] at h2
    cases h2
  have hibnf : ib ≠ f := by
    intro h
    subst h
    have h2 := hM9f B hB
    rw [hBf] at h2
    cases h2
  have hibns : ib ≠ s := by
    intro h
    subst h
    have h2 := hM9s B hB
    rw [hBf] at h2
    cases h2
  by_cases hia0 : ia = m.nextId
  · -- source is the new first triangle
    subst hia0
    rw [hM9F] at hA
    have hAe := (Option.some.inj hA).symm
    rcases adj_cases A i with hc | hc | hc
    all_goals rw [hc] at hadj
    · rw [hAe, hUF0] at hadj
      cases Option.some.inj hadj
      rw [hM9S] at hB
      have hBe := (Option.some.inj hB).symm
      exact ⟨0, by rw [hBe, hUS0]⟩
    · rw [hAe, hUF1] at hadj
      obtain ⟨qt, sa, hq3, hsa3, hback, hqC⟩ := hQb ib hadj
      rw [hqC] at hB
      have hBe := (Option.some.inj hB).symm
      exact ⟨sa, by rw [hBe, adj_setAdj_self _ _ _ hsa3]⟩
    · rw [hAe, hUF2] at hadj
      obtain ⟨qt, sa, hq3, hsa3, hback, hqC⟩ := hQd ib hadj
      rw [hqC] at hB
      have hBe := (Option.some.inj hB).symm
      exact ⟨sa, by rw [hBe, adj_setAdj_self _ _ _ hsa3]⟩
  · by_cases hia1 : ia = m.nextId + 1
    · -- source is the new second triangle
      subst hia1
      rw [hM9S] at hA
      have hAe := (Option.some.inj hA).symm
      rcases adj_cases A i with hc | hc | hc
      all_goals rw [hc] at hadj
      · rw [hAe, hUS0] at hadj
        cases Option.some.inj hadj
        rw [hM9F] at hB
        have hBe := (Option.some.inj hB).symm
        exact ⟨0, by rw [hBe, hUF0]⟩
      · rw [hAe, hUS1] at hadj
        obtain ⟨qt, sa, hq3, hsa3, hback, hqC⟩ := hQc ib hadj
        rw [hqC] at hB
        have hBe := (Option.some.inj hB).symm
        exact ⟨sa, by rw [hBe, adj_setAdj_self _ _ _ hsa3]⟩
      · rw [hAe, hUS2] at hadj
        obtain ⟨qt, sa, hq3, hsa3, hback, hqC⟩ := hQa ib hadj
        rw [hqC] at hB
        have hBe := (Option.some.inj hB).symm
        exact ⟨sa, by rw [hBe, adj_setAdj_self _ _ _ hsa3]⟩
    · -- source is an ordinary (possibly rewired) old triangle
      have hib01 : ib ≠ m.nextId ∧ ib ≠ m.nextId + 1 → True := fun _ => trivial
      by_cases hqa : t1.adj sc1.1 = some ia
      · obtain ⟨qt, sa, hq3, hsa3, hback, hqC⟩ := hQa ia hqa
        rw [hqC] at hA
        have hAe := (Option.some.inj hA).symm
        have hialt : ia < m.nextId := hlt f t1 sc1.1 ia ht1 hqa
        obtain ⟨qm, hqm, hqme, hqmf⟩ := hEXTm ia qt (by omega) (by omega) hq3
        have hqmf0 : qm.flagged = false := by
          rw [← hqmf]
          have h2 := hAe ▸ hAf
          rw [flagged_setAdj] at h2
          exact h2
        rcases adj_setAdj_or qt sa i (some (m.nextId + 1)) hsa3 with hc | hc
        · rw [hAe, hc] at hadj
          cases Option.some.inj hadj
          rw [hM9S] at hB
          have hBe := (Option.some.inj hB).symm
          exact ⟨2, by rw [hBe, hUS2, hqa]⟩
        · rw [hAe, hc] at hadj
          exact hTGT ia ib B hianf hians
            ⟨qm, i, hqm, hqmf0, by rw [← hqme i]; exact hadj⟩ hibnf hibns hB hBf
      · by_cases hqb : t1.adj sc2.1 = some ia
        · obtain ⟨qt, sa, hq3, hsa3, hback, hqC⟩ := hQb ia hqb
          rw [hqC] at hA
          have hAe := (Option.some.inj hA).symm
          have hialt : ia < m.nextId := hlt f t1 sc2.1 ia ht1 hqb
          obtain ⟨qm, hqm, hqme, hqmf⟩ := hEXTm ia qt (by omega) (by omega) hq3
          have hqmf0 : qm.flagged = false := by
            rw [← hqmf]
            have h2 := hAe ▸ hAf
            rw [flagged_setAdj] at h2
            exact h2
          rcases adj_setAdj_or qt sa i (some m.nextId) hsa3 with hc | hc
          · rw [hAe, hc] at hadj
            cases Option.some.inj hadj
            rw [hM9F] at hB
            have hBe := (Option.some.inj hB).symm
            exact ⟨1, by rw [hBe, hUF1, hqb]⟩
          · rw [hAe, hc] at hadj
            exact hTGT ia ib B hianf hians
              ⟨qm, i, hqm, hqmf0, by rw [← hqme i]; exact hadj⟩ hibnf hibns hB hBf
        · by_cases hqc : t2.adj sc1.2 = some ia
          · obtain ⟨qt, sa, hq3, hsa3, hback, hqC⟩ := hQc ia hqc
            rw [hqC] at hA
            have hAe := (Option.some.inj hA).symm
            have hialt : ia < m.nextId := hlt s t2 sc1.2 ia ht2 hqc
            obtain ⟨qm, hqm, hqme, hqmf⟩ := hEXTm ia qt (by omega) (by omega) hq3
            have hqmf0 : qm.flagged = false := by
              rw [← hqmf]
              have h2 := hAe ▸ hAf
              rw [flagged_setAdj] at h2
              exact h2
            rcases adj_setAdj_or qt sa i (some (m.nextId + 1)) hsa3 with hc | hc
            · rw [hAe, hc] at hadj
              cases Option.some.inj hadj
              rw [hM9S] at hB
              have hBe := (Option.some.inj hB).symm
              exact ⟨1, by rw [hBe, hUS1, hqc]⟩
            · rw [hAe, hc] at hadj
              exact hTGT ia ib B hianf hians
                ⟨qm, i, hqm, hqmf0, by rw [← hqme i]; exact hadj⟩ hibnf hibns hB hBf
          · by_cases hqd : t2.adj sc2.2 = some ia
            · obtain ⟨qt, sa, hq3, hsa3, hback, hqC⟩ := hQd ia hqd
              rw [hqC] at hA
              have hAe := (Option.some.inj hA).symm
              have hialt : ia < m.nextId := hlt s t2 sc2.2 ia ht2 hqd
              obtain ⟨qm, hqm, hqme, hqmf⟩ := hEXTm ia qt (by omega)
                (by omega) hq3
              have hqmf0 : qm.flagged = false := by
                rw [← hqmf]
                have h2 := hAe ▸ hAf
                rw [flagged_setAdj] at h2
                exact h2
              rcases adj_setAdj_or qt sa i (some m.nextId) hsa3 with hc | hc
              · rw [hAe, hc] at hadj
                cases Option.some.inj hadj
                rw [hM9F] at hB
                have hBe := (Option.some.inj hB).symm
                exact ⟨2, by rw [hBe, hUF2, hqd]⟩
              · rw [hAe, hc] at hadj
                exact hTGT ia ib B hianf hians
                  ⟨qm, i, hqm, hqmf0, by rw [← hqme i]; exact hadj⟩ hibnf hibns
                  hB hBf
            · -- completely untouched source
              have hia9 : ((((m7.updTri m.nextId (fun t => t.setAdj 0 (some (m.nextId + 1)))).updTri (m.nextId + 1) (fun t => t.setAdj 0 (some m.nextId))).updTri f (fun t => { t with flagged := true })).updTri s (fun t => { t with flagged := true })).tri ia = m3.tri ia :=
                hUo ia hia0 hia1 hianf hians hqa hqb hqc hqd
              rw [hia9] at hA
              obtain ⟨Am, hAm, hAme, hAmf⟩ := hEXTm ia A hia0 hia1 hA
              exact hTGT ia ib B hianf hians
                ⟨Am, i, hAm, by rw [← hAmf]; exact hAf,
                  by rw [← hAme i]; exact hadj⟩ hibnf hibns hB hBf

/-- Claim C5: adjacency symmetry (`AdjSym`) is an invariant of the mesh
operations.  (1) The one-triangle bootstrap `CreateBoundaryPoints` satisfies
it.  (2) `InsertPoint`'s three-way split preserves it: on a well-formed mesh
(unique handles below the fresh counter, adjacency handles stored below the
counter) with a mesh-consistent inserted vertex whose surrounding triangle
has no self-loop and no doubled neighbor, a successful `insertPointSplit`
yields an adjacency-symmetric mesh.  (3) `FlipEdges` preserves it: when the
four outer neighbors of the two flipped triangles avoid the pair itself and
are pairwise distinct, a successful flip yields an adjacency-symmetric mesh
(the two old triangles are flagged, so they no longer participate). -/
theorem claim_C5 :
    AdjSym createBoundaryPoints ∧
    (∀ (m : Mesh) (vid : ℕ) (vertex : AdvVert) (oldT : Tri) (mf : Mesh),
      AdjSym m →
      (∀ k ∈ m.keys, k < m.nextId) →
      (∀ a A i b, m.tri a = some A → A.adj i = some b → b < m.nextId) →
      m.avert vid = some vertex →
      m.tri vertex.surrounding = some oldT →
      (∀ j, oldT.adj j ≠ some vertex.surrounding) →
      (∀ j k q, j < 3 → k < 3 → j ≠ k → oldT.adj j = some q →
        oldT.adj k ≠ some q) →
      insertPointSplit m vid = some mf → AdjSym mf) ∧
    (∀ (m : Mesh) (first second : ℕ) (t1 t2 : Tri) (sc1 sc2 dc : ℕ × ℕ)
      (mf : Mesh) (nf ns : ℕ),
      AdjSym m →
      (∀ k ∈ m.keys, k < m.nextId) →
      (∀ a A i b, m.tri a = some A → A.adj i = some b → b < m.nextId) →
      m.tri first = some t1 → m.tri second = some t2 → first ≠ second →
      (∀ q, t1.adj sc1.1 = some q → q ≠ first ∧ q ≠ second) →
      (∀ q, t1.adj sc2.1 = some q → q ≠ first ∧ q ≠ second) →
      (∀ q, t2.adj sc1.2 = some q → q ≠ first ∧ q ≠ second) →
      (∀ q, t2.adj sc2.2 = some q → q ≠ first ∧ q ≠ second) →
      (∀ q, t1.adj sc1.1 = some q → t1.adj sc2.1 ≠ some q) →
      (∀ q, t1.adj sc1.1 = some q → t2.adj sc1.2 ≠ some q) →
      (∀ q, t1.adj sc1.1 = some q → t2.adj sc2.2 ≠ some q) →
      (∀ q, t1.adj sc2.1 = some q → t2.adj sc1.2 ≠ some q) →
      (∀ q, t1.adj sc2.1 = some q → t2.adj sc2.2 ≠ some q) →
      (∀ q, t2.adj sc1.2 = some q → t2.adj sc2.2 ≠ some q) →
      flipEdges m first second sc1 sc2 dc = some (mf, nf, ns) → AdjSym mf) :=
  ⟨adjSym_createBoundaryPoints,
   fun m vid vertex oldT mf hAS hwf hlt hav hold hnself hdist hrun =>
     adjSym_insertPointSplit m vid vertex oldT mf hAS hwf hlt hav hold
       hnself hdist hrun,
   fun m first second t1 t2 sc1 sc2 dc mf nf ns hAS hwf hlt ht1 ht2 hfs
     hano hbno hcno hdno hab hac had hbc hbd hcd hrun =>
     adjSym_flipEdges m first second t1 t2 sc1 sc2 dc mf nf ns hAS hwf hlt
       ht1 ht2 hfs hano hbno hcno hdno hab hac had hbc hbd hcd hrun⟩

end Thor

